import Mathlib

set_option maxHeartbeats 1000000
set_option maxRecDepth 8000

namespace Nonogram

/-! # A verification of the nonogram solver

Shallow embedding of the solver (src/tools/solver.py), its data model
(src/models.py) and the puzzle generator (src/tools/generator.py),
followed by theorems about the embedded definitions.  Definitions first,
then the lemma and theorem development. -/

/-! ## Data model (models.py) and clue generation (generator.py)

The embedding keeps all functions structurally recursive (using explicit fuel
where the Python code loops on a non-structural measure) so that every
definition evaluates inside the kernel on concrete inputs. -/
/-- Color id reserved for empty cells (models.py: `EMPTY = 0`). -/
def EMPTY : Nat := 0

/-- A single clue entry: a run of `count` consecutive cells of color `color`
(models.py, `class Clue`). -/
structure Clue where
  count : Nat
  color : Nat
deriving DecidableEq

/-- Scanning state for run-length encoding: the currently open run (color and
count so far), if any.  This mirrors the index-walking while-loops of
generator.py `generate_clues` one cell at a time. -/
def rle_aux : Option (Nat × Nat) → List Nat → List Clue
  | none, [] => []
  | some (color, count), [] => [⟨count, color⟩]
  | none, x :: xs =>
    if x = EMPTY then rle_aux none xs else rle_aux (some (x, 1)) xs
  | some (color, count), x :: xs =>
    if x = color then rle_aux (some (color, count + 1)) xs
    else if x = EMPTY then ⟨count, color⟩ :: rle_aux none xs
    else ⟨count, color⟩ :: rle_aux (some (x, 1)) xs

/-- Run-length encoding of a line into clues (generator.py, `generate_clues`):
consecutive runs of the same non-zero color become clues, zeros separate runs
and produce no clue. -/
def generate_clues (line : List Nat) : List Clue := rle_aux none line

/-- A clue list is well formed when every count is positive and no clue uses the
reserved empty color (the data-model invariant of models.py / spec section 3). -/
def WFClues (clues : List Clue) : Prop :=
  ∀ c ∈ clues, 0 < c.count ∧ c.color ≠ EMPTY

instance (clues : List Clue) : Decidable (WFClues clues) := by
  unfold WFClues; infer_instance

/-- Specification predicate: `Matches arr clues` holds when the fully determined
line `arr` realizes exactly the clue list `clues` — leading empties, then the
first run, and recursively the rest, with a run never directly followed by a
cell of its own color (which would merge the runs). -/
inductive Matches : List Nat → List Clue → Prop
  | nil (n : Nat) : Matches (List.replicate n EMPTY) []
  | cons (n : Nat) (c : Clue) (s : List Nat) (cs : List Clue)
      (hcount : 0 < c.count) (hcolor : c.color ≠ EMPTY)
      (hs : Matches s cs) (hhead : s.head? ≠ some c.color) :
      Matches (List.replicate n EMPTY ++ List.replicate c.count c.color ++ s) (c :: cs)

/-! ## Line arrangement enumeration (solver.py, `generate_arrangements`) -/
/-- Compatibility of an arrangement with the already-known cells of a line
(solver.py, `is_compatible`): pairwise over the zip, a known cell must equal the
arrangement's cell. -/
def is_compatible (line : List (Option Nat)) (arr : List Nat) : Bool :=
  match line, arr with
  | some v :: l, a :: r => v == a && is_compatible l r
  | none :: l, _ :: r => is_compatible l r
  | _, _ => true

/-- Minimum space needed by the remaining clues: the sum of their counts plus one
separator between adjacent clues of the same color (solver.py, lines 80-83). -/
def min_remaining : List Clue → Nat
  | [] => 0
  | [c] => c.count
  | c :: d :: rest => c.count + (if c.color = d.color then 1 else 0) + min_remaining (d :: rest)

/-- The placement check of solver.py lines 96-100: none of the cells the clue
would occupy is already known to hold a different color. -/
def can_place (line : List (Option Nat)) (color start cnt : Nat) : Bool :=
  (List.range' start cnt).all fun i =>
    match line.getD i none with
    | none => true
    | some v => v == color

/-- The must-stop check of solver.py lines 104-110 and 121-127: some cell
between `pos` and `start` is already known to hold exactly this clue's color, so
later starting offsets can never cover it. -/
def must_stop (line : List (Option Nat)) (color pos start : Nat) : Bool :=
  (List.range' pos (start - pos)).any fun i => line.getD i none == some color

/-- The prefix check of solver.py lines 113-118: every cell between `pos` and
`start`, which the arrangement fills with EMPTY, must not be known non-empty. -/
def prefix_ok (line : List (Option Nat)) (pos start : Nat) : Bool :=
  (List.range' pos (start - pos)).all fun i =>
    match line.getD i none with
    | none => true
    | some v => v == EMPTY

/-- The separator-cell test of solver.py line 140: the cell after the run is
already known to hold a non-empty color, so the mandatory separator between two
same-colored runs cannot be placed there. -/
def known_nonempty : Option Nat → Bool
  | none => false
  | some v => !(v == EMPTY)

/-- The `for start in range(...)` loop inside generate_arrangements.recurse
(solver.py lines 86-147): a `break` returns the empty remainder, a `continue`
recurses on the remaining starts, and a successful placement descends via
`recur` (the recursive call on the remaining clues) before continuing with the
next start. -/
def starts_loop (line : List (Option Nat)) (clue : Clue) (rest : List Clue)
    (pos : Nat) (current : List Nat)
    (recur : Nat → List Nat → List (List Nat)) : List Nat → List (List Nat)
  | [] => []
  | start :: more =>
    if line.length < start + clue.count then []
    else if can_place line clue.color start clue.count then
      if prefix_ok line pos start then
        let placed := current ++ List.replicate (start - pos) EMPTY ++
          List.replicate clue.count clue.color
        match rest.head? with
        | some next =>
          if next.color = clue.color then
            if start + clue.count < line.length then
              if known_nonempty (line.getD (start + clue.count) none) then
                starts_loop line clue rest pos current recur more
              else
                recur (start + clue.count + 1) (placed ++ [EMPTY]) ++
                  starts_loop line clue rest pos current recur more
            else starts_loop line clue rest pos current recur more
          else
            recur (start + clue.count) placed ++
              starts_loop line clue rest pos current recur more
        | none =>
          recur (start + clue.count) placed ++
            starts_loop line clue rest pos current recur more
      else
        if must_stop line clue.color pos start then []
        else starts_loop line clue rest pos current recur more
    else
      if must_stop line clue.color pos start then []
      else starts_loop line clue rest pos current recur more

/-- Recursive arrangement builder (solver.py, `generate_arrangements.recurse`):
`clues` are the clues still to place, `pos` the next free index, `current` the
cells laid down so far (always of length `pos`).  The fuel argument only bounds
the recursion depth for structural termination: one unit is spent per placed
clue, so any fuel exceeding the number of clues gives the loop of the source. -/
def arrange_fuel (line : List (Option Nat)) : Nat → List Clue → Nat → List Nat → List (List Nat)
  | 0, _, _, _ => []
  | fuel + 1, clues, pos, current =>
    match clues with
    | [] =>
      let full := current ++ List.replicate (line.length - pos) EMPTY
      if is_compatible line full then [full] else []
    | clue :: rest =>
      starts_loop line clue rest pos current
        (fun p cur => arrange_fuel line fuel rest p cur)
        (List.range' pos (line.length + 1 - min_remaining (clue :: rest) - pos))

/-- All valid arrangements of the clues in a line, in generation order
(solver.py, `generate_arrangements`). -/
def generate_arrangements (line : List (Option Nat)) (clues : List Clue) :
    List (List Nat) :=
  arrange_fuel line (clues.length + 1) clues 0 []

/-! ## Single line solving (solver.py, `solve_line`) -/
/-- The no-clue branch of solver.py `solve_line` (lines 26-33): an empty clue
list forces every cell empty, and a known non-empty cell is a contradiction. -/
def empty_line_result : List (Option Nat) → Option (List (Option Nat))
  | [] => some []
  | cell :: rest =>
    match cell with
    | some v =>
      if v = EMPTY then (empty_line_result rest).map (fun r => some EMPTY :: r)
      else none
    | none => (empty_line_result rest).map (fun r => some EMPTY :: r)

/-- The intersection step of solver.py `solve_line` (lines 42-51): already-known
cells are kept; an unknown cell becomes determined exactly when every
arrangement agrees on its value (the Python value set has a single element iff
all values equal the first arrangement's value there). -/
def intersect_cells (first : List Nat) (arrs : List (List Nat)) (i : Nat) :
    List (Option Nat) → List (Option Nat)
  | [] => []
  | cell :: restLine =>
    (match cell with
     | some v => some v
     | none =>
       if arrs.all (fun b => b.getD i EMPTY == first.getD i EMPTY) then
         some (first.getD i EMPTY)
       else none) ::
    intersect_cells first arrs (i + 1) restLine

/-- Solve a single line (solver.py, `solve_line`): `none` signals that no valid
arrangement exists; otherwise the updated line with newly determined cells. -/
def solve_line (line : List (Option Nat)) (clues : List Clue) :
    Option (List (Option Nat)) :=
  match clues with
  | [] => empty_line_result line
  | _ :: _ =>
    match generate_arrangements line clues with
    | [] => none
    | a :: rest => some (intersect_cells a (a :: rest) 0 line)

/-- Pointwise form of compatibility: every known cell's value is reproduced by
the arrangement. -/
def LineCompat (line : List (Option Nat)) (arr : List Nat) : Prop :=
  ∀ i v, line.getD i none = some v → arr.getD i EMPTY = v

/-- A valid arrangement for a line: full length, compatible with the known
cells, and realizing the clue list (spec section 4.1 and glossary). -/
def ValidArr (line : List (Option Nat)) (clues : List Clue) (arr : List Nat) : Prop :=
  arr.length = line.length ∧ is_compatible line arr = true ∧ Matches arr clues

/-! ## Grid (models.py, `class Grid`) -/
structure Grid where
  width : Nat
  height : Nat
  cells : List (List (Option Nat))
deriving DecidableEq

/-- models.py `Grid.create_empty`: all cells unknown. -/
def Grid.create_empty (width height : Nat) : Grid :=
  ⟨width, height, List.replicate height (List.replicate width none)⟩

/-- models.py `Grid.get`. -/
def Grid.get (g : Grid) (row col : Nat) : Option Nat :=
  (g.cells.getD row []).getD col none

/-- models.py `Grid.set`: no-op when the value is unchanged, `ValueError`
(modeled as `Except.error`) when overwriting a determined cell with a different
determined value, plain write otherwise.  Returns whether a change was made. -/
def Grid.set (g : Grid) (row col : Nat) (value : Option Nat) :
    Except String (Grid × Bool) :=
  if g.get row col = value then .ok (g, false)
  else
    match g.get row col, value with
    | some _, some _ => .error "conflict"
    | _, _ =>
      .ok ({ g with cells := g.cells.set row ((g.cells.getD row []).set col value) }, true)

/-- models.py `Grid.get_row`. -/
def Grid.get_row (g : Grid) (row : Nat) : List (Option Nat) :=
  g.cells.getD row []

/-- models.py `Grid.get_col`. -/
def Grid.get_col (g : Grid) (col : Nat) : List (Option Nat) :=
  (List.range g.height).map fun row => (g.cells.getD row []).getD col none

/-- The cell walk of models.py `Grid.set_row`: only unknown cells receive a
determined value; returns the new row and the number of changed cells. -/
def set_row_cells : List (Option Nat) → List (Option Nat) → List (Option Nat) × Nat
  | cells, [] => (cells, 0)
  | [], _ :: _ => ([], 0)
  | cur :: cs, v :: vs =>
    let r := set_row_cells cs vs
    match cur, v with
    | none, some w => (some w :: r.1, r.2 + 1)
    | _, _ => (cur :: r.1, r.2)

/-- models.py `Grid.set_row`. -/
def Grid.set_row (g : Grid) (row : Nat) (values : List (Option Nat)) : Grid × Nat :=
  let r := set_row_cells (g.cells.getD row []) values
  ({ g with cells := g.cells.set row r.1 }, r.2)

/-- The row walk of models.py `Grid.set_col`: an in-bounds unknown cell receives
a determined value.  (An out-of-bounds column, which would raise IndexError in
Python, cannot occur: callers pass a column index below the width of every
row.) -/
def set_col_cells (col : Nat) : List (List (Option Nat)) → List (Option Nat) →
    List (List (Option Nat)) × Nat
  | rows, [] => (rows, 0)
  | [], _ :: _ => ([], 0)
  | r :: rs, v :: vs =>
    let t := set_col_cells col rs vs
    match r.get? col, v with
    | some none, some w => ((r.set col (some w)) :: t.1, t.2 + 1)
    | _, _ => (r :: t.1, t.2)

/-- models.py `Grid.set_col`. -/
def Grid.set_col (g : Grid) (col : Nat) (values : List (Option Nat)) : Grid × Nat :=
  let t := set_col_cells col g.cells values
  ({ g with cells := t.1 }, t.2)

/-- models.py `Grid.is_complete`. -/
def Grid.is_complete (g : Grid) : Bool :=
  g.cells.all fun row => row.all fun cell => cell.isSome

/-- models.py `Grid.unknown_count`. -/
def Grid.unknown_count (g : Grid) : Nat :=
  (g.cells.map fun row => row.countP fun cell => cell.isNone).sum

/-- models.py `Grid.copy`: grids are immutable values here, so a deep copy is
the value itself. -/
def Grid.copy (g : Grid) : Grid := g

/-! ## Metrics and results (models.py / solver.py) -/
structure SolverMetrics where
  total_steps : Nat
  cells_solved : Nat
  overlap_uses : Nat
  stuck_count : Nat
  backtrack_depth : Nat
  backtrack_count : Nat
deriving DecidableEq

/-- The all-zero `SolverMetrics()` default of models.py. -/
def SolverMetrics.zero : SolverMetrics := ⟨0, 0, 0, 0, 0, 0⟩

/-- models.py `SolverMetrics.max_technique_level`. -/
def SolverMetrics.max_technique_level (m : SolverMetrics) : Nat :=
  if m.backtrack_count > 0 then 3
  else if m.stuck_count > 0 then 2
  else 1

/-- The puzzle model (models.py `class Puzzle`).  `colors` carries the keys of
`color_map` in ascending order; the RGB payload is never read by the solver. -/
structure Puzzle where
  width : Nat
  height : Nat
  row_clues : List (List Clue)
  col_clues : List (List Clue)
  colors : List Nat
deriving DecidableEq

/-- solver.py `SolveResult`. -/
structure SolveResult where
  solved : Bool
  grid : Grid
  metrics : SolverMetrics
  solutions_found : Nat
  timed_out : Bool
deriving DecidableEq

/-- Outcome of solving one line inside a pass: a contradiction (carrying the
grid and metrics as mutated so far) or the updated state plus a changed flag. -/
inductive PassOut where
  | contra : Grid → SolverMetrics → PassOut
  | next : Grid → SolverMetrics → Bool → PassOut
deriving DecidableEq

/-! ## Constraint propagation (solver.py, `class Solver`) -/
/-- solver.py `Solver._solve_row`. -/
def Solver.solve_row (p : Puzzle) (g : Grid) (m : SolverMetrics) (row_idx : Nat) :
    Except String PassOut :=
  match p.row_clues.get? row_idx with
  | none => .error "row index out of range"
  | some clues =>
    match solve_line (g.get_row row_idx) clues with
    | none => .ok (.contra g m)
    | some result =>
      let r := g.set_row row_idx result
      .ok (.next r.1
        { m with
            total_steps := m.total_steps + 1,
            overlap_uses := m.overlap_uses + (if 0 < r.2 then 1 else 0) }
        (decide (0 < r.2)))

/-- solver.py `Solver._solve_col`. -/
def Solver.solve_col (p : Puzzle) (g : Grid) (m : SolverMetrics) (col_idx : Nat) :
    Except String PassOut :=
  match p.col_clues.get? col_idx with
  | none => .error "col index out of range"
  | some clues =>
    match solve_line (g.get_col col_idx) clues with
    | none => .ok (.contra g m)
    | some result =>
      let r := g.set_col col_idx result
      .ok (.next r.1
        { m with
            total_steps := m.total_steps + 1,
            overlap_uses := m.overlap_uses + (if 0 < r.2 then 1 else 0) }
        (decide (0 < r.2)))

/-- The row loop of one propagation iteration (solver.py lines 183-193 and
318-322): process rows in index order, accumulating the changed flag and
propagating a contradiction immediately. -/
def Solver.pass_rows (p : Puzzle) : Grid → SolverMetrics → Bool → List Nat →
    Except String PassOut
  | g, m, changed, [] => .ok (.next g m changed)
  | g, m, changed, r :: rest =>
    match Solver.solve_row p g m r with
    | .error e => .error e
    | .ok (.contra g' m') => .ok (.contra g' m')
    | .ok (.next g' m' rowChanged) =>
      Solver.pass_rows p g' m' (changed || rowChanged) rest

/-- The column loop of one propagation iteration (solver.py lines 196-205 and
324-328). -/
def Solver.pass_cols (p : Puzzle) : Grid → SolverMetrics → Bool → List Nat →
    Except String PassOut
  | g, m, changed, [] => .ok (.next g m changed)
  | g, m, changed, c :: rest =>
    match Solver.solve_col p g m c with
    | .error e => .error e
    | .ok (.contra g' m') => .ok (.contra g' m')
    | .ok (.next g' m' colChanged) =>
      Solver.pass_cols p g' m' (changed || colChanged) rest

/-- One full pass: all rows in order, then all columns in order, starting from a
fresh changed flag. -/
def Solver.pass_once (p : Puzzle) (g : Grid) (m : SolverMetrics) :
    Except String PassOut :=
  match Solver.pass_rows p g m false (List.range p.height) with
  | .error e => .error e
  | .ok (.contra g' m') => .ok (.contra g' m')
  | .ok (.next g1 m1 ch1) => Solver.pass_cols p g1 m1 ch1 (List.range p.width)

/-- One iteration of the top-level propagation loop (solver.py lines 178-208):
a full pass followed by the stuck-counter update when the pass produced no new
information on a still-incomplete grid. -/
def Solver.iteration (p : Puzzle) (g : Grid) (m : SolverMetrics) :
    Except String PassOut :=
  match Solver.pass_once p g m with
  | .error e => .error e
  | .ok (.contra g' m') => .ok (.contra g' m')
  | .ok (.next g' m' ch) =>
    if !ch && !g'.is_complete then
      .ok (.next g' { m' with stuck_count := m'.stuck_count + 1 } ch)
    else .ok (.next g' m' ch)

/-- The code after the loop of solver.py `Solver.solve` (lines 210-224). -/
def Solver.finish (p : Puzzle) (g : Grid) (m : SolverMetrics) : SolveResult :=
  if g.is_complete then
    { solved := true, grid := g,
      metrics := { m with cells_solved := p.width * p.height },
      solutions_found := 1, timed_out := false }
  else
    { solved := false, grid := g, metrics := m, solutions_found := 0,
      timed_out := false }

/-- The while loop of solver.py `Solver.solve`, with the iteration cap
(`10 * width * height`) as remaining fuel: the loop body runs while the flag is
set and iterations remain. -/
def Solver.loop (p : Puzzle) : Nat → Grid → SolverMetrics → Except String SolveResult
  | 0, g, m => .ok (Solver.finish p g m)
  | fuel + 1, g, m =>
    match Solver.iteration p g m with
    | .error e => .error e
    | .ok (.contra g' m') =>
      .ok { solved := false, grid := g', metrics := m', solutions_found := 0,
            timed_out := false }
    | .ok (.next g' m' ch) =>
      if ch then Solver.loop p fuel g' m'
      else .ok (Solver.finish p g' m')

/-- solver.py `Solver.solve`: constraint propagation from an empty grid. -/
def Solver.solve (p : Puzzle) : Except String SolveResult :=
  Solver.loop p (p.width * p.height * 10) (Grid.create_empty p.width p.height)
    SolverMetrics.zero

/-! ## Backtracking search (solver.py, `class BacktrackingSolver`) -/
/-- The in-branch propagation loop of `BacktrackingSolver._solve_recursive`
(solver.py lines 315-328): full passes to a fixpoint, with no iteration cap and
no stuck tracking.  `none` signals a contradiction (the branch fails).  The fuel
is only a structural termination device: each pass that reports a change
determines at least one new cell, so `unknown_count + 1` units never run out
(see `branch_propagate_go_no_fuel_error`). -/
def branch_propagate_go (p : Puzzle) : Nat → Grid → SolverMetrics →
    Except String (Option (Grid × SolverMetrics))
  | 0, _, _ => .error "propagation fuel exhausted"
  | fuel + 1, g, m =>
    match Solver.pass_once p g m with
    | .error e => .error e
    | .ok (.contra _ _) => .ok none
    | .ok (.next g' m' ch) =>
      if ch then branch_propagate_go p fuel g' m'
      else .ok (some (g', m'))

def branch_propagate (p : Puzzle) (g : Grid) (m : SolverMetrics) :
    Except String (Option (Grid × SolverMetrics)) :=
  branch_propagate_go p (g.unknown_count + 1) g m

/-- Mutable search state of `BacktrackingSolver`: accumulated metrics, recorded
solutions and the timed-out flag. -/
structure BState where
  metrics : SolverMetrics
  solutions : List Grid
  timed_out : Bool
deriving DecidableEq

/-- The first unknown cell of a row, scanning columns in order. -/
def find_unknown_in_row (row : List (Option Nat)) (width : Nat) : Option Nat :=
  (List.range width).find? fun c => (row.getD c none).isNone

def find_unknown_go (g : Grid) : List Nat → Option (Nat × Nat)
  | [] => none
  | r :: rs =>
    match find_unknown_in_row (g.cells.getD r []) g.width with
    | some c => some (r, c)
    | none => find_unknown_go g rs

/-- The row-major scan for the first unknown cell (solver.py lines 337-344). -/
def Grid.find_unknown (g : Grid) : Option (Nat × Nat) :=
  find_unknown_go g (List.range g.height)

/-- Candidate guess values (solver.py line 354): the palette colors plus EMPTY.
CPython iterates a set of small ints in ascending numeric order; puzzles carry
their palette as an ascending list, and `dedup` reproduces the set semantics. -/
def possible_colors (p : Puzzle) : List Nat :=
  (EMPTY :: p.colors).dedup

/-- The guess loop of `BacktrackingSolver._solve_recursive` (solver.py lines
356-364): try each candidate value on a clone of the working grid; a conflict
(`ValueError`) skips to the next value; stop as soon as enough solutions are
recorded.  After the loop the Python code returns `len(solutions) > 0`. -/
def color_loop (p : Puzzle) (maxSol : Nat) (working : Grid) (row col : Nat)
    (recur : BState → Grid → Except String (BState × Bool)) :
    BState → List Nat → Except String (BState × Bool)
  | bs, [] => .ok (bs, decide (0 < bs.solutions.length))
  | bs, color :: more =>
    match working.set row col (some color) with
    | .error _ => color_loop p maxSol working row col recur bs more
    | .ok t =>
      match recur bs t.1 with
      | .error e => .error e
      | .ok r =>
        if maxSol ≤ r.1.solutions.length then .ok (r.1, true)
        else color_loop p maxSol working row col recur r.1 more

/-- solver.py `BacktrackingSolver._solve_recursive`.  The fuel only bounds the
guessing depth for structural termination: every guess determines a previously
unknown cell, so `unknown_count + 1` units never run out (see
`solve_recursive_no_fuel_error`). -/
def solve_recursive (p : Puzzle) (maxSol maxBt : Nat) :
    Nat → BState → Grid → Except String (BState × Bool)
  | 0, _, _ => .error "search fuel exhausted"
  | fuel + 1, bs, grid =>
    if maxSol ≤ bs.solutions.length then .ok (bs, true)
    else if maxBt ≤ bs.metrics.backtrack_count then
      .ok ({ bs with timed_out := true }, true)
    else
      match branch_propagate p grid SolverMetrics.zero with
      | .error e => .error e
      | .ok none => .ok (bs, false)
      | .ok (some wp) =>
        let bs1 : BState :=
          { bs with metrics :=
              { bs.metrics with
                  total_steps := bs.metrics.total_steps + wp.2.total_steps } }
        if wp.1.is_complete then
          .ok ({ bs1 with solutions := bs1.solutions ++ [wp.1] }, true)
        else
          match wp.1.find_unknown with
          | none => .ok (bs1, false)
          | some rc =>
            let bs2 : BState :=
              { bs1 with metrics :=
                  { bs1.metrics with
                      backtrack_count := bs1.metrics.backtrack_count + 1,
                      backtrack_depth := max bs1.metrics.backtrack_depth 1 } }
            color_loop p maxSol wp.1 rc.1 rc.2
              (fun b g2 => solve_recursive p maxSol maxBt fuel b g2)
              bs2 (possible_colors p)

/-- Run the recursive search from the empty grid (solver.py line 269), returning
the final search state. -/
def backtracking_run (p : Puzzle) (maxSol maxBt : Nat) : Except String BState :=
  match solve_recursive p maxSol maxBt (p.width * p.height + 1)
      { metrics := SolverMetrics.zero, solutions := [], timed_out := false }
      (Grid.create_empty p.width p.height) with
  | .error e => .error e
  | .ok r => .ok r.1

/-- solver.py `BacktrackingSolver.solve` (lines 267-299): run the search, then
classify the outcome.  On timeout and on failure the reported grid is
`self.grid`, the untouched empty top-level grid. -/
def BacktrackingSolver.solve (p : Puzzle) (maxSol maxBt : Nat) :
    Except String SolveResult :=
  match backtracking_run p maxSol maxBt with
  | .error e => .error e
  | .ok bs =>
    if bs.timed_out then
      .ok { solved := false, grid := Grid.create_empty p.width p.height,
            metrics := bs.metrics, solutions_found := 0, timed_out := true }
    else if bs.solutions.length = 1 then
      .ok { solved := true,
            grid := bs.solutions.getD 0 (Grid.create_empty p.width p.height),
            metrics := bs.metrics, solutions_found := 1, timed_out := false }
    else if 1 < bs.solutions.length then
      .ok { solved := true,
            grid := bs.solutions.getD 0 (Grid.create_empty p.width p.height),
            metrics := bs.metrics, solutions_found := bs.solutions.length,
            timed_out := false }
    else
      .ok { solved := false, grid := Grid.create_empty p.width p.height,
            metrics := bs.metrics, solutions_found := 0, timed_out := false }

/-- solver.py top-level `solve`: uniqueness checking caps the search at two
solutions, otherwise at one; the guess budget is the default 500. -/
def solve (p : Puzzle) (check_uniqueness : Bool) : Except String SolveResult :=
  if check_uniqueness then BacktrackingSolver.solve p 2 500
  else BacktrackingSolver.solve p 1 500

/-! ## Puzzle generation (generator.py) -/
/-- One column of a rectangular color grid (generator.py line 148). -/
def grid_column (grid : List (List Nat)) (col : Nat) : List Nat :=
  grid.map fun row => row.getD col EMPTY

/-- generator.py `puzzle_from_grid` (without trimming): derive row and column
clues from a fully filled grid.  `colors` stands for the keys of the color map
argument. -/
def puzzle_from_grid (grid : List (List Nat)) (colors : List Nat) : Puzzle :=
  { width := (grid.headD []).length,
    height := grid.length,
    row_clues := grid.map generate_clues,
    col_clues := (List.range (grid.headD []).length).map fun c =>
      generate_clues (grid_column grid c),
    colors := colors }

/-- Shape coherence of a grid: the cell matrix has `height` rows of `width`
cells each.  `Grid.create_empty` establishes it and every operation preserves
it. -/
def Grid.WF (g : Grid) : Prop :=
  g.cells.length = g.height ∧ ∀ row ∈ g.cells, row.length = g.width

instance (g : Grid) : Decidable g.WF := by
  unfold Grid.WF; infer_instance

/-- `g'` refines `g`: every cell determined in `g` keeps its value in `g'`. -/
def Extends (g g' : Grid) : Prop :=
  ∀ a b v, g.get a b = some v → g'.get a b = some v

/-- The metric fields a single propagation pass never writes. -/
def MPres (m m' : SolverMetrics) : Prop :=
  m'.stuck_count = m.stuck_count ∧ m'.backtrack_count = m.backtrack_count ∧
  m'.backtrack_depth = m.backtrack_depth ∧ m'.cells_solved = m.cells_solved

/-- Relation between the search state at entry and at exit of a recursive
search call: the stuck and cells counters are untouched, the depth counter
never exceeds `max old 1`, solutions are only appended, the timeout flag is
monotone, and the number of solutions never exceeds `max old maxSol`. -/
def BStep (maxSol : Nat) (bs r1 : BState) : Prop :=
  r1.metrics.stuck_count = bs.metrics.stuck_count ∧
  r1.metrics.cells_solved = bs.metrics.cells_solved ∧
  r1.metrics.backtrack_depth ≤ max bs.metrics.backtrack_depth 1 ∧
  (∃ new, r1.solutions = bs.solutions ++ new) ∧
  (bs.timed_out = true → r1.timed_out = true) ∧
  r1.solutions.length ≤ max bs.solutions.length maxSol

/-- Puzzle well-formedness (spec section 2): clue lists match the declared
dimensions, clue counts are positive, clue colors are non-empty palette
entries. -/
def WFPuzzle (p : Puzzle) : Prop :=
  p.row_clues.length = p.height ∧ p.col_clues.length = p.width ∧
  (∀ cl ∈ p.row_clues, WFClues cl ∧ ∀ c ∈ cl, c.color ∈ p.colors) ∧
  (∀ cl ∈ p.col_clues, WFClues cl ∧ ∀ c ∈ cl, c.color ∈ p.colors)

instance (p : Puzzle) : Decidable (WFPuzzle p) := by
  unfold WFPuzzle; infer_instance

/-- The 2x2 checkerboard puzzle: every line clue is a single cell of color 1.
It has exactly the two checkerboard solutions. -/
def p22 : Puzzle :=
  { width := 2, height := 2,
    row_clues := [[⟨1, 1⟩], [⟨1, 1⟩]],
    col_clues := [[⟨1, 1⟩], [⟨1, 1⟩]],
    colors := [1] }

/-- The 3x3 permutation puzzle: one cell of color 1 in every row and column.
Its solutions are the six permutation matrices. -/
def p33 : Puzzle :=
  { width := 3, height := 3,
    row_clues := [[⟨1, 1⟩], [⟨1, 1⟩], [⟨1, 1⟩]],
    col_clues := [[⟨1, 1⟩], [⟨1, 1⟩], [⟨1, 1⟩]],
    colors := [1] }

/-- Property of a grid recorded as a solution during the search below branch
grid `g`: complete, refining `g`, with `g`'s dimensions, well-formed, and a
fixpoint of a full propagation pass. -/
def SolRec (p : Puzzle) (g s : Grid) : Prop :=
  s.is_complete = true ∧ Extends g s ∧ s.width = g.width ∧ s.height = g.height ∧
  s.WF ∧ ∃ m0 m1, Solver.pass_once p s m0 = .ok (.next s m1 false)

/-- First recorded solution of the 2x2 checkerboard puzzle. -/
def gA : Grid := ⟨2, 2, [[some 0, some 1], [some 1, some 0]]⟩

/-- Second recorded solution of the 2x2 checkerboard puzzle. -/
def gB : Grid := ⟨2, 2, [[some 1, some 0], [some 0, some 1]]⟩

/-- Final search state of the uniqueness-checking run on `p22`. -/
def bs22 : BState := ⟨⟨20, 0, 0, 0, 1, 1⟩, [gA, gB], false⟩

/-- A 3x3 puzzle whose search exhausts a 3-guess budget after having recorded
one complete solution. -/
def p10 : Puzzle :=
  { width := 3, height := 3,
    row_clues := [[⟨1, 1⟩], [⟨2, 1⟩], [⟨1, 1⟩]],
    col_clues := [[⟨1, 1⟩], [⟨2, 1⟩], [⟨1, 1⟩]],
    colors := [1] }

/-- The solution of `p10` recorded before its guess budget runs out. -/
def g10s : Grid :=
  ⟨3, 3, [[some 0, some 0, some 1], [some 1, some 1, some 0],
    [some 0, some 1, some 0]]⟩

/-- Final search state of the run on `p10` with a guess budget of 3. -/
def bs10 : BState := ⟨⟨48, 0, 0, 0, 1, 3⟩, [g10s], true⟩

/-- The two solutions the capped search records for `p33`. -/
def sol33a : Grid :=
  ⟨3, 3, [[some 0, some 0, some 1], [some 0, some 1, some 0],
    [some 1, some 0, some 0]]⟩

def sol33b : Grid :=
  ⟨3, 3, [[some 0, some 0, some 1], [some 1, some 0, some 0],
    [some 0, some 1, some 0]]⟩

/-- Final search state of the uniqueness-checking run on `p33`. -/
def bs33 : BState := ⟨⟨48, 0, 0, 0, 1, 3⟩, [sol33a, sol33b], false⟩

/-- The grid after the first guess of the `p33` search (cell (0,0) guessed
empty). -/
def t33 : Grid :=
  ⟨3, 3, [[some 0, none, none], [none, none, none], [none, none, none]]⟩

/-- The color values of a fully (or partially) determined line, unknown read as
empty. -/
def line_vals (l : List (Option Nat)) : List Nat := l.map (fun c => c.getD EMPTY)

/-- `H` is a complete well-formed solution grid of puzzle `p`: it has `p`'s
dimensions and every row and column realizes its clue list. -/
def GridSol (p : Puzzle) (H : Grid) : Prop :=
  H.is_complete = true ∧ H.WF ∧ H.width = p.width ∧ H.height = p.height ∧
  (∀ i, i < p.height →
    generate_clues (line_vals (H.get_row i)) = p.row_clues.getD i []) ∧
  (∀ j, j < p.width →
    generate_clues (line_vals (H.get_col j)) = p.col_clues.getD j [])

/-- A fully filled color grid as a solver grid (every cell determined). -/
def Grid.of_rows (rows : List (List Nat)) : Grid :=
  ⟨(rows.headD []).length, rows.length, rows.map (fun row => row.map some)⟩

/-- The color values of a (complete) solver grid. -/
def rows_of (g : Grid) : List (List Nat) := g.cells.map line_vals

/-- `rows` is a solution of puzzle `p`: right dimensions, and every row and
column run-length-encodes to its clue list. -/
def IsSolution (p : Puzzle) (rows : List (List Nat)) : Prop :=
  rows.length = p.height ∧ (∀ row ∈ rows, row.length = p.width) ∧
  (∀ i, i < p.height → generate_clues (rows.getD i []) = p.row_clues.getD i []) ∧
  (∀ j, j < p.width → generate_clues (grid_column rows j) = p.col_clues.getD j [])

/-- The smallest grid (4x3) whose generated puzzle has a unique solution but
needs guessing, so that an empty palette leaves the solver unable to
reconstruct it. -/
def g43 : List (List Nat) := [[0, 1, 0], [0, 0, 1], [0, 0, 1], [0, 1, 0]]

/-! ## Lemmas about run-length encoding and `Matches` -/
theorem matches_cons_zero {s : List Nat} {cs : List Clue} (h : Matches s cs) :
    Matches (EMPTY :: s) cs := by
  cases h with
  | nil n =>
    have h2 : (EMPTY :: List.replicate n EMPTY) = List.replicate (n + 1) EMPTY := by
      simp [List.replicate_succ]
    rw [h2]; exact Matches.nil (n + 1)
  | cons n c s cs hcount hcolor hs hhead =>
    have h2 : (EMPTY :: (List.replicate n EMPTY ++ List.replicate c.count c.color ++ s)) =
        List.replicate (n + 1) EMPTY ++ List.replicate c.count c.color ++ s := by
      simp [List.replicate_succ]
    rw [h2]; exact Matches.cons (n + 1) c s cs hcount hcolor hs hhead

theorem matches_zero_cons {s : List Nat} {cs : List Clue} (h : Matches (EMPTY :: s) cs) :
    Matches s cs := by
  generalize hl : (EMPTY :: s) = l at h
  cases h with
  | nil n =>
    cases n with
    | zero => simp at hl
    | succ m =>
      rw [List.replicate_succ] at hl
      obtain ⟨-, h2⟩ := List.cons.inj hl
      rw [h2]; exact Matches.nil m
  | cons n c t cs' hcount hcolor hs hhead =>
    cases n with
    | zero =>
      exfalso
      rw [List.replicate_zero, List.nil_append] at hl
      cases hc : c.count with
      | zero => omega
      | succ k =>
        rw [hc, List.replicate_succ, List.cons_append] at hl
        obtain ⟨h1, -⟩ := List.cons.inj hl
        exact hcolor h1.symm
    | succ m =>
      rw [List.replicate_succ, List.cons_append, List.cons_append] at hl
      obtain ⟨-, h2⟩ := List.cons.inj hl
      rw [h2]; exact Matches.cons m c t cs' hcount hcolor hs hhead

theorem matches_head {s : List Nat} {c : Clue} {cs : List Clue}
    (h : Matches s (c :: cs)) :
    s.head? = some EMPTY ∨ s.head? = some c.color := by
  cases h with
  | cons n c' t cs' hcount hcolor hs hhead =>
    cases n with
    | zero =>
      right
      cases hk : c.count with
      | zero => omega
      | succ k => simp [hk, List.replicate_succ]
    | succ m => left; simp [List.replicate_succ]

theorem matches_nil_all_empty {s : List Nat} (h : Matches s []) :
    ∃ n, s = List.replicate n EMPTY := by
  cases h with
  | nil n => exact ⟨n, rfl⟩

theorem matches_wf {s : List Nat} {cs : List Clue} (h : Matches s cs) : WFClues cs := by
  induction h with
  | nil n => intro c hc; simp at hc
  | cons n c t cs hcount hcolor hs hhead ih =>
    intro d hd
    rcases List.mem_cons.mp hd with h1 | h2
    · subst h1; exact ⟨hcount, hcolor⟩
    · exact ih d h2

theorem generate_clues_zero_cons (xs : List Nat) :
    generate_clues (EMPTY :: xs) = generate_clues xs := by
  rw [generate_clues, rle_aux, if_pos rfl]; rfl

theorem generate_clues_empty_append (n : Nat) (s : List Nat) :
    generate_clues (List.replicate n EMPTY ++ s) = generate_clues s := by
  induction n with
  | zero => rw [List.replicate_zero, List.nil_append]
  | succ m ih => rw [List.replicate_succ, List.cons_append, generate_clues_zero_cons]; exact ih

theorem generate_clues_replicate_empty (n : Nat) :
    generate_clues (List.replicate n EMPTY) = [] := by
  have := generate_clues_empty_append n []
  simpa using this

theorem rle_aux_open_run (j c k : Nat) (s : List Nat) :
    rle_aux (some (c, k)) (List.replicate j c ++ s) = rle_aux (some (c, k + j)) s := by
  induction j generalizing k with
  | zero => rw [List.replicate_zero, List.nil_append, Nat.add_zero]
  | succ m ih =>
    rw [List.replicate_succ, List.cons_append]
    have h1 : rle_aux (some (c, k)) (c :: (List.replicate m c ++ s)) =
        rle_aux (some (c, k + 1)) (List.replicate m c ++ s) := by
      simp [rle_aux]
    rw [h1, ih (k + 1)]
    have h2 : k + 1 + m = k + (m + 1) := by omega
    rw [h2]

theorem rle_aux_close_run {s : List Nat} (c k : Nat) (hs : s.head? ≠ some c) :
    rle_aux (some (c, k)) s = ⟨k, c⟩ :: rle_aux none s := by
  cases s with
  | nil => rfl
  | cons x xs =>
    have hx : x ≠ c := by
      intro h; apply hs; simp [h]
    by_cases hx0 : x = EMPTY
    · subst hx0
      simp [rle_aux, hx]
    · simp [rle_aux, hx, hx0]

theorem generate_clues_run_append {c : Nat} (k : Nat) {s : List Nat}
    (hc : c ≠ EMPTY) (hk : 0 < k) (hs : s.head? ≠ some c) :
    generate_clues (List.replicate k c ++ s) = ⟨k, c⟩ :: generate_clues s := by
  cases k with
  | zero => omega
  | succ m =>
    rw [List.replicate_succ, List.cons_append]
    have h1 : generate_clues (c :: (List.replicate m c ++ s)) =
        rle_aux (some (c, 1)) (List.replicate m c ++ s) := by
      simp [generate_clues, rle_aux, hc]
    rw [h1, rle_aux_open_run m c 1 s, rle_aux_close_run c (1 + m) hs]
    have h2 : 1 + m = m + 1 := by omega
    rw [h2]
    rfl

theorem dropWhile_head_not {p : Nat → Bool} :
    ∀ (l : List Nat) {a : Nat} {t : List Nat}, l.dropWhile p = a :: t → p a = false := by
  intro l
  induction l with
  | nil => intro a t h; simp at h
  | cons x xs ih =>
    intro a t h
    rw [List.dropWhile_cons] at h
    by_cases hx : p x = true
    · rw [if_pos hx] at h; exact ih h
    · rw [if_neg hx] at h
      obtain ⟨h1, -⟩ := List.cons.inj h
      rw [← h1]
      simpa using hx

/-- Every fully determined line matches its own run-length encoding. -/
theorem matches_generate_clues (arr : List Nat) : Matches arr (generate_clues arr) := by
  suffices h : ∀ (n : Nat) (l : List Nat), l.length ≤ n → Matches l (generate_clues l) by
    exact h arr.length arr (Nat.le_refl _)
  intro n
  induction n with
  | zero =>
    intro l hl
    have : l = [] := List.eq_nil_of_length_eq_zero (Nat.le_zero.mp hl)
    subst this
    exact Matches.nil 0
  | succ m ih =>
    intro l hl
    cases l with
    | nil => exact Matches.nil 0
    | cons x xs =>
      by_cases hx : x = EMPTY
      · subst hx
        rw [generate_clues_zero_cons]
        exact matches_cons_zero (ih xs (by simpa using Nat.le_of_succ_le_succ hl))
      · have htw : xs.takeWhile (fun y => y == x) =
            List.replicate (xs.takeWhile (fun y => y == x)).length x := by
          apply List.eq_replicate_of_mem
          intro b hb
          have := List.mem_takeWhile_imp hb
          simpa using this
        have hsplit : x :: xs =
            List.replicate ((xs.takeWhile (fun y => y == x)).length + 1) x ++
            xs.dropWhile (fun y => y == x) := by
          rw [List.replicate_succ, List.cons_append]
          congr 1
          conv_lhs => rw [← List.takeWhile_append_dropWhile (p := fun y => y == x) (l := xs)]
          rw [← htw]
        have hhead : (xs.dropWhile (fun y => y == x)).head? ≠ some x := by
          cases hd : xs.dropWhile (fun y => y == x) with
          | nil => simp
          | cons a t =>
            have := dropWhile_head_not xs hd
            simp only [beq_iff_eq] at this
            simp only [List.head?_cons, ne_eq, Option.some.injEq]
            intro hax
            rw [hax] at this
            simp at this
        have hlen : (xs.dropWhile (fun y => y == x)).length ≤ m := by
          have h1 := List.Sublist.length_le (List.dropWhile_sublist (fun y => y == x) (l := xs))
          have h2 : xs.length ≤ m := Nat.le_of_succ_le_succ hl
          omega
        rw [hsplit, generate_clues_run_append _ hx (Nat.succ_pos _) hhead]
        have hm := Matches.cons 0 ⟨(xs.takeWhile (fun y => y == x)).length + 1, x⟩
          (xs.dropWhile (fun y => y == x)) (generate_clues (xs.dropWhile (fun y => y == x)))
          (Nat.succ_pos _) hx (ih _ hlen) hhead
        simpa using hm

/-- `generate_clues` realizes the `Matches` specification: a fully determined
line matches exactly the clue list computed by run-length encoding it. -/
theorem matches_iff_generate_clues {arr : List Nat} {clues : List Clue} :
    Matches arr clues ↔ generate_clues arr = clues := by
  constructor
  · intro h
    induction h with
    | nil n => exact generate_clues_replicate_empty n
    | cons n c s cs hcount hcolor hs hhead ih =>
      rw [List.append_assoc, generate_clues_empty_append,
        generate_clues_run_append c.count hcolor hcount hhead, ih]
  · intro h
    subst h
    exact matches_generate_clues arr

theorem rle_aux_emit (s : List Nat) (c k : Nat) :
    ∃ m, (⟨m, c⟩ : Clue) ∈ rle_aux (some (c, k)) s := by
  induction s generalizing k with
  | nil => exact ⟨k, by simp [rle_aux]⟩
  | cons x xs ih =>
    by_cases hx : x = c
    · subst hx
      rw [rle_aux, if_pos rfl]
      exact ih (k + 1)
    · rw [rle_aux, if_neg hx]
      by_cases hx0 : x = EMPTY
      · rw [if_pos hx0]
        exact ⟨k, List.mem_cons_self _ _⟩
      · rw [if_neg hx0]
        exact ⟨k, List.mem_cons_self _ _⟩

theorem rle_aux_mem_color :
    ∀ (s : List Nat) (st : Option (Nat × Nat)) (v : Nat), v ∈ s → v ≠ EMPTY →
      ∃ d ∈ rle_aux st s, d.color = v := by
  intro s
  induction s with
  | nil => intro st v hv; simp at hv
  | cons x xs ih =>
    intro st v hv hne
    rcases List.mem_cons.mp hv with h1 | h2
    · subst h1
      match st with
      | none =>
        rw [rle_aux, if_neg hne]
        obtain ⟨m, hm⟩ := rle_aux_emit xs v 1
        exact ⟨⟨m, v⟩, hm, rfl⟩
      | some (c, k) =>
        by_cases hx : v = c
        · rw [rle_aux, if_pos hx]
          subst hx
          obtain ⟨m, hm⟩ := rle_aux_emit xs v (k + 1)
          exact ⟨⟨m, v⟩, hm, rfl⟩
        · rw [rle_aux, if_neg hx, if_neg hne]
          obtain ⟨m, hm⟩ := rle_aux_emit xs v 1
          exact ⟨⟨m, v⟩, List.mem_cons_of_mem _ hm, rfl⟩
    · match st with
      | none =>
        by_cases hx0 : x = EMPTY
        · rw [rle_aux, if_pos hx0]
          exact ih none v h2 hne
        · rw [rle_aux, if_neg hx0]
          exact ih (some (x, 1)) v h2 hne
      | some (c, k) =>
        by_cases hx : x = c
        · rw [rle_aux, if_pos hx]
          exact ih (some (c, k + 1)) v h2 hne
        · by_cases hx0 : x = EMPTY
          · rw [rle_aux, if_neg hx, if_pos hx0]
            obtain ⟨d, hd, hdc⟩ := ih none v h2 hne
            exact ⟨d, List.mem_cons_of_mem _ hd, hdc⟩
          · rw [rle_aux, if_neg hx, if_neg hx0]
            obtain ⟨d, hd, hdc⟩ := ih (some (x, 1)) v h2 hne
            exact ⟨d, List.mem_cons_of_mem _ hd, hdc⟩

/-- Members of a line are either the empty color or the color of one of the
line's clues. -/
theorem mem_generate_clues_color {line : List Nat} {v : Nat}
    (hv : v ∈ line) (hne : v ≠ EMPTY) :
    ∃ c ∈ generate_clues line, c.color = v :=
  rle_aux_mem_color line none v hv hne

theorem min_remaining_head_le (c : Clue) (cs : List Clue) :
    c.count ≤ min_remaining (c :: cs) := by
  cases cs with
  | nil => simp [min_remaining]
  | cons d rest => rw [min_remaining]; omega

theorem matches_min_remaining_le {s : List Nat} {cs : List Clue} (h : Matches s cs) :
    min_remaining cs ≤ s.length := by
  suffices hn : ∀ (n : Nat) (t : List Nat) (ds : List Clue),
      t.length ≤ n → Matches t ds → min_remaining ds ≤ t.length by
    exact hn s.length s cs (Nat.le_refl _) h
  intro n
  induction n with
  | zero =>
    intro t ds hl hm
    cases hm with
    | nil j => simp [min_remaining]
    | cons j c u ds' hcount hcolor hs hhead =>
      exfalso
      simp only [List.length_append, List.length_replicate] at hl
      omega
  | succ m ih =>
    intro t ds hl hm
    cases hm with
    | nil j => simp [min_remaining]
    | cons j c u ds' hcount hcolor hs hhead =>
      simp only [List.length_append, List.length_replicate]
      cases ds' with
      | nil => simp [min_remaining]; omega
      | cons d rest =>
        rw [min_remaining]
        have hu : u.length ≤ m := by
          simp only [List.length_append, List.length_replicate] at hl
          omega
        have ihd := ih u (d :: rest) hu hs
        by_cases hcc : c.color = d.color
        · rw [if_pos hcc]
          rcases matches_head hs with hh | hh
          · cases u with
            | nil => simp at hh
            | cons y u' =>
              have hy : y = EMPTY := by simpa using hh
              subst hy
              have hs' : Matches u' (d :: rest) := matches_zero_cons hs
              have hu' : u'.length ≤ m := by
                simp only [List.length_cons] at hu
                omega
              have ihd' := ih u' (d :: rest) (by omega) hs'
              simp only [List.length_cons]
              omega
          · exfalso
            rw [hcc] at hhead
            exact hhead hh
        · rw [if_neg hcc]
          omega

/-! ## Characterizations of the enumeration primitives -/
theorem getD_replicate {α : Type} {n i : Nat} {a d : α} (h : i < n) :
    (List.replicate n a).getD i d = a := by
  rw [List.getD_eq_getElem?_getD, List.getElem?_replicate, if_pos h]
  rfl

theorem replicate_empty_head_ne {n color : Nat} (h : color ≠ EMPTY) :
    (List.replicate n EMPTY).head? ≠ some color := by
  cases n with
  | zero => simp
  | succ m =>
    rw [List.replicate_succ]
    simp only [List.head?_cons, ne_eq, Option.some.injEq]
    intro he
    exact h he.symm

theorem is_compatible_eq_true_iff :
    ∀ (line : List (Option Nat)) (arr : List Nat), arr.length = line.length →
      (is_compatible line arr = true ↔ LineCompat line arr) := by
  intro line
  induction line with
  | nil =>
    intro arr hlen
    have : arr = [] := List.eq_nil_of_length_eq_zero (by simpa using hlen)
    subst this
    constructor
    · intro _ i v hv
      simp at hv
    · intro _
      rfl
  | cons cell l ih =>
    intro arr hlen
    cases arr with
    | nil => simp at hlen
    | cons a r =>
      have hlen' : r.length = l.length := by simpa using hlen
      constructor
      · intro hc i v hv
        cases cell with
        | some w =>
          rw [is_compatible] at hc
          obtain ⟨h1, h2⟩ := Bool.and_eq_true_iff.mp hc
          cases i with
          | zero =>
            simp only [List.getD_cons_zero] at hv ⊢
            have hw : w = v := Option.some.inj hv
            exact (beq_iff_eq.mp h1).symm.trans hw
          | succ j =>
            simp only [List.getD_cons_succ] at hv ⊢
            exact (ih r hlen').mp h2 j v hv
        | none =>
          rw [is_compatible] at hc
          cases i with
          | zero => simp at hv
          | succ j =>
            simp only [List.getD_cons_succ] at hv ⊢
            exact (ih r hlen').mp hc j v hv
      · intro hc
        cases cell with
        | some w =>
          rw [is_compatible]
          refine Bool.and_eq_true_iff.mpr ⟨?_, ?_⟩
          · have := hc 0 w (by simp)
            simp only [List.getD_cons_zero] at this
            simpa using this.symm
          · refine (ih r hlen').mpr ?_
            intro i v hv
            have := hc (i + 1) v (by simpa using hv)
            simpa using this
        | none =>
          rw [is_compatible]
          refine (ih r hlen').mpr ?_
          intro i v hv
          have := hc (i + 1) v (by simpa using hv)
          simpa using this

theorem can_place_iff {line : List (Option Nat)} {color start cnt : Nat} :
    can_place line color start cnt = true ↔
      ∀ i, start ≤ i → i < start + cnt → ∀ v, line.getD i none = some v → v = color := by
  unfold can_place
  rw [List.all_eq_true]
  constructor
  · intro h i h1 h2 v hv
    have hm := h i (List.mem_range'_1.mpr ⟨h1, h2⟩)
    rw [hv] at hm
    simpa using hm
  · intro h i hi
    obtain ⟨h1, h2⟩ := List.mem_range'_1.mp hi
    cases hl : line.getD i none with
    | none => simp
    | some v =>
      have := h i h1 h2 v hl
      simp [this]

theorem must_stop_iff {line : List (Option Nat)} {color pos start : Nat} :
    must_stop line color pos start = true ↔
      ∃ i, pos ≤ i ∧ i < start ∧ line.getD i none = some color := by
  unfold must_stop
  rw [List.any_eq_true]
  constructor
  · rintro ⟨i, hi, hv⟩
    obtain ⟨h1, h2⟩ := List.mem_range'_1.mp hi
    exact ⟨i, h1, by omega, by simpa using hv⟩
  · rintro ⟨i, h1, h2, hv⟩
    refine ⟨i, List.mem_range'_1.mpr ⟨h1, by omega⟩, ?_⟩
    rw [hv]
    simp

theorem prefix_ok_iff {line : List (Option Nat)} {pos start : Nat} :
    prefix_ok line pos start = true ↔
      ∀ i, pos ≤ i → i < start → ∀ v, line.getD i none = some v → v = EMPTY := by
  unfold prefix_ok
  rw [List.all_eq_true]
  constructor
  · intro h i h1 h2 v hv
    have hm := h i (List.mem_range'_1.mpr ⟨h1, by omega⟩)
    rw [hv] at hm
    simpa using hm
  · intro h i hi
    obtain ⟨h1, h2⟩ := List.mem_range'_1.mp hi
    cases hl : line.getD i none with
    | none => simp
    | some v =>
      have h2' : i < start := by omega
      have := h i h1 h2' v hl
      simp [this]

/-! ## Soundness of arrangement enumeration: every generated arrangement is a
valid arrangement (full length, compatible, realizing the clues). -/
theorem starts_loop_sound
    (line : List (Option Nat)) (clue : Clue) (rest : List Clue) (pos : Nat)
    (current : List Nat) (recur : Nat → List Nat → List (List Nat))
    (hcount : 0 < clue.count) (hcolor : clue.color ≠ EMPTY)
    (hcur : current.length = pos) (hpos : pos ≤ line.length)
    (hrec : ∀ p cur arr, cur.length = p → p ≤ line.length → arr ∈ recur p cur →
      (∃ sfx, arr = cur ++ sfx ∧ sfx.length = line.length - p ∧ Matches sfx rest) ∧
        is_compatible line arr = true) :
    ∀ (starts : List Nat), (∀ s ∈ starts, pos ≤ s) →
      ∀ arr, arr ∈ starts_loop line clue rest pos current recur starts →
      (∃ sfx, arr = current ++ sfx ∧ sfx.length = line.length - pos ∧
        Matches sfx (clue :: rest)) ∧ is_compatible line arr = true := by
  intro starts
  induction starts with
  | nil =>
    intro _ arr h
    simp [starts_loop] at h
  | cons start more ih =>
    intro hall arr harr
    have hstart : pos ≤ start := hall start (List.mem_cons_self _ _)
    have hall' : ∀ s ∈ more, pos ≤ s := fun s hs => hall s (List.mem_cons_of_mem _ hs)
    simp only [starts_loop] at harr
    by_cases h1 : line.length < start + clue.count
    · rw [if_pos h1] at harr
      simp at harr
    rw [if_neg h1] at harr
    -- helper for the branch that descends into the recursion without separator
    have hmain_nosep : arr ∈ recur (start + clue.count)
        (current ++ List.replicate (start - pos) EMPTY ++
          List.replicate clue.count clue.color) →
        (rest = [] ∨ ∃ next tr, rest = next :: tr ∧ next.color ≠ clue.color) →
        (∃ sfx, arr = current ++ sfx ∧ sfx.length = line.length - pos ∧
          Matches sfx (clue :: rest)) ∧ is_compatible line arr = true := by
      intro hm hrests
      have hplen : (current ++ List.replicate (start - pos) EMPTY ++
          List.replicate clue.count clue.color).length = start + clue.count := by
        simp [List.length_append, List.length_replicate]
        omega
      obtain ⟨⟨s', heq, hslen, hmatch⟩, hcompat⟩ :=
        hrec _ _ arr hplen (by omega) hm
      refine ⟨⟨List.replicate (start - pos) EMPTY ++
        List.replicate clue.count clue.color ++ s', ?_, ?_, ?_⟩, hcompat⟩
      · rw [heq]
        simp [List.append_assoc]
      · simp [List.length_append, List.length_replicate]
        omega
      · have hhead : s'.head? ≠ some clue.color := by
          rcases hrests with hre | ⟨next, tr, hre, hnc⟩
          · subst hre
            obtain ⟨n0, hn0⟩ := matches_nil_all_empty hmatch
            rw [hn0]
            exact replicate_empty_head_ne hcolor
          · subst hre
            rcases matches_head hmatch with hh | hh
            · rw [hh]
              simp only [ne_eq, Option.some.injEq]
              intro he
              exact hcolor he.symm
            · rw [hh]
              simp only [ne_eq, Option.some.injEq]
              intro he
              exact hnc he
        exact Matches.cons (start - pos) clue s' rest hcount hcolor hmatch hhead
    -- helper for the branch that descends into the recursion with a separator
    have hmain_sep : arr ∈ recur (start + clue.count + 1)
        (current ++ List.replicate (start - pos) EMPTY ++
          List.replicate clue.count clue.color ++ [EMPTY]) →
        start + clue.count < line.length →
        (∃ sfx, arr = current ++ sfx ∧ sfx.length = line.length - pos ∧
          Matches sfx (clue :: rest)) ∧ is_compatible line arr = true := by
      intro hm h4
      have hplen : (current ++ List.replicate (start - pos) EMPTY ++
          List.replicate clue.count clue.color ++ [EMPTY]).length =
          start + clue.count + 1 := by
        simp [List.length_append, List.length_replicate]
        omega
      obtain ⟨⟨s', heq, hslen, hmatch⟩, hcompat⟩ :=
        hrec _ _ arr hplen (by omega) hm
      refine ⟨⟨List.replicate (start - pos) EMPTY ++
        List.replicate clue.count clue.color ++ (EMPTY :: s'), ?_, ?_, ?_⟩, hcompat⟩
      · rw [heq]
        simp [List.append_assoc]
      · simp [List.length_append, List.length_replicate]
        omega
      · have hhead : (EMPTY :: s').head? ≠ some clue.color := by
          simp only [List.head?_cons, ne_eq, Option.some.injEq]
          intro he
          exact hcolor he.symm
        exact Matches.cons (start - pos) clue (EMPTY :: s') rest hcount hcolor
          (matches_cons_zero hmatch) hhead
    by_cases h2 : can_place line clue.color start clue.count = true
    · rw [if_pos h2] at harr
      by_cases h3 : prefix_ok line pos start = true
      · rw [if_pos h3] at harr
        cases hre : rest with
        | nil =>
          subst hre
          simp only [List.head?_nil] at harr
          rcases List.mem_append.mp harr with hm | hm
          · exact hmain_nosep hm (Or.inl rfl)
          · exact ih hall' arr hm
        | cons next tr =>
          subst hre
          simp only [List.head?_cons] at harr
          by_cases hnc : next.color = clue.color
          · rw [if_pos hnc] at harr
            by_cases h4 : start + clue.count < line.length
            · rw [if_pos h4] at harr
              by_cases hkn : known_nonempty (line.getD (start + clue.count) none) = true
              · rw [if_pos hkn] at harr
                exact ih hall' arr harr
              · rw [if_neg hkn] at harr
                rcases List.mem_append.mp harr with hm | hm
                · exact hmain_sep hm h4
                · exact ih hall' arr hm
            · rw [if_neg h4] at harr
              exact ih hall' arr harr
          · rw [if_neg hnc] at harr
            rcases List.mem_append.mp harr with hm | hm
            · exact hmain_nosep hm (Or.inr ⟨next, tr, rfl, hnc⟩)
            · exact ih hall' arr hm
      · rw [if_neg h3] at harr
        by_cases h5 : must_stop line clue.color pos start = true
        · rw [if_pos h5] at harr
          simp at harr
        · rw [if_neg h5] at harr
          exact ih hall' arr harr
    · rw [if_neg h2] at harr
      by_cases h5 : must_stop line clue.color pos start = true
      · rw [if_pos h5] at harr
        simp at harr
      · rw [if_neg h5] at harr
        exact ih hall' arr harr

theorem arrange_fuel_sound (line : List (Option Nat)) :
    ∀ (fuel : Nat) (clues : List Clue) (pos : Nat) (current : List Nat),
      WFClues clues → current.length = pos → pos ≤ line.length →
      ∀ arr, arr ∈ arrange_fuel line fuel clues pos current →
      (∃ sfx, arr = current ++ sfx ∧ sfx.length = line.length - pos ∧
        Matches sfx clues) ∧ is_compatible line arr = true := by
  intro fuel
  induction fuel with
  | zero =>
    intro clues pos current _ _ _ arr h
    simp [arrange_fuel] at h
  | succ f ih =>
    intro clues pos current hwf hcur hpos arr harr
    cases clues with
    | nil =>
      simp only [arrange_fuel] at harr
      by_cases hc : is_compatible line
          (current ++ List.replicate (line.length - pos) EMPTY) = true
      · rw [if_pos hc] at harr
        simp only [List.mem_singleton] at harr
        subst harr
        exact ⟨⟨List.replicate (line.length - pos) EMPTY, rfl,
          by simp [List.length_replicate], Matches.nil _⟩, hc⟩
      · rw [if_neg hc] at harr
        simp at harr
    | cons clue rest =>
      simp only [arrange_fuel] at harr
      have hwfc := hwf clue (List.mem_cons_self _ _)
      have hwfr : WFClues rest := fun c hc => hwf c (List.mem_cons_of_mem _ hc)
      exact starts_loop_sound line clue rest pos current _
        hwfc.1 hwfc.2 hcur hpos
        (fun p cur a hc hp hm => ih rest p cur hwfr hc hp a hm)
        _ (fun s hs => (List.mem_range'_1.mp hs).1) arr harr

/-! ## Completeness of arrangement enumeration: every valid arrangement is
generated. -/
/-- If an iteration of the loop neither breaks on the length check nor on the
must-stop check, every result of the remaining iterations is kept. -/
theorem starts_loop_mono
    (line : List (Option Nat)) (clue : Clue) (rest : List Clue) (pos : Nat)
    (current : List Nat) (recur : Nat → List Nat → List (List Nat))
    (start : Nat) (more : List Nat)
    (h1 : ¬ line.length < start + clue.count)
    (h5 : ¬ must_stop line clue.color pos start = true) :
    ∀ x, x ∈ starts_loop line clue rest pos current recur more →
      x ∈ starts_loop line clue rest pos current recur (start :: more) := by
  intro x hx
  simp only [starts_loop]
  rw [if_neg h1]
  by_cases h2 : can_place line clue.color start clue.count = true
  · rw [if_pos h2]
    by_cases h3 : prefix_ok line pos start = true
    · rw [if_pos h3]
      cases rest with
      | nil =>
        simp only [List.head?_nil]
        exact List.mem_append_right _ hx
      | cons next tr =>
        simp only [List.head?_cons]
        by_cases hnc : next.color = clue.color
        · rw [if_pos hnc]
          by_cases h4 : start + clue.count < line.length
          · rw [if_pos h4]
            by_cases hkn : known_nonempty (line.getD (start + clue.count) none) = true
            · rw [if_pos hkn]; exact hx
            · rw [if_neg hkn]; exact List.mem_append_right _ hx
          · rw [if_neg h4]; exact hx
        · rw [if_neg hnc]
          exact List.mem_append_right _ hx
    · rw [if_neg h3, if_neg h5]
      exact hx
  · rw [if_neg h2, if_neg h5]
    exact hx

theorem starts_loop_complete
    (line : List (Option Nat)) (clue : Clue) (rest : List Clue) (pos : Nat)
    (current : List Nat) (recur : Nat → List Nat → List (List Nat))
    (n : Nat) (REST : List Nat)
    (hcount : 0 < clue.count) (hcolor : clue.color ≠ EMPTY)
    (hREST : Matches REST rest) (hRESThead : REST.head? ≠ some clue.color)
    (hcur : current.length = pos) (hpos : pos ≤ line.length)
    (hslen : n + clue.count + REST.length = line.length - pos)
    (hcompat : is_compatible line
      (current ++ (List.replicate n EMPTY ++
        (List.replicate clue.count clue.color ++ REST))) = true)
    (hrec : ∀ p cur sfx, cur.length = p → p ≤ line.length →
        Matches sfx rest → sfx.length = line.length - p →
        is_compatible line (cur ++ sfx) = true →
        (cur ++ sfx) ∈ recur p cur) :
    ∀ (starts : List Nat), (pos + n) ∈ starts → starts.Pairwise (· < ·) →
      (∀ s ∈ starts, pos ≤ s) →
      (current ++ (List.replicate n EMPTY ++
        (List.replicate clue.count clue.color ++ REST))) ∈
        starts_loop line clue rest pos current recur starts := by
  -- abbreviations and pointwise facts shared by all iterations
  set arr := current ++ (List.replicate n EMPTY ++
    (List.replicate clue.count clue.color ++ REST)) with harr_def
  have harrlen : arr.length = line.length := by
    rw [harr_def]
    simp only [List.length_append, List.length_replicate]
    omega
  have hlc : LineCompat line arr := (is_compatible_eq_true_iff line arr harrlen).mp hcompat
  have hsuffv : ∀ i, pos ≤ i →
      arr.getD i EMPTY = (List.replicate n EMPTY ++
        (List.replicate clue.count clue.color ++ REST)).getD (i - pos) EMPTY := by
    intro i hi
    rw [harr_def, List.getD_append_right _ _ _ _ (by omega : current.length ≤ i), hcur]
  have hv0 : ∀ i, pos ≤ i → i < pos + n → arr.getD i EMPTY = EMPTY := by
    intro i h1 h2
    rw [hsuffv i h1, List.getD_append _ _ _ _ (by simp [List.length_replicate]; omega),
      getD_replicate (by omega)]
  have hvc : ∀ i, pos + n ≤ i → i < pos + n + clue.count →
      arr.getD i EMPTY = clue.color := by
    intro i h1 h2
    rw [hsuffv i (by omega),
      List.getD_append_right _ _ _ _ (by simp [List.length_replicate]; omega)]
    rw [List.length_replicate]
    rw [List.getD_append _ _ _ _ (by simp [List.length_replicate]; omega),
      getD_replicate (by omega)]
  have hvr : ∀ j, arr.getD (pos + n + clue.count + j) EMPTY = REST.getD j EMPTY := by
    intro j
    rw [hsuffv _ (by omega),
      List.getD_append_right _ _ _ _ (by simp [List.length_replicate]; omega)]
    rw [List.length_replicate]
    rw [List.getD_append_right _ _ _ _ (by simp [List.length_replicate]; omega)]
    rw [List.length_replicate]
    congr 1
    omega
  -- the must-stop check can never fire before the target start
  have hnostop : ∀ s, s ≤ pos + n → ¬ must_stop line clue.color pos s = true := by
    intro s hs hmust
    obtain ⟨i, hi1, hi2, hiv⟩ := must_stop_iff.mp hmust
    have := hlc i clue.color hiv
    rw [hv0 i hi1 (by omega)] at this
    exact hcolor this.symm
  intro starts
  induction starts with
  | nil => intro hmem; simp at hmem
  | cons start more ih =>
    intro hmem hsorted hall
    have hstart : pos ≤ start := hall start (List.mem_cons_self _ _)
    have hall' : ∀ s ∈ more, pos ≤ s := fun s hs => hall s (List.mem_cons_of_mem _ hs)
    have hsorted' : more.Pairwise (· < ·) := hsorted.of_cons
    rcases List.mem_cons.mp hmem with htgt | hmore
    · -- the head is the target start: take the placement branch
      subst htgt
      simp only [starts_loop]
      have hg1 : ¬ line.length < (pos + n) + clue.count := by omega
      rw [if_neg hg1]
      have hg2 : can_place line clue.color (pos + n) clue.count = true := by
        rw [can_place_iff]
        intro i ha hb v hv
        have := hlc i v hv
        rw [hvc i (by omega) (by omega)] at this
        exact this.symm
      rw [if_pos hg2]
      have hg3 : prefix_ok line pos (pos + n) = true := by
        rw [prefix_ok_iff]
        intro i ha hb v hv
        have := hlc i v hv
        rw [hv0 i (by omega) (by omega)] at this
        exact this.symm
      rw [if_pos hg3]
      have hplaced_eq : current ++ List.replicate ((pos + n) - pos) EMPTY ++
          List.replicate clue.count clue.color =
          current ++ List.replicate n EMPTY ++ List.replicate clue.count clue.color := by
        rw [Nat.add_sub_cancel_left]
      cases hre : rest with
      | nil =>
        subst hre
        simp only [List.head?_nil]
        apply List.mem_append_left
        have hmem2 : ((current ++ List.replicate n EMPTY ++
            List.replicate clue.count clue.color) ++ REST) ∈
            recur ((pos + n) + clue.count)
              (current ++ List.replicate n EMPTY ++ List.replicate clue.count clue.color) := by
          apply hrec
          · simp [List.length_append, List.length_replicate]; omega
          · omega
          · exact hREST
          · omega
          · have : (current ++ List.replicate n EMPTY ++
                List.replicate clue.count clue.color) ++ REST = arr := by
              rw [harr_def]
              simp [List.append_assoc]
            rw [this]
            exact hcompat
        rw [hplaced_eq]
        have harr2 : arr = (current ++ List.replicate n EMPTY ++
            List.replicate clue.count clue.color) ++ REST := by
          rw [harr_def]
          simp [List.append_assoc]
        rw [harr_def] at harr2 ⊢
        rw [harr2]
        exact hmem2
      | cons next tr =>
        subst hre
        simp only [List.head?_cons]
        have hRne : REST ≠ [] := by
          intro h
          rcases matches_head (h ▸ hREST) with hh | hh <;> simp at hh
        by_cases hnc : next.color = clue.color
        · -- same color: the separator cell is forced empty and gets consumed
          rw [if_pos hnc]
          have hRhead : REST.head? = some EMPTY := by
            rcases matches_head hREST with hh | hh
            · exact hh
            · exfalso
              apply hRESThead
              rw [hh, hnc]
          obtain ⟨R', hR'⟩ : ∃ R', REST = EMPTY :: R' := by
            cases REST with
            | nil => simp at hRhead
            | cons a t =>
              simp only [List.head?_cons, Option.some.injEq] at hRhead
              exact ⟨t, by rw [hRhead]⟩
          have hg4 : (pos + n) + clue.count < line.length := by
            have : 0 < REST.length := by
              rw [hR']; simp
            omega
          rw [if_pos hg4]
          have hg5 : ¬ known_nonempty (line.getD ((pos + n) + clue.count) none) = true := by
            cases hgd : line.getD ((pos + n) + clue.count) none with
            | none => simp [known_nonempty]
            | some v =>
              have := hlc _ v hgd
              have hv0' := hvr 0
              rw [hR'] at hv0'
              simp only [List.getD_cons_zero, Nat.add_zero] at hv0'
              rw [hv0'] at this
              simp [known_nonempty, ← this]
          rw [if_neg hg5]
          apply List.mem_append_left
          have hplen : (current ++ List.replicate n EMPTY ++
              List.replicate clue.count clue.color ++ [EMPTY]).length =
              (pos + n) + clue.count + 1 := by
            simp [List.length_append, List.length_replicate]
            omega
          have hmem2 : ((current ++ List.replicate n EMPTY ++
              List.replicate clue.count clue.color ++ [EMPTY]) ++ R') ∈
              recur ((pos + n) + clue.count + 1)
                (current ++ List.replicate n EMPTY ++
                  List.replicate clue.count clue.color ++ [EMPTY]) := by
            apply hrec
            · exact hplen
            · omega
            · exact matches_zero_cons (hR' ▸ hREST)
            · rw [hR'] at hslen
              simp only [List.length_cons] at hslen
              omega
            · have : (current ++ List.replicate n EMPTY ++
                  List.replicate clue.count clue.color ++ [EMPTY]) ++ R' = arr := by
                rw [harr_def, hR']
                simp [List.append_assoc]
              rw [this]
              exact hcompat
          have harr2 : arr = (current ++ List.replicate n EMPTY ++
              List.replicate clue.count clue.color ++ [EMPTY]) ++ R' := by
            rw [harr_def, hR']
            simp [List.append_assoc]
          rw [hplaced_eq, harr_def] at *
          rw [harr2]
          exact hmem2
        · -- different colors: no separator needed
          rw [if_neg hnc]
          apply List.mem_append_left
          have hmem2 : ((current ++ List.replicate n EMPTY ++
              List.replicate clue.count clue.color) ++ REST) ∈
              recur ((pos + n) + clue.count)
                (current ++ List.replicate n EMPTY ++
                  List.replicate clue.count clue.color) := by
            apply hrec
            · simp [List.length_append, List.length_replicate]; omega
            · omega
            · exact hREST
            · omega
            · have : (current ++ List.replicate n EMPTY ++
                  List.replicate clue.count clue.color) ++ REST = arr := by
                rw [harr_def]
                simp [List.append_assoc]
              rw [this]
              exact hcompat
          have harr2 : arr = (current ++ List.replicate n EMPTY ++
              List.replicate clue.count clue.color) ++ REST := by
            rw [harr_def]
            simp [List.append_assoc]
          rw [hplaced_eq, harr_def] at *
          rw [harr2]
          exact hmem2
    · -- the head is before the target start: no break occurs here
      have hlt : start < pos + n := by
        rcases List.pairwise_cons.mp hsorted with ⟨hstartlt, -⟩
        exact hstartlt _ hmore
      have hg1 : ¬ line.length < start + clue.count := by omega
      exact starts_loop_mono line clue rest pos current recur start more hg1
        (hnostop start (by omega)) _ (ih hmore hsorted' hall')

theorem arrange_fuel_complete (line : List (Option Nat)) :
    ∀ (fuel : Nat) (clues : List Clue) (pos : Nat) (current : List Nat) (suffix : List Nat),
      clues.length < fuel →
      current.length = pos → pos ≤ line.length →
      Matches suffix clues → suffix.length = line.length - pos →
      is_compatible line (current ++ suffix) = true →
      (current ++ suffix) ∈ arrange_fuel line fuel clues pos current := by
  intro fuel
  induction fuel with
  | zero =>
    intro clues pos current suffix hfuel
    omega
  | succ f ih =>
    intro clues pos current suffix hfuel hcur hpos hmatch hslen hcompat
    cases hmatch with
    | nil k =>
      have hk : k = line.length - pos := by
        simpa [List.length_replicate] using hslen
      subst hk
      simp only [arrange_fuel]
      rw [if_pos hcompat]
      exact List.mem_singleton.mpr rfl
    | cons n clue s rest hcount hcolor hs hhead =>
      simp only [arrange_fuel]
      have hslen' : n + clue.count + s.length = line.length - pos := by
        have := hslen
        simp only [List.length_append, List.length_replicate] at this
        omega
      have hmr : pos + n + min_remaining (clue :: rest) ≤ line.length := by
        cases rest with
        | nil =>
          simp only [min_remaining]
          omega
        | cons d tr =>
          rw [min_remaining]
          have hmle : min_remaining (d :: tr) ≤ s.length := matches_min_remaining_le hs
          by_cases hcc : clue.color = d.color
          · rw [if_pos hcc]
            have hsh : s.head? = some EMPTY := by
              rcases matches_head hs with hh | hh
              · exact hh
              · exfalso
                apply hhead
                rw [hh, ← hcc]
            obtain ⟨s', hs'⟩ : ∃ s', s = EMPTY :: s' := by
              cases s with
              | nil => simp at hsh
              | cons a t =>
                simp only [List.head?_cons, Option.some.injEq] at hsh
                exact ⟨t, by rw [hsh]⟩
            have hmle' : min_remaining (d :: tr) ≤ s'.length :=
              matches_min_remaining_le (matches_zero_cons (hs' ▸ hs))
            rw [hs'] at hslen'
            simp only [List.length_cons] at hslen'
            omega
          · rw [if_neg hcc]
            omega
      have hcompat' : is_compatible line
          (current ++ (List.replicate n EMPTY ++
            (List.replicate clue.count clue.color ++ s))) = true := by
        have heq : current ++ (List.replicate n EMPTY ++
            (List.replicate clue.count clue.color ++ s)) =
            current ++ (List.replicate n EMPTY ++ List.replicate clue.count clue.color ++ s) := by
          simp [List.append_assoc]
        rw [heq]
        exact hcompat
      have hmem := starts_loop_complete line clue rest pos current
        (fun p cur => arrange_fuel line f rest p cur) n s
        hcount hcolor hs hhead hcur hpos (by omega) hcompat'
        (fun p cur sfx hc hp hm hl hcmp =>
          ih rest p cur sfx (by simp only [List.length_cons] at hfuel; omega) hc hp hm hl hcmp)
        (List.range' pos (line.length + 1 - min_remaining (clue :: rest) - pos))
        (List.mem_range'_1.mpr ⟨by omega, by omega⟩)
        (by simpa using List.pairwise_lt_range' pos _ 1)
        (fun s2 hs2 => (List.mem_range'_1.mp hs2).1)
      have heq2 : current ++ (List.replicate n EMPTY ++
          (List.replicate clue.count clue.color ++ s)) =
          current ++ (List.replicate n EMPTY ++ List.replicate clue.count clue.color ++ s) := by
        simp [List.append_assoc]
      rw [heq2] at hmem
      exact hmem

/-- The central equivalence for the line solver: for well-formed clue lists, the
arrangements produced by `generate_arrangements` are exactly the valid
arrangements — full-length lines that are compatible with the already-known
cells and realize the clue list. -/
theorem mem_generate_arrangements {line : List (Option Nat)} {clues : List Clue}
    (hwf : WFClues clues) (arr : List Nat) :
    arr ∈ generate_arrangements line clues ↔ ValidArr line clues arr := by
  constructor
  · intro h
    obtain ⟨⟨sfx, heq, hlen, hm⟩, hcomp⟩ :=
      arrange_fuel_sound line (clues.length + 1) clues 0 [] hwf rfl (Nat.zero_le _) arr h
    simp only [List.nil_append] at heq
    subst heq
    exact ⟨by omega, hcomp, hm⟩
  · rintro ⟨hlen, hcomp, hm⟩
    have := arrange_fuel_complete line (clues.length + 1) clues 0 [] arr
      (by omega) rfl (Nat.zero_le _) hm (by omega) (by simpa using hcomp)
    simpa using this

/-! ## Properties of `solve_line` -/
theorem intersect_cells_length (first : List Nat) (arrs : List (List Nat)) :
    ∀ (i : Nat) (l : List (Option Nat)), (intersect_cells first arrs i l).length = l.length := by
  intro i l
  induction l generalizing i with
  | nil => rfl
  | cons cell restLine ih =>
    simp only [intersect_cells, List.length_cons]
    rw [ih (i + 1)]

theorem intersect_cells_getD_known (first : List Nat) (arrs : List (List Nat)) :
    ∀ (l : List (Option Nat)) (i0 j v : Nat), l.getD j none = some v →
      (intersect_cells first arrs i0 l).getD j none = some v := by
  intro l
  induction l with
  | nil =>
    intro i0 j v h
    simp at h
  | cons cell restLine ih =>
    intro i0 j v h
    simp only [intersect_cells]
    cases j with
    | zero =>
      simp only [List.getD_cons_zero] at h ⊢
      rw [h]
    | succ k =>
      simp only [List.getD_cons_succ] at h ⊢
      exact ih (i0 + 1) k v h

theorem intersect_cells_getD_unknown (first : List Nat) (arrs : List (List Nat)) :
    ∀ (l : List (Option Nat)) (i0 j : Nat), l.getD j none = none → j < l.length →
      (intersect_cells first arrs i0 l).getD j none =
        (if arrs.all (fun b => b.getD (i0 + j) EMPTY == first.getD (i0 + j) EMPTY) then
          some (first.getD (i0 + j) EMPTY)
        else none) := by
  intro l
  induction l with
  | nil =>
    intro i0 j h hj
    simp at hj
  | cons cell restLine ih =>
    intro i0 j h hj
    simp only [intersect_cells]
    cases j with
    | zero =>
      simp only [List.getD_cons_zero] at h ⊢
      subst h
      simp only [Nat.add_zero]
    | succ k =>
      simp only [List.getD_cons_succ] at h ⊢
      have hk : k < restLine.length := by
        simp only [List.length_cons] at hj
        omega
      rw [ih (i0 + 1) k h hk]
      have hidx : i0 + 1 + k = i0 + (k + 1) := by omega
      rw [hidx]

theorem empty_line_result_all_empty :
    ∀ (line : List (Option Nat)), (∀ cell ∈ line, cell = none ∨ cell = some EMPTY) →
      empty_line_result line = some (line.map (fun _ => some EMPTY)) := by
  intro line
  induction line with
  | nil => intro _; rfl
  | cons cell rest ih =>
    intro h
    have hrest := ih (fun c hc => h c (List.mem_cons_of_mem _ hc))
    rcases h cell (List.mem_cons_self _ _) with hc | hc
    · subst hc
      simp only [empty_line_result, hrest]
      rfl
    · subst hc
      simp only [empty_line_result, if_pos rfl, hrest]
      rfl

theorem empty_line_result_conflict :
    ∀ (line : List (Option Nat)), (∃ cell ∈ line, ∃ v, cell = some v ∧ v ≠ EMPTY) →
      empty_line_result line = none := by
  intro line
  induction line with
  | nil => rintro ⟨c, hc, -⟩; simp at hc
  | cons cell rest ih =>
    rintro ⟨c, hc, v, hv, hvne⟩
    rcases List.mem_cons.mp hc with h1 | h2
    · subst h1
      subst hv
      simp only [empty_line_result, if_neg hvne]
    · have hrest := ih ⟨c, h2, v, hv, hvne⟩
      cases cell with
      | none => simp only [empty_line_result, hrest]; rfl
      | some w =>
        by_cases hw : w = EMPTY
        · simp only [empty_line_result, if_pos hw, hrest]; rfl
        · simp only [empty_line_result, if_neg hw]

/-- The solved line keeps every already-known cell unchanged and length. -/
theorem solve_line_some_shape {line : List (Option Nat)} {clues : List Clue}
    {res : List (Option Nat)} (hne : clues ≠ [])
    (h : solve_line line clues = some res) :
    res.length = line.length ∧
    ∃ a arrs, generate_arrangements line clues = a :: arrs ∧
      res = intersect_cells a (a :: arrs) 0 line := by
  cases clues with
  | nil => exact absurd rfl hne
  | cons c cs =>
    rw [solve_line] at h
    cases hg : generate_arrangements line (c :: cs) with
    | nil => rw [hg] at h; simp at h
    | cons a arrs =>
      rw [hg] at h
      simp only [Option.some.injEq] at h
      subst h
      exact ⟨intersect_cells_length _ _ _ _, a, arrs, rfl, rfl⟩

/-- C1: for every line and every non-empty well-formed clue list, `solve_line`
returns the contradiction signal `none` iff no valid arrangement of the clues is
consistent with the already-known cells; otherwise, every determined cell of the
returned line holds the value that cell has in every valid arrangement, and
every cell on which valid arrangements disagree remains unknown. -/
theorem c1_solve_line_overlap (line : List (Option Nat)) (clues : List Clue)
    (hwf : WFClues clues) (hne : clues ≠ []) :
    (solve_line line clues = none ↔ ∀ arr, ¬ ValidArr line clues arr) ∧
    (∀ res, solve_line line clues = some res →
      res.length = line.length ∧
      (∀ i v, res.getD i none = some v →
        ∀ arr, ValidArr line clues arr → arr.getD i EMPTY = v) ∧
      (∀ i a b, ValidArr line clues a → ValidArr line clues b →
        a.getD i EMPTY ≠ b.getD i EMPTY → res.getD i none = none)) := by
  have hnone : solve_line line clues = none ↔ generate_arrangements line clues = [] := by
    cases clues with
    | nil => exact absurd rfl hne
    | cons c cs =>
      rw [solve_line]
      cases hg : generate_arrangements line (c :: cs) with
      | nil => simp
      | cons a arrs => simp
  constructor
  · rw [hnone, List.eq_nil_iff_forall_not_mem]
    constructor
    · intro h arr harr
      exact h arr ((mem_generate_arrangements hwf arr).mpr harr)
    · intro h arr harr
      exact h arr ((mem_generate_arrangements hwf arr).mp harr)
  · intro res hres
    obtain ⟨hlen, a, arrs, hg, hresdef⟩ := solve_line_some_shape hne hres
    have hpart2 : ∀ i v, res.getD i none = some v →
        ∀ arr, ValidArr line clues arr → arr.getD i EMPTY = v := by
      intro i v hv arr harrvalid
      have harrmem : arr ∈ generate_arrangements line clues :=
        (mem_generate_arrangements hwf arr).mpr harrvalid
      rw [hg] at harrmem
      have hlc : LineCompat line arr :=
        (is_compatible_eq_true_iff line arr harrvalid.1).mp harrvalid.2.1
      cases hline : line.getD i none with
      | some w =>
        have hknown := intersect_cells_getD_known a (a :: arrs) line 0 i w hline
        rw [hresdef, hknown] at hv
        have hwv : w = v := Option.some.inj hv
        rw [← hwv]
        exact hlc i w hline
      | none =>
        by_cases hi : i < line.length
        · rw [hresdef, intersect_cells_getD_unknown a (a :: arrs) line 0 i hline hi] at hv
          by_cases hall : ((a :: arrs).all
              (fun b => b.getD (0 + i) EMPTY == a.getD (0 + i) EMPTY)) = true
          · rw [if_pos hall] at hv
            have hv' : a.getD (0 + i) EMPTY = v := Option.some.inj hv
            have harr := List.all_eq_true.mp hall arr harrmem
            simp only [beq_iff_eq] at harr
            rw [Nat.zero_add] at harr hv'
            rw [harr, hv']
          · rw [if_neg hall] at hv
            simp at hv
        · exfalso
          have hdef : res.getD i none = none := by
            apply List.getD_eq_default
            omega
          rw [hdef] at hv
          simp at hv
    refine ⟨hlen, hpart2, ?_⟩
    intro i a2 b2 ha2 hb2 hdiff
    cases hcase : res.getD i none with
    | none => rfl
    | some v =>
      exfalso
      have hva := hpart2 i v hcase a2 ha2
      have hvb := hpart2 i v hcase b2 hb2
      exact hdiff (hva.trans hvb.symm)

theorem c1_solve_line_overlap_witness :
    solve_line [none, none, none] [⟨2, 1⟩] = some [none, some 1, none] ∧
    (∀ arr, ValidArr [none, none, none] [⟨2, 1⟩] arr → arr.getD 1 EMPTY = 1) := by
  refine ⟨by decide, ?_⟩
  intro arr harr
  exact ((c1_solve_line_overlap [none, none, none] [⟨2, 1⟩] (by decide) (by decide)).2
    [none, some 1, none] (by decide)).2.1 1 1 (by decide) arr harr

/-- C8: with an empty clue list, `solve_line` forces the entire line empty when
no cell is already known non-empty, and signals a contradiction (`none`) when
some cell is already known to hold a non-empty color. -/
theorem c8_solve_line_empty_clues (line : List (Option Nat)) :
    ((∀ cell ∈ line, cell = none ∨ cell = some EMPTY) →
      solve_line line [] = some (line.map (fun _ => some EMPTY))) ∧
    ((∃ cell ∈ line, ∃ v, cell = some v ∧ v ≠ EMPTY) →
      solve_line line [] = none) := by
  constructor
  · intro h
    rw [solve_line]
    exact empty_line_result_all_empty line h
  · intro h
    rw [solve_line]
    exact empty_line_result_conflict line h

theorem c8_solve_line_empty_clues_witness :
    solve_line [none, some EMPTY, none] [] =
      some [some EMPTY, some EMPTY, some EMPTY] ∧
    solve_line [none, some 2, none] [] = none := by
  constructor
  · exact (c8_solve_line_empty_clues _).1 (by decide)
  · exact (c8_solve_line_empty_clues _).2 ⟨some 2, by simp, 2, rfl, by decide⟩

/-! ## Grid plumbing lemmas -/
theorem getD_set_ne {l : List (Option Nat)} {i j : Nat} {x d : Option Nat}
    (h : i ≠ j) : (l.set i x).getD j d = l.getD j d := by
  rw [List.getD_eq_getElem?_getD, List.getElem?_set_ne h, ← List.getD_eq_getElem?_getD]

theorem getD_set_self {l : List (Option Nat)} {i : Nat} {x d : Option Nat}
    (h : i < l.length) : (l.set i x).getD i d = x := by
  rw [List.getD_eq_getElem?_getD, List.getElem?_set_self]
  · rfl
  · exact h

theorem getD_rows_set_ne {cells : List (List (Option Nat))} {i j : Nat}
    {x d : List (Option Nat)} (h : i ≠ j) : (cells.set i x).getD j d = cells.getD j d := by
  rw [List.getD_eq_getElem?_getD, List.getElem?_set_ne h, ← List.getD_eq_getElem?_getD]

theorem getD_rows_set_self {cells : List (List (Option Nat))} {i : Nat}
    {x d : List (Option Nat)} (h : i < cells.length) : (cells.set i x).getD i d = x := by
  rw [List.getD_eq_getElem?_getD, List.getElem?_set_self]
  · rfl
  · exact h

theorem set_getD_self {α : Type} (l : List α) (i : Nat) (d : α) :
    l.set i (l.getD i d) = l := by
  by_cases h : i < l.length
  · apply List.ext_getElem
    · simp
    · intro j hj hj'
      by_cases hij : i = j
      · subst hij
        rw [List.getElem_set_self, List.getD_eq_getElem?_getD, List.getElem?_eq_getElem h]
        rfl
      · rw [List.getElem_set_ne hij]
  · exact List.set_eq_of_length_le (by omega)

/-! ### `set_row_cells` -/
theorem set_row_cells_length : ∀ (cells vs : List (Option Nat)),
    (set_row_cells cells vs).1.length = cells.length := by
  intro cells
  induction cells with
  | nil => intro vs; cases vs <;> rfl
  | cons cur cs ih =>
    intro vs
    cases vs with
    | nil => rfl
    | cons v vs' =>
      simp only [set_row_cells]
      cases cur with
      | none =>
        cases v with
        | none => simp only [List.length_cons]; rw [ih vs']
        | some w => simp only [List.length_cons]; rw [ih vs']
      | some u =>
        cases v with
        | none => simp only [List.length_cons]; rw [ih vs']
        | some w => simp only [List.length_cons]; rw [ih vs']

theorem set_row_cells_zero : ∀ (cells vs : List (Option Nat)),
    (set_row_cells cells vs).2 = 0 → (set_row_cells cells vs).1 = cells := by
  intro cells
  induction cells with
  | nil => intro vs _; cases vs <;> rfl
  | cons cur cs ih =>
    intro vs h
    cases vs with
    | nil => rfl
    | cons v vs' =>
      cases cur with
      | none =>
        cases v with
        | none =>
          simp only [set_row_cells] at h ⊢
          rw [ih vs' h]
        | some w =>
          simp only [set_row_cells] at h
          exact absurd h (Nat.succ_ne_zero _)
      | some u =>
        cases v with
        | none =>
          simp only [set_row_cells] at h ⊢
          rw [ih vs' h]
        | some w =>
          simp only [set_row_cells] at h ⊢
          rw [ih vs' h]

theorem set_row_cells_unknowns : ∀ (cells vs : List (Option Nat)),
    (set_row_cells cells vs).1.countP (fun c => c.isNone) + (set_row_cells cells vs).2 =
      cells.countP (fun c => c.isNone) := by
  intro cells
  induction cells with
  | nil => intro vs; cases vs <;> rfl
  | cons cur cs ih =>
    intro vs
    cases vs with
    | nil => rfl
    | cons v vs' =>
      have hih := ih vs'
      cases cur <;> cases v <;>
        simp [set_row_cells, List.countP_cons] <;> omega

theorem set_row_cells_keeps : ∀ (cells vs : List (Option Nat)) (j : Nat) (v : Nat),
    cells.getD j none = some v → (set_row_cells cells vs).1.getD j none = some v := by
  intro cells
  induction cells with
  | nil =>
    intro vs j v h
    simp at h
  | cons cur cs ih =>
    intro vs j v h
    cases vs with
    | nil => exact h
    | cons v' vs' =>
      simp only [set_row_cells]
      cases j with
      | zero =>
        simp only [List.getD_cons_zero] at h
        subst h
        cases v' with
        | none => simp
        | some w => simp
      | succ k =>
        simp only [List.getD_cons_succ] at h
        have := ih vs' k v h
        cases cur with
        | none =>
          cases v' with
          | none => simpa using this
          | some w => simpa using this
        | some u =>
          cases v' with
          | none => simpa using this
          | some w => simpa using this

theorem set_row_cells_from : ∀ (cells vs : List (Option Nat)) (j : Nat) (v : Nat),
    (set_row_cells cells vs).1.getD j none = some v →
    cells.getD j none = some v ∨ (cells.getD j none = none ∧ vs.getD j none = some v) := by
  intro cells
  induction cells with
  | nil =>
    intro vs j v h
    cases vs with
    | nil => simp [set_row_cells] at h
    | cons v' vs' => simp [set_row_cells] at h
  | cons cur cs ih =>
    intro vs j v h
    cases vs with
    | nil => exact Or.inl h
    | cons v' vs' =>
      cases j with
      | zero =>
        cases cur with
        | none =>
          cases v' with
          | none =>
            simp only [set_row_cells, List.getD_cons_zero] at h
            exact Option.noConfusion h
          | some w =>
            simp only [set_row_cells, List.getD_cons_zero] at h
            exact Or.inr ⟨rfl, by simpa using h⟩
        | some u =>
          cases v' with
          | none =>
            simp only [set_row_cells, List.getD_cons_zero] at h
            exact Or.inl (by simpa using h)
          | some w =>
            simp only [set_row_cells, List.getD_cons_zero] at h
            exact Or.inl (by simpa using h)
      | succ k =>
        simp only [List.getD_cons_succ]
        cases cur with
        | none =>
          cases v' with
          | none =>
            simp only [set_row_cells, List.getD_cons_succ] at h
            exact ih vs' k v h
          | some w =>
            simp only [set_row_cells, List.getD_cons_succ] at h
            exact ih vs' k v h
        | some u =>
          cases v' with
          | none =>
            simp only [set_row_cells, List.getD_cons_succ] at h
            exact ih vs' k v h
          | some w =>
            simp only [set_row_cells, List.getD_cons_succ] at h
            exact ih vs' k v h

/-! ### `set_col_cells` -/
theorem countP_isNone_set : ∀ (r : List (Option Nat)) (col : Nat) (w : Nat),
    r.get? col = some none →
    (r.set col (some w)).countP (fun c => c.isNone) + 1 =
      r.countP (fun c => c.isNone) := by
  intro r
  induction r with
  | nil => intro col w h; simp at h
  | cons a t ih =>
    intro col w h
    cases col with
    | zero =>
      simp only [List.get?_cons_zero, Option.some.injEq] at h
      subst h
      simp [List.countP_cons]
    | succ k =>
      simp only [List.get?_cons_succ] at h
      simp only [List.set_cons_succ, List.countP_cons]
      have := ih k w h
      omega

theorem set_col_cells_cons_write {col : Nat} {r : List (Option Nat)} {w : Nat}
    (hrc : r.get? col = some none) (rs : List (List (Option Nat)))
    (vs' : List (Option Nat)) :
    set_col_cells col (r :: rs) (some w :: vs') =
      (r.set col (some w) :: (set_col_cells col rs vs').1,
        (set_col_cells col rs vs').2 + 1) := by
  have hg : r[col]? = some none := by rw [← List.get?_eq_getElem?]; exact hrc
  simp [set_col_cells, hg]

theorem set_col_cells_cons_skip {col : Nat} {r : List (Option Nat)} {v : Option Nat}
    (h : r.get? col ≠ some none ∨ v = none) (rs : List (List (Option Nat)))
    (vs' : List (Option Nat)) :
    set_col_cells col (r :: rs) (v :: vs') =
      (r :: (set_col_cells col rs vs').1, (set_col_cells col rs vs').2) := by
  rw [List.get?_eq_getElem?] at h
  rcases h with h | h
  · cases hrc : r[col]? with
    | none =>
      cases v <;> simp [set_col_cells, hrc]
    | some cell =>
      cases cell with
      | none => exact absurd hrc h
      | some u => cases v <;> simp [set_col_cells, hrc]
  · subst h
    cases hrc : r[col]? with
    | none => simp [set_col_cells, hrc]
    | some cell => cases cell <;> simp [set_col_cells, hrc]

theorem set_col_cells_split (col : Nat) (r : List (Option Nat)) (v : Option Nat) :
    (r.get? col = some none ∧ ∃ w, v = some w) ∨
      (r.get? col ≠ some none ∨ v = none) := by
  by_cases h1 : r.get? col = some none
  · cases v with
    | none => exact Or.inr (Or.inr rfl)
    | some w => exact Or.inl ⟨h1, w, rfl⟩
  · exact Or.inr (Or.inl h1)

theorem set_col_cells_length (col : Nat) : ∀ (rows : List (List (Option Nat)))
    (vs : List (Option Nat)), (set_col_cells col rows vs).1.length = rows.length := by
  intro rows
  induction rows with
  | nil => intro vs; cases vs <;> rfl
  | cons r rs ih =>
    intro vs
    cases vs with
    | nil => rfl
    | cons v vs' =>
      have hih := ih vs'
      rcases set_col_cells_split col r v with ⟨hrc, w, hv⟩ | hskip
      · subst hv
        rw [set_col_cells_cons_write hrc]
        simp only [List.length_cons]
        rw [hih]
      · rw [set_col_cells_cons_skip hskip]
        simp only [List.length_cons]
        rw [hih]

theorem set_col_cells_zero (col : Nat) : ∀ (rows : List (List (Option Nat)))
    (vs : List (Option Nat)),
    (set_col_cells col rows vs).2 = 0 → (set_col_cells col rows vs).1 = rows := by
  intro rows
  induction rows with
  | nil => intro vs _; cases vs <;> rfl
  | cons r rs ih =>
    intro vs h
    cases vs with
    | nil => rfl
    | cons v vs' =>
      rcases set_col_cells_split col r v with ⟨hrc, w, hv⟩ | hskip
      · subst hv
        rw [set_col_cells_cons_write hrc] at h
        exact absurd h (Nat.succ_ne_zero _)
      · rw [set_col_cells_cons_skip hskip] at h ⊢
        simp only at h ⊢
        rw [ih vs' h]

theorem set_col_cells_unknowns (col : Nat) : ∀ (rows : List (List (Option Nat)))
    (vs : List (Option Nat)),
    ((set_col_cells col rows vs).1.map (fun row => row.countP (fun c => c.isNone))).sum +
      (set_col_cells col rows vs).2 =
      (rows.map (fun row => row.countP (fun c => c.isNone))).sum := by
  intro rows
  induction rows with
  | nil => intro vs; cases vs <;> rfl
  | cons r rs ih =>
    intro vs
    cases vs with
    | nil => rfl
    | cons v vs' =>
      have hih := ih vs'
      rcases set_col_cells_split col r v with ⟨hrc, w, hv⟩ | hskip
      · subst hv
        rw [set_col_cells_cons_write hrc]
        simp only [List.map_cons, List.sum_cons]
        have hcnt := countP_isNone_set r col w hrc
        omega
      · rw [set_col_cells_cons_skip hskip]
        simp only [List.map_cons, List.sum_cons]
        omega

theorem set_col_cells_keeps (col : Nat) : ∀ (rows : List (List (Option Nat)))
    (vs : List (Option Nat)) (i j : Nat) (v : Nat),
    (rows.getD i []).getD j none = some v →
    ((set_col_cells col rows vs).1.getD i []).getD j none = some v := by
  intro rows
  induction rows with
  | nil =>
    intro vs i j v h
    simp at h
  | cons r rs ih =>
    intro vs i j v h
    cases vs with
    | nil => exact h
    | cons v' vs' =>
      rcases set_col_cells_split col r v' with ⟨hrc, w, hv⟩ | hskip
      · subst hv
        rw [set_col_cells_cons_write hrc]
        cases i with
        | zero =>
          simp only [List.getD_cons_zero] at h ⊢
          by_cases hj : col = j
          · subst hj
            exfalso
            have hg : r[col]? = some none := by rw [← List.get?_eq_getElem?]; exact hrc
            rw [List.getD_eq_getElem?_getD, hg] at h
            simp at h
          · rw [getD_set_ne hj]
            exact h
        | succ k =>
          simp only [List.getD_cons_succ] at h ⊢
          exact ih vs' k j v h
      · rw [set_col_cells_cons_skip hskip]
        cases i with
        | zero => simpa using h
        | succ k =>
          simp only [List.getD_cons_succ] at h ⊢
          exact ih vs' k j v h

theorem set_col_cells_from (col : Nat) : ∀ (rows : List (List (Option Nat)))
    (vs : List (Option Nat)) (i j : Nat) (v : Nat),
    ((set_col_cells col rows vs).1.getD i []).getD j none = some v →
    (rows.getD i []).getD j none = some v ∨
      (j = col ∧ (rows.getD i []).getD j none = none ∧ vs.getD i none = some v) := by
  intro rows
  induction rows with
  | nil =>
    intro vs i j v h
    cases vs with
    | nil => simp [set_col_cells] at h
    | cons v' vs' => simp [set_col_cells] at h
  | cons r rs ih =>
    intro vs i j v h
    cases vs with
    | nil => exact Or.inl h
    | cons v' vs' =>
      rcases set_col_cells_split col r v' with ⟨hrc, w, hv⟩ | hskip
      · subst hv
        rw [set_col_cells_cons_write hrc] at h
        cases i with
        | zero =>
          simp only [List.getD_cons_zero] at h ⊢
          by_cases hj : col = j
          · subst hj
            have hcol : col < r.length := by
              by_contra hcol
              rw [List.get?_eq_getElem?, List.getElem?_eq_none (by omega)] at hrc
              exact Option.noConfusion hrc
            rw [getD_set_self hcol] at h
            refine Or.inr ⟨rfl, ?_, by simpa using h⟩
            have hg : r[col]? = some none := by rw [← List.get?_eq_getElem?]; exact hrc
            rw [List.getD_eq_getElem?_getD, hg]
            rfl
          · rw [getD_set_ne hj] at h
            exact Or.inl h
        | succ k =>
          simp only [List.getD_cons_succ] at h ⊢
          exact ih vs' k j v h
      · rw [set_col_cells_cons_skip hskip] at h
        cases i with
        | zero => exact Or.inl (by simpa using h)
        | succ k =>
          simp only [List.getD_cons_succ] at h ⊢
          exact ih vs' k j v h

theorem grid_eta (g : Grid) : { g with cells := g.cells } = g := rfl

theorem create_empty_wf (w h : Nat) : (Grid.create_empty w h).WF := by
  constructor
  · simp [Grid.create_empty]
  · intro row hrow
    simp only [Grid.create_empty] at hrow
    rw [List.eq_of_mem_replicate hrow]
    simp [Grid.create_empty]

theorem create_empty_get (w h r c : Nat) : (Grid.create_empty w h).get r c = none := by
  show ((List.replicate h (List.replicate w none)).getD r []).getD c none = none
  by_cases hr : r < h
  · rw [getD_replicate hr]
    by_cases hc : c < w
    · rw [getD_replicate hc]
    · rw [List.getD_eq_default _ _ (by simpa using hc)]
  · have hout : (List.replicate h (List.replicate w (none : Option Nat))).getD r [] = [] :=
      List.getD_eq_default _ _ (by simpa using hr)
    rw [hout]
    rfl

theorem create_empty_unknown_count (w h : Nat) :
    (Grid.create_empty w h).unknown_count = h * w := by
  unfold Grid.create_empty Grid.unknown_count
  simp only [List.map_replicate, List.sum_replicate, smul_eq_mul]
  congr 1
  simp [List.countP_eq_length_filter]

theorem sum_map_set (f : List (Option Nat) → Nat) :
    ∀ (cells : List (List (Option Nat))) (i : Nat) (x : List (Option Nat)),
      i < cells.length →
      ((cells.set i x).map f).sum + f (cells.getD i []) = (cells.map f).sum + f x := by
  intro cells
  induction cells with
  | nil => intro i x h; simp at h
  | cons r rs ih =>
    intro i x h
    cases i with
    | zero =>
      simp only [List.set_cons_zero, List.map_cons, List.sum_cons, List.getD_cons_zero]
      omega
    | succ k =>
      simp only [List.set_cons_succ, List.map_cons, List.sum_cons, List.getD_cons_succ]
      have := ih k x (by simpa using Nat.lt_of_succ_lt_succ h)
      omega

theorem getD_mem_of_lt {α : Type} (l : List α) (i : Nat) (d : α) (h : i < l.length) :
    l.getD i d ∈ l := by
  rw [List.getD_eq_getElem?_getD, List.getElem?_eq_getElem h]
  exact List.getElem_mem h

/-! ### `Grid.set_row` and `Grid.set_col` specifications -/
theorem grid_set_row_dims (g : Grid) (row : Nat) (vs : List (Option Nat)) :
    (g.set_row row vs).1.width = g.width ∧ (g.set_row row vs).1.height = g.height :=
  ⟨rfl, rfl⟩

theorem grid_set_row_unknowns (g : Grid) (row : Nat) (vs : List (Option Nat)) :
    (g.set_row row vs).1.unknown_count + (g.set_row row vs).2 = g.unknown_count := by
  show ((g.cells.set row (set_row_cells (g.cells.getD row []) vs).1).map
        fun r => r.countP fun cell => cell.isNone).sum
      + (set_row_cells (g.cells.getD row []) vs).2
      = (g.cells.map fun r => r.countP fun cell => cell.isNone).sum
  by_cases hrow : row < g.cells.length
  · have hsum : ((g.cells.set row (set_row_cells (g.cells.getD row []) vs).1).map
          fun r => r.countP fun cell => cell.isNone).sum
        + (g.cells.getD row []).countP (fun cell => cell.isNone)
        = (g.cells.map fun r => r.countP fun cell => cell.isNone).sum
        + (set_row_cells (g.cells.getD row []) vs).1.countP (fun cell => cell.isNone) :=
      sum_map_set (fun r => r.countP fun cell => cell.isNone) g.cells row _ hrow
    have hcells := set_row_cells_unknowns (g.cells.getD row []) vs
    omega
  · have hnil : g.cells.getD row [] = [] := List.getD_eq_default _ _ (by omega)
    rw [List.set_eq_of_length_le (by omega), hnil]
    cases vs <;> simp [set_row_cells]

theorem grid_set_row_zero (g : Grid) (row : Nat) (vs : List (Option Nat))
    (h : (g.set_row row vs).2 = 0) : (g.set_row row vs).1 = g := by
  unfold Grid.set_row at h ⊢
  simp only at h ⊢
  rw [set_row_cells_zero _ _ h, set_getD_self]

theorem grid_set_row_wf (g : Grid) (row : Nat) (vs : List (Option Nat))
    (hwf : g.WF) : (g.set_row row vs).1.WF := by
  obtain ⟨hlen, hrows⟩ := hwf
  constructor
  · simp only [Grid.set_row, List.length_set]
    exact hlen
  · intro r hr
    simp only [Grid.set_row] at hr
    by_cases hrow : row < g.cells.length
    · rcases List.mem_or_eq_of_mem_set hr with h1 | h1
      · exact hrows r h1
      · subst h1
        rw [set_row_cells_length]
        exact hrows _ (getD_mem_of_lt _ _ _ hrow)
    · rw [List.set_eq_of_length_le (by omega)] at hr
      exact hrows r hr

theorem grid_set_row_keeps (g : Grid) (row : Nat) (vs : List (Option Nat))
    (a b : Nat) (v : Nat) (h : g.get a b = some v) :
    (g.set_row row vs).1.get a b = some v := by
  have h' : (g.cells.getD a []).getD b none = some v := h
  show ((g.cells.set row (set_row_cells (g.cells.getD row []) vs).1).getD a []).getD b none
    = some v
  by_cases ha : row = a
  · subst ha
    by_cases hrow : row < g.cells.length
    · rw [getD_rows_set_self hrow]
      exact set_row_cells_keeps _ vs b v h'
    · rw [List.set_eq_of_length_le (by omega)]
      exact h'
  · rw [getD_rows_set_ne ha]
    exact h'

theorem grid_set_row_from (g : Grid) (row : Nat) (vs : List (Option Nat))
    (a b : Nat) (v : Nat) (h : (g.set_row row vs).1.get a b = some v) :
    g.get a b = some v ∨ (a = row ∧ g.get a b = none ∧ vs.getD b none = some v) := by
  have h' : ((g.cells.set row (set_row_cells (g.cells.getD row []) vs).1).getD a []).getD b none
    = some v := h
  show (g.cells.getD a []).getD b none = some v ∨
    (a = row ∧ (g.cells.getD a []).getD b none = none ∧ vs.getD b none = some v)
  by_cases ha : row = a
  · subst ha
    by_cases hrow : row < g.cells.length
    · rw [getD_rows_set_self hrow] at h'
      rcases set_row_cells_from _ vs b v h' with h1 | h1
      · exact Or.inl h1
      · exact Or.inr ⟨rfl, h1.1, h1.2⟩
    · rw [List.set_eq_of_length_le (by omega)] at h'
      exact Or.inl h'
  · rw [getD_rows_set_ne ha] at h'
    exact Or.inl h'

theorem grid_set_col_dims (g : Grid) (col : Nat) (vs : List (Option Nat)) :
    (g.set_col col vs).1.width = g.width ∧ (g.set_col col vs).1.height = g.height :=
  ⟨rfl, rfl⟩

theorem grid_set_col_unknowns (g : Grid) (col : Nat) (vs : List (Option Nat)) :
    (g.set_col col vs).1.unknown_count + (g.set_col col vs).2 = g.unknown_count :=
  set_col_cells_unknowns col g.cells vs

theorem grid_set_col_zero (g : Grid) (col : Nat) (vs : List (Option Nat))
    (h : (g.set_col col vs).2 = 0) : (g.set_col col vs).1 = g := by
  have h' : (set_col_cells col g.cells vs).2 = 0 := h
  show ({ g with cells := (set_col_cells col g.cells vs).1 } : Grid) = g
  rw [set_col_cells_zero col _ _ h']

theorem set_col_cells_row_lengths (col : Nat) : ∀ (rows : List (List (Option Nat)))
    (vs : List (Option Nat)),
    (set_col_cells col rows vs).1.map List.length = rows.map List.length := by
  intro rows
  induction rows with
  | nil => intro vs; cases vs <;> rfl
  | cons r rs ih =>
    intro vs
    cases vs with
    | nil => rfl
    | cons v vs' =>
      rcases set_col_cells_split col r v with ⟨hrc, w, hw⟩ | hskip
      · subst hw
        rw [set_col_cells_cons_write hrc]
        simp only [List.map_cons, List.length_set]
        rw [ih]
      · rw [set_col_cells_cons_skip hskip]
        simp only [List.map_cons]
        rw [ih]

theorem grid_set_col_wf (g : Grid) (col : Nat) (vs : List (Option Nat))
    (hwf : g.WF) : (g.set_col col vs).1.WF := by
  obtain ⟨hlen, hrows⟩ := hwf
  constructor
  · show (set_col_cells col g.cells vs).1.length = g.height
    rw [set_col_cells_length]
    exact hlen
  · intro r hr
    have hr' : r ∈ (set_col_cells col g.cells vs).1 := hr
    have hmap : r.length ∈ (set_col_cells col g.cells vs).1.map List.length :=
      List.mem_map_of_mem _ hr'
    rw [set_col_cells_row_lengths] at hmap
    obtain ⟨row0, hrow0, hlen0⟩ := List.mem_map.mp hmap
    rw [← hlen0]
    exact hrows row0 hrow0

theorem grid_set_col_keeps (g : Grid) (col : Nat) (vs : List (Option Nat))
    (a b : Nat) (v : Nat) (h : g.get a b = some v) :
    (g.set_col col vs).1.get a b = some v := by
  have h' : (g.cells.getD a []).getD b none = some v := h
  show (((set_col_cells col g.cells vs).1.getD a []).getD b none) = some v
  exact set_col_cells_keeps col g.cells vs a b v h'

theorem grid_set_col_from (g : Grid) (col : Nat) (vs : List (Option Nat))
    (a b : Nat) (v : Nat) (h : (g.set_col col vs).1.get a b = some v) :
    g.get a b = some v ∨ (b = col ∧ g.get a b = none ∧ vs.getD a none = some v) := by
  have h' : (((set_col_cells col g.cells vs).1.getD a []).getD b none) = some v := h
  exact set_col_cells_from col g.cells vs a b v h'

/-! ### `Grid.set` (single cell) specifications -/
theorem grid_set_noop (g : Grid) (row col : Nat) (v : Option Nat)
    (h : g.get row col = v) : g.set row col v = .ok (g, false) := by
  unfold Grid.set
  rw [if_pos h]

theorem grid_set_conflict (g : Grid) (row col a b : Nat)
    (hget : g.get row col = some a) (hne : a ≠ b) :
    g.set row col (some b) = .error "conflict" := by
  unfold Grid.set
  rw [hget, if_neg (by simp [hne])]

theorem grid_set_erase (g : Grid) (row col : Nat) (a : Nat)
    (hget : g.get row col = some a) :
    g.set row col none =
      .ok ({ g with cells := g.cells.set row ((g.cells.getD row []).set col none) },
        true) := by
  unfold Grid.set
  rw [hget]
  simp

theorem grid_set_unknown_eq (g : Grid) (row col : Nat) (w : Nat)
    (hget : g.get row col = none) :
    g.set row col (some w) =
      .ok ({ g with cells := g.cells.set row ((g.cells.getD row []).set col (some w)) },
        true) := by
  unfold Grid.set
  rw [hget]
  simp

theorem grid_set_write (g : Grid) (row col : Nat) (w : Nat)
    (hget : g.get row col = none)
    (hrow : row < g.cells.length) (hcol : col < (g.cells.getD row []).length) :
    ∃ g', g.set row col (some w) = .ok (g', true) ∧
      g'.width = g.width ∧ g'.height = g.height ∧
      g'.cells.length = g.cells.length ∧
      (g.WF → g'.WF) ∧
      g'.get row col = some w ∧
      (∀ a b, (a ≠ row ∨ b ≠ col) → g'.get a b = g.get a b) ∧
      g'.unknown_count + 1 = g.unknown_count := by
  refine ⟨_, grid_set_unknown_eq g row col w hget, rfl, rfl, by simp, ?_, ?_, ?_, ?_⟩
  · rintro ⟨hlen, hrows⟩
    constructor
    · simpa using hlen
    · intro r hr
      rcases List.mem_or_eq_of_mem_set hr with h1 | h1
      · exact hrows r h1
      · subst h1
        rw [List.length_set]
        exact hrows _ (getD_mem_of_lt _ _ _ hrow)
  · show ((g.cells.set row ((g.cells.getD row []).set col (some w))).getD row []).getD
        col none = some w
    rw [getD_rows_set_self hrow, getD_set_self hcol]
  · intro a b hab
    show ((g.cells.set row ((g.cells.getD row []).set col (some w))).getD a []).getD
        b none = (g.cells.getD a []).getD b none
    by_cases ha : row = a
    · subst ha
      rw [getD_rows_set_self hrow]
      rcases hab with h | h
      · exact absurd rfl h
      · exact getD_set_ne (Ne.symm h)
    · rw [getD_rows_set_ne ha]
  · have hcell : (g.cells.getD row [])[col] = none := by
      have h2 : (g.cells.getD row []).getD col none = none := hget
      rwa [List.getD_eq_getElem?_getD, List.getElem?_eq_getElem hcol] at h2
    have hget? : (g.cells.getD row []).get? col = some none := by
      rw [List.get?_eq_getElem?, List.getElem?_eq_getElem hcol, hcell]
    have hrowcnt := countP_isNone_set (g.cells.getD row []) col w hget?
    have hsum : ((g.cells.set row ((g.cells.getD row []).set col (some w))).map
          fun r => r.countP fun cell => cell.isNone).sum
        + (g.cells.getD row []).countP (fun cell => cell.isNone)
        = (g.cells.map fun r => r.countP fun cell => cell.isNone).sum
        + ((g.cells.getD row []).set col (some w)).countP (fun cell => cell.isNone) :=
      sum_map_set (fun r => r.countP fun cell => cell.isNone) g.cells row _ hrow
    show ((g.cells.set row ((g.cells.getD row []).set col (some w))).map
          fun r => r.countP fun cell => cell.isNone).sum + 1
        = (g.cells.map fun r => r.countP fun cell => cell.isNone).sum
    omega

/-! ### Line extraction and completeness -/
theorem get_row_getD (g : Grid) (row b : Nat) :
    (g.get_row row).getD b none = g.get row b := rfl

theorem get_row_length (g : Grid) (hwf : g.WF) (row : Nat) (hr : row < g.height) :
    (g.get_row row).length = g.width := by
  obtain ⟨hlen, hrows⟩ := hwf
  exact hrows _ (getD_mem_of_lt _ _ _ (by omega))

theorem get_col_length (g : Grid) (col : Nat) : (g.get_col col).length = g.height := by
  simp [Grid.get_col]

theorem get_col_getD (g : Grid) (col r : Nat) (hr : r < g.height) :
    (g.get_col col).getD r none = g.get r col := by
  unfold Grid.get_col
  rw [List.getD_eq_getElem?_getD, List.getElem?_map, List.getElem?_range hr]
  rfl

theorem unknown_count_zero_iff (g : Grid) :
    g.unknown_count = 0 ↔ g.is_complete = true := by
  unfold Grid.unknown_count Grid.is_complete
  simp only [List.sum_eq_zero_iff, List.mem_map, List.all_eq_true,
    forall_exists_index, and_imp, List.countP_eq_zero]
  constructor
  · intro h row hrow cell hcell
    have h2 : List.countP (fun cell => cell.isNone) row = 0 := h _ row hrow rfl
    rw [List.countP_eq_zero] at h2
    simpa [Option.isSome_iff_ne_none] using h2 cell hcell
  · intro h x row hrow hx
    subst hx
    rw [List.countP_eq_zero]
    intro cell hcell
    simpa [Option.isSome_iff_ne_none, Option.isNone_iff_eq_none] using
      h row hrow cell hcell

theorem is_complete_get (g : Grid) (hc : g.is_complete = true)
    (hwf : g.WF) (r c : Nat) (hr : r < g.height) (hcw : c < g.width) :
    (g.get r c).isSome := by
  obtain ⟨hlen, hrows⟩ := hwf
  have hrow : g.cells.getD r [] ∈ g.cells := getD_mem_of_lt _ _ _ (by omega)
  have hcell : (g.cells.getD r []).getD c none ∈ g.cells.getD r [] := by
    apply getD_mem_of_lt
    rw [hrows _ hrow]
    exact hcw
  unfold Grid.is_complete at hc
  simp only [List.all_eq_true] at hc
  exact hc _ hrow _ hcell

/-! ### `find_unknown` -/
theorem find_unknown_in_row_some {row : List (Option Nat)} {width c : Nat}
    (h : find_unknown_in_row row width = some c) :
    c < width ∧ row.getD c none = none := by
  unfold find_unknown_in_row at h
  have hmem := List.mem_of_find?_eq_some h
  have hpred := List.find?_some h
  refine ⟨List.mem_range.mp hmem, ?_⟩
  simpa using hpred

theorem find_unknown_in_row_none {row : List (Option Nat)} {width : Nat}
    (h : find_unknown_in_row row width = none) :
    ∀ c, c < width → (row.getD c none).isSome := by
  intro c hc
  unfold find_unknown_in_row at h
  rw [List.find?_eq_none] at h
  have h2 := h c (List.mem_range.mpr hc)
  simpa [Option.isSome_iff_ne_none, Option.isNone_iff_eq_none] using h2

theorem find_unknown_in_row_of_unknown {row : List (Option Nat)} {width c : Nat}
    (hc : c < width) (hcell : row.getD c none = none) :
    ∃ c', find_unknown_in_row row width = some c' := by
  cases hf : find_unknown_in_row row width with
  | some c' => exact ⟨c', rfl⟩
  | none =>
    have := find_unknown_in_row_none hf c hc
    rw [hcell] at this
    simp at this

theorem find_unknown_go_some (g : Grid) : ∀ (rs : List Nat) (r c : Nat),
    find_unknown_go g rs = some (r, c) →
    r ∈ rs ∧ c < g.width ∧ g.get r c = none := by
  intro rs
  induction rs with
  | nil => intro r c h; simp [find_unknown_go] at h
  | cons a t ih =>
    intro r c h
    rw [find_unknown_go] at h
    cases hf : find_unknown_in_row (g.cells.getD a []) g.width with
    | some c0 =>
      rw [hf] at h
      simp only [Option.some.injEq, Prod.mk.injEq] at h
      obtain ⟨h1, h2⟩ := h
      subst h1; subst h2
      obtain ⟨hc, hcell⟩ := find_unknown_in_row_some hf
      exact ⟨List.mem_cons_self a t, hc, hcell⟩
    | none =>
      rw [hf] at h
      obtain ⟨hm, rest⟩ := ih r c h
      exact ⟨List.mem_cons_of_mem _ hm, rest⟩

theorem grid_find_unknown_some (g : Grid) (r c : Nat)
    (h : g.find_unknown = some (r, c)) :
    r < g.height ∧ c < g.width ∧ g.get r c = none := by
  obtain ⟨hm, rest⟩ := find_unknown_go_some g (List.range g.height) r c h
  exact ⟨List.mem_range.mp hm, rest⟩

theorem find_unknown_go_none (g : Grid) : ∀ (rs : List Nat),
    find_unknown_go g rs = none →
    ∀ r ∈ rs, find_unknown_in_row (g.cells.getD r []) g.width = none := by
  intro rs
  induction rs with
  | nil => intro _ r hr; simp at hr
  | cons a t ih =>
    intro h r hr
    rw [find_unknown_go] at h
    cases hf : find_unknown_in_row (g.cells.getD a []) g.width with
    | some c0 => rw [hf] at h; simp at h
    | none =>
      rw [hf] at h
      rcases List.mem_cons.mp hr with h1 | h1
      · subst h1; exact hf
      · exact ih h r h1

theorem grid_find_unknown_none (g : Grid) (hwf : g.WF)
    (h : g.find_unknown = none) : g.is_complete = true := by
  obtain ⟨hlen, hrows⟩ := hwf
  unfold Grid.is_complete
  simp only [List.all_eq_true]
  intro row hrow cell hcell
  obtain ⟨i, hi, hrow_eq⟩ := List.mem_iff_getElem.mp hrow
  obtain ⟨j, hj, hcell_eq⟩ := List.mem_iff_getElem.mp hcell
  have hgetd : g.cells.getD i [] = row := by
    rw [List.getD_eq_getElem?_getD, List.getElem?_eq_getElem hi, hrow_eq]
    exact Option.getD_some
  have hrownone := find_unknown_go_none g (List.range g.height) h i
    (List.mem_range.mpr (by omega))
  rw [hgetd] at hrownone
  have hsome := find_unknown_in_row_none hrownone j (by rw [← hrows row hrow]; exact hj)
  rw [List.getD_eq_getElem?_getD, List.getElem?_eq_getElem hj, hcell_eq] at hsome
  exact hsome

theorem grid_find_unknown_none_of_complete (g : Grid) (hwf : g.WF)
    (hc : g.is_complete = true) : g.find_unknown = none := by
  cases hf : g.find_unknown with
  | none => rfl
  | some rc =>
    exfalso
    obtain ⟨r, c⟩ := rc
    obtain ⟨hr, hcw, hcell⟩ := grid_find_unknown_some g r c hf
    have hs := is_complete_get g hc hwf r c hr hcw
    rw [hcell] at hs
    simp at hs

theorem extends_refl (g : Grid) : Extends g g := fun _ _ _ h => h

theorem extends_comp {g1 g2 g3 : Grid} (h1 : Extends g1 g2) (h2 : Extends g2 g3) :
    Extends g1 g3 := fun a b v h => h2 a b v (h1 a b v h)

theorem mpres_refl (m : SolverMetrics) : MPres m m :=
  ⟨Eq.refl _, Eq.refl _, Eq.refl _, Eq.refl _⟩

theorem mpres_comp {m1 m2 m3 : SolverMetrics} (h1 : MPres m1 m2) (h2 : MPres m2 m3) :
    MPres m1 m3 := by
  obtain ⟨a1, b1, c1, d1⟩ := h1
  obtain ⟨a2, b2, c2, d2⟩ := h2
  exact ⟨a2.trans a1, b2.trans b1, c2.trans c1, d2.trans d1⟩

theorem unknown_count_pos (g : Grid)
    (hcomp : g.is_complete = false) : 0 < g.unknown_count := by
  rcases Nat.eq_zero_or_pos g.unknown_count with h | h
  · rw [(unknown_count_zero_iff g).mp h] at hcomp
    cases hcomp
  · exact h

/-- `Solver._solve_row` on an in-range row index either reports the contradiction
with untouched state or performs the `set_row` update with the exact metric
bumps of solver.py lines 235-239. -/
theorem solve_row_spec (p : Puzzle) (g : Grid) (m : SolverMetrics) (i : Nat)
    (hp : i < p.row_clues.length) :
    Solver.solve_row p g m i = .ok (.contra g m) ∨
    ∃ g' n, Solver.solve_row p g m i =
        .ok (.next g' { m with
            total_steps := m.total_steps + 1,
            overlap_uses := m.overlap_uses + (if 0 < n then 1 else 0) }
          (decide (0 < n))) ∧
      g'.unknown_count + n = g.unknown_count ∧
      (n = 0 → g' = g) ∧
      g'.width = g.width ∧ g'.height = g.height ∧ (g.WF → g'.WF) ∧ Extends g g' := by
  cases hclues : p.row_clues.get? i with
  | none =>
    exfalso
    rw [List.get?_eq_none] at hclues
    omega
  | some clues =>
    cases hsl : solve_line (g.get_row i) clues with
    | none =>
      left
      simp only [Solver.solve_row, hclues, hsl]
    | some result =>
      right
      refine ⟨(g.set_row i result).1, (g.set_row i result).2, ?_,
        grid_set_row_unknowns g i result,
        grid_set_row_zero g i result,
        rfl, rfl, grid_set_row_wf g i result,
        fun a b v hv => grid_set_row_keeps g i result a b v hv⟩
      simp only [Solver.solve_row, hclues, hsl]

/-- `Solver._solve_col`, the column analogue of `solve_row_spec`. -/
theorem solve_col_spec (p : Puzzle) (g : Grid) (m : SolverMetrics) (i : Nat)
    (hp : i < p.col_clues.length) :
    Solver.solve_col p g m i = .ok (.contra g m) ∨
    ∃ g' n, Solver.solve_col p g m i =
        .ok (.next g' { m with
            total_steps := m.total_steps + 1,
            overlap_uses := m.overlap_uses + (if 0 < n then 1 else 0) }
          (decide (0 < n))) ∧
      g'.unknown_count + n = g.unknown_count ∧
      (n = 0 → g' = g) ∧
      g'.width = g.width ∧ g'.height = g.height ∧ (g.WF → g'.WF) ∧ Extends g g' := by
  cases hclues : p.col_clues.get? i with
  | none =>
    exfalso
    rw [List.get?_eq_none] at hclues
    omega
  | some clues =>
    cases hsl : solve_line (g.get_col i) clues with
    | none =>
      left
      simp only [Solver.solve_col, hclues, hsl]
    | some result =>
      right
      refine ⟨(g.set_col i result).1, (g.set_col i result).2, ?_,
        grid_set_col_unknowns g i result,
        grid_set_col_zero g i result,
        rfl, rfl, grid_set_col_wf g i result,
        fun a b v hv => grid_set_col_keeps g i result a b v hv⟩
      simp only [Solver.solve_col, hclues, hsl]

theorem decide_pos_add (n1 n2 : Nat) :
    decide (0 < n1 + n2) = (decide (0 < n1) || decide (0 < n2)) := by
  rcases Nat.eq_zero_or_pos n1 with h1 | h1 <;>
    rcases Nat.eq_zero_or_pos n2 with h2 | h2 <;>
      simp [h1, h2, Nat.pos_iff_ne_zero]

/-- The row loop of a pass: no error on in-range indices; a contradiction stops
early with the state accumulated so far; otherwise the changed flag is the OR of
the incoming flag and whether any cell was determined, and the grid only
gains information. -/
theorem pass_rows_spec (p : Puzzle) : ∀ (rs : List Nat) (g : Grid)
    (m : SolverMetrics) (ch : Bool), (∀ r ∈ rs, r < p.row_clues.length) →
    (∃ g' m', Solver.pass_rows p g m ch rs = .ok (.contra g' m') ∧
       MPres m m' ∧ Extends g g' ∧ g'.width = g.width ∧ g'.height = g.height ∧
       (g.WF → g'.WF) ∧ g'.unknown_count ≤ g.unknown_count) ∨
    (∃ g' m' n, Solver.pass_rows p g m ch rs =
         .ok (.next g' m' (ch || decide (0 < n))) ∧
       MPres m m' ∧ Extends g g' ∧ g'.width = g.width ∧ g'.height = g.height ∧
       (g.WF → g'.WF) ∧ g'.unknown_count + n = g.unknown_count ∧
       (n = 0 → g' = g)) := by
  intro rs
  induction rs with
  | nil =>
    intro g m ch _
    right
    exact ⟨g, m, 0, by simp [Solver.pass_rows], mpres_refl m, extends_refl g,
      rfl, rfl, id, by omega, fun _ => rfl⟩
  | cons r rest ih =>
    intro g m ch hall
    rcases solve_row_spec p g m r (hall r (List.mem_cons_self r rest)) with
      hcon | ⟨g1, n1, heq, hunk1, hzero1, hw1, hh1, hwf1, hext1⟩
    · left
      exact ⟨g, m, by simp [Solver.pass_rows, hcon], mpres_refl m, extends_refl g,
        rfl, rfl, id, Nat.le_refl _⟩
    · have hall' : ∀ r' ∈ rest, r' < p.row_clues.length :=
        fun r' hr' => hall r' (List.mem_cons_of_mem _ hr')
      have hm1p : MPres m { m with
          total_steps := m.total_steps + 1,
          overlap_uses := m.overlap_uses + (if 0 < n1 then 1 else 0) } :=
        ⟨rfl, rfl, rfl, rfl⟩
      rcases ih g1 { m with
          total_steps := m.total_steps + 1,
          overlap_uses := m.overlap_uses + (if 0 < n1 then 1 else 0) }
          (ch || decide (0 < n1)) hall' with
        ⟨g', m', hres, hmp, hext, hw, hh, hwf, hle⟩ |
        ⟨g', m', n2, hres, hmp, hext, hw, hh, hwf, hunk2, hzero2⟩
      · left
        refine ⟨g', m', ?_, mpres_comp hm1p hmp, extends_comp hext1 hext, hw.trans hw1,
          hh.trans hh1, fun h => hwf (hwf1 h), by omega⟩
        simp only [Solver.pass_rows, heq]
        exact hres
      · right
        refine ⟨g', m', n1 + n2, ?_, mpres_comp hm1p hmp, extends_comp hext1 hext, hw.trans hw1,
          hh.trans hh1, fun h => hwf (hwf1 h), by omega, ?_⟩
        · simp only [Solver.pass_rows, heq]
          rw [decide_pos_add, ← Bool.or_assoc]
          exact hres
        · intro hz
          rw [hzero2 (by omega), hzero1 (by omega)]

/-- The column loop of a pass, mirror of `pass_rows_spec`. -/
theorem pass_cols_spec (p : Puzzle) : ∀ (cs : List Nat) (g : Grid)
    (m : SolverMetrics) (ch : Bool), (∀ c ∈ cs, c < p.col_clues.length) →
    (∃ g' m', Solver.pass_cols p g m ch cs = .ok (.contra g' m') ∧
       MPres m m' ∧ Extends g g' ∧ g'.width = g.width ∧ g'.height = g.height ∧
       (g.WF → g'.WF) ∧ g'.unknown_count ≤ g.unknown_count) ∨
    (∃ g' m' n, Solver.pass_cols p g m ch cs =
         .ok (.next g' m' (ch || decide (0 < n))) ∧
       MPres m m' ∧ Extends g g' ∧ g'.width = g.width ∧ g'.height = g.height ∧
       (g.WF → g'.WF) ∧ g'.unknown_count + n = g.unknown_count ∧
       (n = 0 → g' = g)) := by
  intro cs
  induction cs with
  | nil =>
    intro g m ch _
    right
    exact ⟨g, m, 0, by simp [Solver.pass_cols], mpres_refl m, extends_refl g,
      rfl, rfl, id, by omega, fun _ => rfl⟩
  | cons c rest ih =>
    intro g m ch hall
    rcases solve_col_spec p g m c (hall c (List.mem_cons_self c rest)) with
      hcon | ⟨g1, n1, heq, hunk1, hzero1, hw1, hh1, hwf1, hext1⟩
    · left
      exact ⟨g, m, by simp [Solver.pass_cols, hcon], mpres_refl m, extends_refl g,
        rfl, rfl, id, Nat.le_refl _⟩
    · have hall' : ∀ c' ∈ rest, c' < p.col_clues.length :=
        fun c' hc' => hall c' (List.mem_cons_of_mem _ hc')
      have hm1p : MPres m { m with
          total_steps := m.total_steps + 1,
          overlap_uses := m.overlap_uses + (if 0 < n1 then 1 else 0) } :=
        ⟨rfl, rfl, rfl, rfl⟩
      rcases ih g1 { m with
          total_steps := m.total_steps + 1,
          overlap_uses := m.overlap_uses + (if 0 < n1 then 1 else 0) }
          (ch || decide (0 < n1)) hall' with
        ⟨g', m', hres, hmp, hext, hw, hh, hwf, hle⟩ |
        ⟨g', m', n2, hres, hmp, hext, hw, hh, hwf, hunk2, hzero2⟩
      · left
        refine ⟨g', m', ?_, mpres_comp hm1p hmp, extends_comp hext1 hext, hw.trans hw1,
          hh.trans hh1, fun h => hwf (hwf1 h), by omega⟩
        simp only [Solver.pass_cols, heq]
        exact hres
      · right
        refine ⟨g', m', n1 + n2, ?_, mpres_comp hm1p hmp, extends_comp hext1 hext, hw.trans hw1,
          hh.trans hh1, fun h => hwf (hwf1 h), by omega, ?_⟩
        · simp only [Solver.pass_cols, heq]
          rw [decide_pos_add, ← Bool.or_assoc]
          exact hres
        · intro hz
          rw [hzero2 (by omega), hzero1 (by omega)]

/-- One full pass (rows then columns): the changed flag is exactly "some cell
was determined", and a false flag means the grid is unchanged. -/
theorem pass_once_spec (p : Puzzle) (g : Grid) (m : SolverMetrics)
    (hr : p.height ≤ p.row_clues.length) (hc : p.width ≤ p.col_clues.length) :
    (∃ g' m', Solver.pass_once p g m = .ok (.contra g' m') ∧
       MPres m m' ∧ Extends g g' ∧ g'.width = g.width ∧ g'.height = g.height ∧
       (g.WF → g'.WF) ∧ g'.unknown_count ≤ g.unknown_count) ∨
    (∃ g' m' n, Solver.pass_once p g m = .ok (.next g' m' (decide (0 < n))) ∧
       MPres m m' ∧ Extends g g' ∧ g'.width = g.width ∧ g'.height = g.height ∧
       (g.WF → g'.WF) ∧ g'.unknown_count + n = g.unknown_count ∧
       (n = 0 → g' = g)) := by
  have hallr : ∀ r ∈ List.range p.height, r < p.row_clues.length :=
    fun r hr' => Nat.lt_of_lt_of_le (List.mem_range.mp hr') hr
  rcases pass_rows_spec p (List.range p.height) g m false hallr with
    ⟨g', m', hres, hmp, hext, hw, hh, hwf, hle⟩ |
    ⟨g1, m1, n1, hres, hmp1, hext1, hw1, hh1, hwf1, hunk1, hzero1⟩
  · left
    refine ⟨g', m', ?_, hmp, hext, hw, hh, hwf, hle⟩
    simp only [Solver.pass_once, hres]
  · rw [Bool.false_or] at hres
    have hallc : ∀ c ∈ List.range p.width, c < p.col_clues.length :=
      fun c hc' => Nat.lt_of_lt_of_le (List.mem_range.mp hc') hc
    rcases pass_cols_spec p (List.range p.width) g1 m1 (decide (0 < n1)) hallc with
      ⟨g', m', hres2, hmp, hext, hw, hh, hwf, hle⟩ |
      ⟨g', m', n2, hres2, hmp, hext, hw, hh, hwf, hunk2, hzero2⟩
    · left
      refine ⟨g', m', ?_, mpres_comp hmp1 hmp, extends_comp hext1 hext, hw.trans hw1,
        hh.trans hh1, fun h => hwf (hwf1 h), by omega⟩
      simp only [Solver.pass_once, hres]
      exact hres2
    · right
      refine ⟨g', m', n1 + n2, ?_, mpres_comp hmp1 hmp, extends_comp hext1 hext, hw.trans hw1,
        hh.trans hh1, fun h => hwf (hwf1 h), by omega, ?_⟩
      · simp only [Solver.pass_once, hres]
        rw [decide_pos_add]
        exact hres2
      · intro hz
        rw [hzero2 (by omega), hzero1 (by omega)]

/-- One iteration of the top-level loop: exactly like a pass, except that
`stuck_count` is incremented precisely when the pass changed nothing and the
grid is still incomplete (solver.py lines 207-208). -/
theorem iteration_spec (p : Puzzle) (g : Grid) (m : SolverMetrics)
    (hr : p.height ≤ p.row_clues.length) (hc : p.width ≤ p.col_clues.length) :
    (∃ g' m', Solver.iteration p g m = .ok (.contra g' m') ∧
       MPres m m' ∧ Extends g g' ∧ g'.width = g.width ∧ g'.height = g.height ∧
       (g.WF → g'.WF) ∧ g'.unknown_count ≤ g.unknown_count) ∨
    (∃ g' m' n, Solver.iteration p g m = .ok (.next g' m' (decide (0 < n))) ∧
       m'.stuck_count = m.stuck_count +
         (if n = 0 ∧ g'.is_complete = false then 1 else 0) ∧
       m'.backtrack_count = m.backtrack_count ∧
       m'.backtrack_depth = m.backtrack_depth ∧
       m'.cells_solved = m.cells_solved ∧
       Extends g g' ∧ g'.width = g.width ∧ g'.height = g.height ∧
       (g.WF → g'.WF) ∧ g'.unknown_count + n = g.unknown_count ∧
       (n = 0 → g' = g)) := by
  rcases pass_once_spec p g m hr hc with
    ⟨g', m', hres, hmp, hext, hw, hh, hwf, hle⟩ |
    ⟨g', m', n, hres, hmp, hext, hw, hh, hwf, hunk, hzero⟩
  · left
    refine ⟨g', m', ?_, hmp, hext, hw, hh, hwf, hle⟩
    simp only [Solver.iteration, hres]
  · right
    obtain ⟨hst, hbc, hbd, hcs⟩ := hmp
    by_cases hn : n = 0
    · subst hn
      by_cases hcomp : g'.is_complete
      · refine ⟨g', m', 0, ?_, by simp [hst, hcomp], hbc, hbd, hcs, hext,
          hw, hh, hwf, hunk, hzero⟩
        simp only [Solver.iteration, hres, hcomp]
        simp
      · refine ⟨g', { m' with stuck_count := m'.stuck_count + 1 }, 0, ?_,
          by simp [hst, hcomp], hbc, hbd, hcs, hext, hw, hh, hwf, hunk, hzero⟩
        simp only [Solver.iteration, hres]
        simp [hcomp]
    · refine ⟨g', m', n, ?_, by simp [hst, hn], hbc, hbd, hcs, hext,
        hw, hh, hwf, hunk, hzero⟩
      simp only [Solver.iteration, hres]
      have : decide (0 < n) = true := by simp; omega
      rw [this]
      simp

/-- The in-branch propagation loop terminates within the fuel budget (each
productive pass determines at least one cell), never errors, only refines the
grid, never touches the stuck or backtracking counters, and stops at a pass
fixpoint. -/
theorem branch_propagate_go_spec (p : Puzzle)
    (hr : p.height ≤ p.row_clues.length) (hc : p.width ≤ p.col_clues.length) :
    ∀ (fuel : Nat) (g : Grid) (m : SolverMetrics), g.unknown_count < fuel →
    (∃ out, branch_propagate_go p fuel g m = .ok out) ∧
    (∀ g' m', branch_propagate_go p fuel g m = .ok (some (g', m')) →
      MPres m m' ∧ Extends g g' ∧ g'.width = g.width ∧ g'.height = g.height ∧
      (g.WF → g'.WF) ∧ g'.unknown_count ≤ g.unknown_count ∧
      ∃ m0 m1, Solver.pass_once p g' m0 = .ok (.next g' m1 false)) := by
  intro fuel
  induction fuel with
  | zero => intro g m h; omega
  | succ fuel ih =>
    intro g m hfuel
    rcases pass_once_spec p g m hr hc with
      ⟨g1, m1, hres, hmp, hext, hw, hh, hwf, hle⟩ |
      ⟨g1, m1, n, hres, hmp, hext, hw, hh, hwf, hunk, hzero⟩
    · constructor
      · exact ⟨none, by simp [branch_propagate_go, hres]⟩
      · intro g' m' hsome
        simp only [branch_propagate_go, hres] at hsome
        cases hsome
    · by_cases hn : n = 0
      · subst hn
        have hg1 : g1 = g := hzero rfl
        subst hg1
        constructor
        · refine ⟨some (g1, m1), ?_⟩
          simp only [branch_propagate_go, hres]
          simp
        · intro g' m' hsome
          simp only [branch_propagate_go, hres] at hsome
          simp only [decide_eq_true_eq, Nat.lt_irrefl, if_false] at hsome
          have h1 : g1 = g' ∧ m1 = m' := by
            constructor <;> cases hsome <;> rfl
          obtain ⟨hg, hm⟩ := h1
          subst hg; subst hm
          exact ⟨hmp, hext, hw, hh, hwf, by omega, m, m1, hres⟩
      · have hflag : decide (0 < n) = true := by simp; omega
        rw [hflag] at hres
        have hfuel1 : g1.unknown_count < fuel := by omega
        obtain ⟨⟨out, hout⟩, hprops⟩ := ih g1 m1 hfuel1
        constructor
        · refine ⟨out, ?_⟩
          simp only [branch_propagate_go, hres]
          simpa using hout
        · intro g' m' hsome
          have hsome' : branch_propagate_go p fuel g1 m1 = .ok (some (g', m')) := by
            simp only [branch_propagate_go, hres] at hsome
            simpa using hsome
          obtain ⟨hmp2, hext2, hw2, hh2, hwf2, hle2, hfix⟩ := hprops g' m' hsome'
          exact ⟨mpres_comp hmp hmp2, extends_comp hext hext2, hw2.trans hw, hh2.trans hh,
            fun h => hwf2 (hwf h), by omega, hfix⟩

/-- `branch_propagate` with its `unknown_count + 1` fuel always succeeds. -/
theorem branch_propagate_spec (p : Puzzle) (g : Grid) (m : SolverMetrics)
    (hr : p.height ≤ p.row_clues.length) (hc : p.width ≤ p.col_clues.length) :
    (∃ out, branch_propagate p g m = .ok out) ∧
    (∀ g' m', branch_propagate p g m = .ok (some (g', m')) →
      MPres m m' ∧ Extends g g' ∧ g'.width = g.width ∧ g'.height = g.height ∧
      (g.WF → g'.WF) ∧ g'.unknown_count ≤ g.unknown_count ∧
      ∃ m0 m1, Solver.pass_once p g' m0 = .ok (.next g' m1 false)) :=
  branch_propagate_go_spec p hr hc (g.unknown_count + 1) g m (by omega)

theorem bstep_refl (maxSol : Nat) (bs : BState) : BStep maxSol bs bs :=
  ⟨Eq.refl _, Eq.refl _, Nat.le_max_left _ _, ⟨[], by simp⟩, id,
    Nat.le_max_left _ _⟩

theorem bstep_comp {maxSol : Nat} {b1 b2 b3 : BState}
    (h1 : BStep maxSol b1 b2) (h2 : BStep maxSol b2 b3) : BStep maxSol b1 b3 := by
  obtain ⟨s1, c1, d1, ⟨n1, hn1⟩, t1, l1⟩ := h1
  obtain ⟨s2, c2, d2, ⟨n2, hn2⟩, t2, l2⟩ := h2
  refine ⟨s2.trans s1, c2.trans c1, ?_, ⟨n1 ++ n2, by rw [hn2, hn1, List.append_assoc]⟩,
    fun h => t2 (t1 h), ?_⟩
  · calc b3.metrics.backtrack_depth ≤ max b2.metrics.backtrack_depth 1 := d2
      _ ≤ max (max b1.metrics.backtrack_depth 1) 1 := by omega
      _ = max b1.metrics.backtrack_depth 1 := by omega
  · calc b3.solutions.length ≤ max b2.solutions.length maxSol := l2
      _ ≤ max (max b1.solutions.length maxSol) maxSol := by omega
      _ = max b1.solutions.length maxSol := by omega

/-- The guess loop: provided every recursive call obeys `BStep`, the whole loop
over candidate colors returns without error and obeys `BStep`. -/
theorem color_loop_spec (p : Puzzle) (maxSol : Nat) (working : Grid)
    (row col : Nat) (recur : BState → Grid → Except String (BState × Bool))
    (hget : working.get row col = none)
    (hrw : row < working.cells.length)
    (hcl : col < (working.cells.getD row []).length)
    (hrec : ∀ (b : BState) (g2 : Grid), g2.width = working.width →
        g2.height = working.height → (working.WF → g2.WF) →
        g2.unknown_count + 1 = working.unknown_count →
        ∃ r, recur b g2 = .ok r ∧ BStep maxSol b r.1) :
    ∀ (colors : List Nat) (bs : BState),
    ∃ r, color_loop p maxSol working row col recur bs colors = .ok r ∧
      BStep maxSol bs r.1 := by
  intro colors
  induction colors with
  | nil =>
    intro bs
    exact ⟨(bs, decide (0 < bs.solutions.length)), rfl, bstep_refl maxSol bs⟩
  | cons color more ih =>
    intro bs
    obtain ⟨g', hset, hw', hh', hclen, hwfp, hgetp, hkeep, hunk⟩ :=
      grid_set_write working row col color hget hrw hcl
    obtain ⟨r1, hr1, hstep1⟩ := hrec bs g' hw' hh' hwfp hunk
    by_cases hstop : maxSol ≤ r1.1.solutions.length
    · refine ⟨(r1.1, true), ?_, hstep1⟩
      simp only [color_loop, hset, hr1]
      rw [if_pos hstop]
    · obtain ⟨r2, hr2, hstep2⟩ := ih r1.1
      refine ⟨r2, ?_, bstep_comp hstep1 hstep2⟩
      simp only [color_loop, hset, hr1]
      rw [if_neg hstop]
      exact hr2

/-- `_solve_recursive` terminates within its fuel, never errors, and obeys
`BStep`: no branch ever touches `stuck_count` or `cells_solved`, the recorded
depth stays at one, solutions only accumulate up to the cap, and the timeout
flag is monotone. -/
theorem solve_recursive_spec (p : Puzzle) (maxSol maxBt : Nat)
    (hr : p.height ≤ p.row_clues.length) (hc : p.width ≤ p.col_clues.length) :
    ∀ (fuel : Nat) (bs : BState) (grid : Grid), grid.WF →
    grid.unknown_count < fuel →
    ∃ r, solve_recursive p maxSol maxBt fuel bs grid = .ok r ∧
      BStep maxSol bs r.1 := by
  intro fuel
  induction fuel with
  | zero => intro bs grid _ h; exact (Nat.not_lt_zero _ h).elim
  | succ fuel ih =>
    intro bs grid hwf hfuel
    by_cases h1 : maxSol ≤ bs.solutions.length
    · refine ⟨(bs, true), ?_, bstep_refl maxSol bs⟩
      simp only [solve_recursive]
      rw [if_pos h1]
    · by_cases h2 : maxBt ≤ bs.metrics.backtrack_count
      · refine ⟨({ bs with timed_out := true }, true), ?_,
          Eq.refl _, Eq.refl _, Nat.le_max_left _ _, ⟨[], by simp⟩,
          fun _ => rfl, Nat.le_max_left _ _⟩
        simp only [solve_recursive]
        rw [if_neg h1, if_pos h2]
      · obtain ⟨⟨out, hout⟩, hprops⟩ :=
          branch_propagate_spec p grid SolverMetrics.zero hr hc
        cases out with
        | none =>
          refine ⟨(bs, false), ?_, bstep_refl maxSol bs⟩
          simp only [solve_recursive, hout]
          rw [if_neg h1, if_neg h2]
        | some wp =>
          obtain ⟨hmp, hext, hww, hwh, hwfp, hule, hfix⟩ :=
            hprops wp.1 wp.2 (by rw [hout])
          by_cases hcomp : wp.1.is_complete = true
          · refine ⟨({ bs with
                  metrics := { bs.metrics with
                    total_steps := bs.metrics.total_steps + wp.2.total_steps },
                  solutions := bs.solutions ++ [wp.1] }, true), ?_,
              Eq.refl _, Eq.refl _, Nat.le_max_left _ _, ⟨[wp.1], rfl⟩,
              fun h => h, ?_⟩
            · simp only [solve_recursive, hout]
              rw [if_neg h1, if_neg h2]
              simp [hcomp]
            · simp only [List.length_append, List.length_cons, List.length_nil]
              omega
          · have hcompf : wp.1.is_complete = false := by
              simpa using hcomp
            cases hfind : wp.1.find_unknown with
            | none =>
              refine ⟨({ bs with
                  metrics := { bs.metrics with
                    total_steps := bs.metrics.total_steps + wp.2.total_steps } },
                  false), ?_,
                Eq.refl _, Eq.refl _, Nat.le_max_left _ _, ⟨[], by simp⟩,
                fun h => h, Nat.le_max_left _ _⟩
              simp only [solve_recursive, hout]
              rw [if_neg h1, if_neg h2]
              simp [hcompf, hfind]
            | some rc =>
              obtain ⟨hrr, hrcw, hget0⟩ :=
                grid_find_unknown_some wp.1 rc.1 rc.2 (by rw [hfind])
              have hwfw : wp.1.WF := hwfp hwf
              have hrw : rc.1 < wp.1.cells.length := by
                rw [hwfw.1]; exact hrr
              have hcl : rc.2 < (wp.1.cells.getD rc.1 []).length := by
                rw [hwfw.2 _ (getD_mem_of_lt _ _ _ hrw)]; exact hrcw
              have hrec : ∀ (b : BState) (g2 : Grid), g2.width = wp.1.width →
                  g2.height = wp.1.height → (wp.1.WF → g2.WF) →
                  g2.unknown_count + 1 = wp.1.unknown_count →
                  ∃ r, solve_recursive p maxSol maxBt fuel b g2 = .ok r ∧
                    BStep maxSol b r.1 := by
                intro b g2 _ _ hwf2 hunk2
                exact ih b g2 (hwf2 hwfw) (by omega)
              obtain ⟨r, hloop, hstep⟩ := color_loop_spec p maxSol wp.1 rc.1 rc.2
                (fun b g2 => solve_recursive p maxSol maxBt fuel b g2)
                hget0 hrw hcl hrec (possible_colors p)
                { bs with
                  metrics := { bs.metrics with
                    total_steps := bs.metrics.total_steps + wp.2.total_steps,
                    backtrack_count := bs.metrics.backtrack_count + 1,
                    backtrack_depth := max bs.metrics.backtrack_depth 1 } }
              have hpre : BStep maxSol bs { bs with
                  metrics := { bs.metrics with
                    total_steps := bs.metrics.total_steps + wp.2.total_steps,
                    backtrack_count := bs.metrics.backtrack_count + 1,
                    backtrack_depth := max bs.metrics.backtrack_depth 1 } } :=
                ⟨Eq.refl _, Eq.refl _, Nat.le_refl _, ⟨[], by simp⟩,
                  fun h => h, Nat.le_max_left _ _⟩
              refine ⟨r, ?_, bstep_comp hpre hstep⟩
              simp only [solve_recursive, hout]
              rw [if_neg h1, if_neg h2]
              simp only [hcompf, hfind]
              simp only [Bool.false_eq_true, if_false]
              exact hloop

theorem SolRec.up {p : Puzzle} {g g2 s : Grid} (hext : Extends g g2)
    (hw : g2.width = g.width) (hh : g2.height = g.height)
    (h : SolRec p g2 s) : SolRec p g s := by
  obtain ⟨h1, h2, h3, h4, h5, h6⟩ := h
  exact ⟨h1, extends_comp hext h2, h3.trans hw, h4.trans hh, h5, h6⟩

/-- The guess loop records only complete solution grids that refine the working
grid and pin the guess cell to the color of their branch; solutions recorded by
different branches therefore differ, and each recursive call keeps its own
recorded list pairwise distinct. -/
theorem color_loop_sols (p : Puzzle) (maxSol : Nat) (working : Grid)
    (row col : Nat) (recur : BState → Grid → Except String (BState × Bool))
    (hget : working.get row col = none)
    (hrw : row < working.cells.length)
    (hcl : col < (working.cells.getD row []).length)
    (hrec : ∀ (b : BState) (g2 : Grid) (w : Nat),
        working.set row col (some w) = .ok (g2, true) →
        ∀ r, recur b g2 = .ok r →
        ∃ new, r.1.solutions = b.solutions ++ new ∧
          (∀ s ∈ new, SolRec p g2 s) ∧
          new.Pairwise (fun a b => a ≠ b)) :
    ∀ (colors : List Nat), colors.Nodup → ∀ (bs : BState) (r : BState × Bool),
    color_loop p maxSol working row col recur bs colors = .ok r →
    ∃ new, r.1.solutions = bs.solutions ++ new ∧
      (∀ s ∈ new, SolRec p working s ∧ ∃ c ∈ colors, s.get row col = some c) ∧
      new.Pairwise (fun a b => a ≠ b) := by
  intro colors
  induction colors with
  | nil =>
    intro _ bs r hres
    have hr1 : r.1 = bs := by
      have : (⟨bs, decide (0 < bs.solutions.length)⟩ : BState × Bool) = r := by
        exact Except.ok.inj hres
      rw [← this]
    rw [hr1]
    exact ⟨[], by simp, by simp, List.Pairwise.nil⟩
  | cons color more ih =>
    intro hnodup bs r hres
    have hmore : more.Nodup := hnodup.of_cons
    have hnotin : color ∉ more := (List.nodup_cons.mp hnodup).1
    obtain ⟨g', hset, hw', hh', hclen, hwfp, hgetp, hkeep, hunk⟩ :=
      grid_set_write working row col color hget hrw hcl
    have hextg : Extends working g' := by
      intro a b v hv
      by_cases hab : a = row ∧ b = col
      · rw [hab.1, hab.2] at hv
        rw [hget] at hv
        cases hv
      · rw [hkeep a b (by tauto)]
        exact hv
    simp only [color_loop, hset] at hres
    cases hr1 : recur bs g' with
    | error e =>
      simp only [hr1] at hres
      exact absurd hres (by simp)
    | ok r1 =>
      simp only [hr1] at hres
      obtain ⟨new1, hnew1, hsol1, hpair1⟩ := hrec bs g' color hset r1 hr1
      have hsol1' : ∀ s ∈ new1, SolRec p working s ∧ s.get row col = some color := by
        intro s hs
        obtain ⟨h1, h2, h3, h4, h5, h6⟩ := hsol1 s hs
        exact ⟨⟨h1, extends_comp hextg h2, h3.trans hw', h4.trans hh', h5, h6⟩,
          h2 row col color hgetp⟩
      by_cases hstop : maxSol ≤ r1.1.solutions.length
      · rw [if_pos hstop] at hres
        have hr : r.1 = r1.1 := by
          have : (⟨r1.1, true⟩ : BState × Bool) = r := Except.ok.inj hres
          rw [← this]
        rw [hr, hnew1]
        refine ⟨new1, rfl, ?_, hpair1⟩
        intro s hs
        exact ⟨(hsol1' s hs).1, color, List.mem_cons_self _ _, (hsol1' s hs).2⟩
      · rw [if_neg hstop] at hres
        obtain ⟨new2, hnew2, hsol2, hpair2⟩ := ih hmore r1.1 r hres
        refine ⟨new1 ++ new2, by rw [hnew2, hnew1, List.append_assoc], ?_, ?_⟩
        · intro s hs
          rcases List.mem_append.mp hs with h1 | h1
          · exact ⟨(hsol1' s h1).1, color, List.mem_cons_self _ _, (hsol1' s h1).2⟩
          · obtain ⟨hrec2, c, hcmem, hcpin⟩ := hsol2 s h1
            exact ⟨hrec2, c, List.mem_cons_of_mem _ hcmem, hcpin⟩
        · rw [List.pairwise_append]
          refine ⟨hpair1, hpair2, ?_⟩
          intro s1 hs1 s2 hs2
          obtain ⟨_, hpin1⟩ := hsol1' s1 hs1
          obtain ⟨_, c2, hc2mem, hpin2⟩ := hsol2 s2 hs2
          intro heq
          rw [heq, hpin2] at hpin1
          have : c2 = color := by
            exact (Option.some.inj hpin1)
          rw [this] at hc2mem
          exact hnotin hc2mem

/-- Every grid appended to the solution list during the recursive search is a
complete, well-formed propagation fixpoint refining the branch grid, and the
newly recorded grids are pairwise distinct. -/
theorem solve_recursive_sols (p : Puzzle) (maxSol maxBt : Nat)
    (hr : p.height ≤ p.row_clues.length) (hc : p.width ≤ p.col_clues.length) :
    ∀ (fuel : Nat) (bs : BState) (grid : Grid), grid.WF →
    grid.unknown_count < fuel →
    ∀ r, solve_recursive p maxSol maxBt fuel bs grid = .ok r →
    ∃ new, r.1.solutions = bs.solutions ++ new ∧
      (∀ s ∈ new, SolRec p grid s) ∧
      new.Pairwise (fun a b => a ≠ b) := by
  intro fuel
  induction fuel with
  | zero => intro bs grid _ h; exact (Nat.not_lt_zero _ h).elim
  | succ fuel ih =>
    intro bs grid hwf hfuel r hres
    simp only [solve_recursive] at hres
    by_cases h1 : maxSol ≤ bs.solutions.length
    · rw [if_pos h1] at hres
      have : (⟨bs, true⟩ : BState × Bool) = r := Except.ok.inj hres
      rw [← this]
      exact ⟨[], by simp, by simp, List.Pairwise.nil⟩
    · rw [if_neg h1] at hres
      by_cases h2 : maxBt ≤ bs.metrics.backtrack_count
      · rw [if_pos h2] at hres
        have : (⟨{ bs with timed_out := true }, true⟩ : BState × Bool) = r :=
          Except.ok.inj hres
        rw [← this]
        exact ⟨[], by simp, by simp, List.Pairwise.nil⟩
      · rw [if_neg h2] at hres
        obtain ⟨⟨out, hout⟩, hprops⟩ :=
          branch_propagate_spec p grid SolverMetrics.zero hr hc
        rw [hout] at hres
        cases out with
        | none =>
          have : (⟨bs, false⟩ : BState × Bool) = r := Except.ok.inj hres
          rw [← this]
          exact ⟨[], by simp, by simp, List.Pairwise.nil⟩
        | some wp =>
          obtain ⟨hmp, hext, hww, hwh, hwfp, hule, hfix⟩ :=
            hprops wp.1 wp.2 (by rw [hout])
          simp only at hres
          by_cases hcomp : wp.1.is_complete = true
          · rw [if_pos hcomp] at hres
            have : (⟨_, true⟩ : BState × Bool) = r := Except.ok.inj hres
            rw [← this]
            refine ⟨[wp.1], by simp, ?_, by simp⟩
            intro s hs
            rw [List.mem_singleton.mp hs]
            exact ⟨hcomp, hext, hww, hwh, hwfp hwf, hfix⟩
          · rw [if_neg hcomp] at hres
            cases hfind : wp.1.find_unknown with
            | none =>
              rw [hfind] at hres
              have : (⟨_, false⟩ : BState × Bool) = r := Except.ok.inj hres
              rw [← this]
              exact ⟨[], by simp, by simp, List.Pairwise.nil⟩
            | some rc =>
              rw [hfind] at hres
              obtain ⟨hrr, hrcw, hget0⟩ :=
                grid_find_unknown_some wp.1 rc.1 rc.2 (by rw [hfind])
              have hwfw : wp.1.WF := hwfp hwf
              have hrw2 : rc.1 < wp.1.cells.length := by
                rw [hwfw.1]; exact hrr
              have hcl2 : rc.2 < (wp.1.cells.getD rc.1 []).length := by
                rw [hwfw.2 _ (getD_mem_of_lt _ _ _ hrw2)]; exact hrcw
              have hrec : ∀ (b : BState) (g2 : Grid) (w : Nat),
                  wp.1.set rc.1 rc.2 (some w) = .ok (g2, true) →
                  ∀ r2, solve_recursive p maxSol maxBt fuel b g2 = .ok r2 →
                  ∃ new, r2.1.solutions = b.solutions ++ new ∧
                    (∀ s ∈ new, SolRec p g2 s) ∧
                    new.Pairwise (fun a b => a ≠ b) := by
                intro b g2 w hsetb r2 hres2
                obtain ⟨g'w, hsetw, hww2, hwh2, _, hwfp2, _, _, hunk2⟩ :=
                  grid_set_write wp.1 rc.1 rc.2 w hget0 hrw2 hcl2
                rw [hsetw] at hsetb
                have hg2 : g'w = g2 := congrArg Prod.fst (Except.ok.inj hsetb)
                rw [← hg2] at hres2 ⊢
                exact ih b g'w (hwfp2 hwfw) (by omega) r2 hres2
              obtain ⟨new, hnew, hsols, hpair⟩ := color_loop_sols p maxSol wp.1
                rc.1 rc.2 _ hget0 hrw2 hcl2 hrec (possible_colors p)
                (List.nodup_dedup _) _ r hres
              refine ⟨new, ?_, ?_, hpair⟩
              · rw [hnew]
              · intro s hs
                exact ((hsols s hs).1).up hext hww hwh

/-- The search from the empty grid runs to completion without an exception. -/
theorem backtracking_run_ok (p : Puzzle) (maxSol maxBt : Nat)
    (hr : p.height ≤ p.row_clues.length) (hc : p.width ≤ p.col_clues.length) :
    ∃ bs, backtracking_run p maxSol maxBt = .ok bs := by
  obtain ⟨r, hres, _⟩ := solve_recursive_spec p maxSol maxBt hr hc
    (p.width * p.height + 1) ⟨SolverMetrics.zero, [], false⟩
    (Grid.create_empty p.width p.height) (create_empty_wf p.width p.height)
    (by rw [create_empty_unknown_count, Nat.mul_comm]; omega)
  refine ⟨r.1, ?_⟩
  unfold backtracking_run
  rw [hres]

/-- Classifying a finished search state never fails. -/
theorem bsolve_ok (p : Puzzle) (maxSol maxBt : Nat) (bs : BState)
    (h : backtracking_run p maxSol maxBt = .ok bs) :
    ∃ res, BacktrackingSolver.solve p maxSol maxBt = .ok res := by
  unfold BacktrackingSolver.solve
  simp only [h]
  by_cases h1 : bs.timed_out = true
  · exact ⟨_, by rw [if_pos h1]⟩
  · by_cases h2 : bs.solutions.length = 1
    · exact ⟨_, by rw [if_neg h1, if_pos h2]⟩
    · by_cases h3 : 1 < bs.solutions.length
      · exact ⟨_, by rw [if_neg h1, if_neg h2, if_pos h3]⟩
      · exact ⟨_, by rw [if_neg h1, if_neg h2, if_neg h3]⟩

/-- C9: for every well-formed puzzle the top-level `solve` returns a
`SolveResult` value — it raises no exception and always terminates — for both
values of `check_uniqueness`. -/
theorem c9_solve_total (p : Puzzle) (hwf : WFPuzzle p) (u : Bool) :
    ∃ res, solve p u = .ok res := by
  obtain ⟨hrl, hcl, _, _⟩ := hwf
  have hr : p.height ≤ p.row_clues.length := by omega
  have hc : p.width ≤ p.col_clues.length := by omega
  unfold solve
  cases u with
  | true =>
    obtain ⟨bs, hbs⟩ := backtracking_run_ok p 2 500 hr hc
    simpa using bsolve_ok p 2 500 bs hbs
  | false =>
    obtain ⟨bs, hbs⟩ := backtracking_run_ok p 1 500 hr hc
    simpa using bsolve_ok p 1 500 bs hbs

theorem c9_solve_total_witness :
    WFPuzzle p22 ∧ (∃ res, solve p22 true = .ok res) ∧
      (∃ res, solve p22 false = .ok res) :=
  ⟨by decide, c9_solve_total p22 (by decide) true, c9_solve_total p22 (by decide) false⟩

/-- C10: whenever the search state reports a timeout, `BacktrackingSolver.solve`
returns `solved = false`, `solutions_found = 0`, `timed_out = true` and the
untouched empty grid — recorded solutions in the state are discarded. -/
theorem c10_timeout_discards (p : Puzzle) (maxSol maxBt : Nat) (bs : BState)
    (hrun : backtracking_run p maxSol maxBt = .ok bs) (ht : bs.timed_out = true) :
    BacktrackingSolver.solve p maxSol maxBt = .ok
      { solved := false, grid := Grid.create_empty p.width p.height,
        metrics := bs.metrics, solutions_found := 0, timed_out := true } := by
  unfold BacktrackingSolver.solve
  simp only [hrun]
  rw [if_pos ht]

theorem c10_timeout_discards_witness :
    backtracking_run p10 2 3 = .ok bs10 ∧ bs10.timed_out = true ∧
    bs10.solutions.length = 1 ∧
    BacktrackingSolver.solve p10 2 3 = .ok
      { solved := false, grid := Grid.create_empty 3 3,
        metrics := bs10.metrics, solutions_found := 0, timed_out := true } :=
  ⟨rfl, rfl, rfl, c10_timeout_discards p10 2 3 bs10 rfl rfl⟩

/-- C7: the derived technique level is 3 when any guess occurred, else 2 when
any stuck iteration occurred, else 1. -/
theorem c7_max_technique_level (m : SolverMetrics) :
    (0 < m.backtrack_count → m.max_technique_level = 3) ∧
    (m.backtrack_count = 0 → 0 < m.stuck_count → m.max_technique_level = 2) ∧
    (m.backtrack_count = 0 → m.stuck_count = 0 → m.max_technique_level = 1) := by
  unfold SolverMetrics.max_technique_level
  refine ⟨fun h => ?_, fun h1 h2 => ?_, fun h1 h2 => ?_⟩
  · rw [if_pos h]
  · rw [if_neg (by omega), if_pos h2]
  · rw [if_neg (by omega), if_neg (by omega)]

theorem c7_max_technique_level_witness :
    (⟨0, 0, 0, 0, 0, 5⟩ : SolverMetrics).max_technique_level = 3 ∧
    (⟨0, 0, 0, 2, 0, 0⟩ : SolverMetrics).max_technique_level = 2 ∧
    (⟨9, 9, 9, 0, 0, 0⟩ : SolverMetrics).max_technique_level = 1 :=
  ⟨(c7_max_technique_level _).1 (by decide),
   (c7_max_technique_level _).2.1 (by decide) (by decide),
   (c7_max_technique_level _).2.2 (by decide) (by decide)⟩

/-- C4 (amended): a single-cell write is a no-op exactly when the stored value
equals the written value; overwriting a determined cell with a *different
determined* value raises the conflict; but writing `None` (unknown) over a
determined cell does not conflict — it silently erases the cell and reports a
change. -/
theorem c4_grid_set_cases (g : Grid) (row col : Nat) (v : Option Nat) :
    (g.get row col = v → g.set row col v = .ok (g, false)) ∧
    (∀ a b, g.get row col = some a → v = some b → a ≠ b →
      g.set row col v = .error "conflict") ∧
    (∀ a, g.get row col = some a → v = none →
      g.set row col v = .ok
        ({ g with cells := g.cells.set row ((g.cells.getD row []).set col none) },
          true)) := by
  refine ⟨fun h => grid_set_noop g row col v h, fun a b hget hv hne => ?_,
    fun a hget hv => ?_⟩
  · rw [hv]
    exact grid_set_conflict g row col a b hget hne
  · rw [hv]
    exact grid_set_erase g row col a hget

theorem c4_grid_set_cases_witness :
    ((⟨1, 1, [[some 2]]⟩ : Grid).set 0 0 (some 2) = .ok (⟨1, 1, [[some 2]]⟩, false)) ∧
    ((⟨1, 1, [[some 2]]⟩ : Grid).set 0 0 (some 1) = .error "conflict") ∧
    ((⟨1, 1, [[some 2]]⟩ : Grid).set 0 0 none =
      .ok (⟨1, 1, [[none]]⟩, true)) :=
  ⟨(c4_grid_set_cases ⟨1, 1, [[some 2]]⟩ 0 0 (some 2)).1 rfl,
   (c4_grid_set_cases ⟨1, 1, [[some 2]]⟩ 0 0 (some 1)).2.1 2 1 rfl rfl (by decide),
   (c4_grid_set_cases ⟨1, 1, [[some 2]]⟩ 0 0 none).2.2 2 rfl rfl⟩

/-- C4 counterexample to the original claim: a write of a (different) value
onto a determined cell that does NOT raise — `None` over `some 1` silently
erases the determined cell and even reports it as a change. -/
theorem c4_counterexample :
    (⟨1, 1, [[some 1]]⟩ : Grid).set 0 0 none = .ok (⟨1, 1, [[none]]⟩, true) ∧
    (⟨1, 1, [[some 1]]⟩ : Grid).get 0 0 = some 1 ∧ (some 1 : Option Nat) ≠ none :=
  ⟨rfl, rfl, by decide⟩

/-- C5 (amended): the stuck counter is maintained by the *top-level* loop only:
one `Solver.iteration` increments it exactly when the pass changed nothing and
the grid is incomplete, while the in-branch propagation of the backtracking
solver leaves `stuck_count` untouched no matter how it terminates. -/
theorem c5_stuck_accounting (p : Puzzle) (g : Grid) (m : SolverMetrics)
    (hr : p.height ≤ p.row_clues.length) (hc : p.width ≤ p.col_clues.length) :
    (∀ g' m' ch, Solver.iteration p g m = .ok (.next g' m' ch) →
       m'.stuck_count = m.stuck_count +
         (if ch = false ∧ g'.is_complete = false then 1 else 0)) ∧
    (∀ g' m', branch_propagate p g m = .ok (some (g', m')) →
       m'.stuck_count = m.stuck_count) := by
  constructor
  · intro g' m' ch hiter
    rcases iteration_spec p g m hr hc with
      ⟨g2, m2, hres, _⟩ |
      ⟨g2, m2, n, hres, hst, _, _, _, _, _, _, _, _, _⟩
    · rw [hiter] at hres
      cases hres
    · rw [hiter] at hres
      have h1 := Except.ok.inj hres
      cases h1
      by_cases hn : n = 0
      · subst hn
        simpa using hst
      · have hd : decide (0 < n) = true := by simp; omega
        rw [hd]
        simp only [hn, false_and, if_false] at hst
        simpa using hst
  · intro g' m' hprop
    exact ((branch_propagate_spec p g m hr hc).2 g' m' hprop).1.1

theorem c5_stuck_accounting_witness :
    (⟨4, 0, 0, 1, 0, 0⟩ : SolverMetrics).stuck_count =
      SolverMetrics.zero.stuck_count +
        (if (false = false ∧ (Grid.create_empty 2 2).is_complete = false)
          then 1 else 0) ∧
    (⟨4, 0, 0, 0, 0, 0⟩ : SolverMetrics).stuck_count =
      SolverMetrics.zero.stuck_count :=
  ⟨(c5_stuck_accounting p22 (Grid.create_empty 2 2) SolverMetrics.zero
      (by decide) (by decide)).1 (Grid.create_empty 2 2) ⟨4, 0, 0, 1, 0, 0⟩
      false rfl,
   (c5_stuck_accounting p22 (Grid.create_empty 2 2) SolverMetrics.zero
      (by decide) (by decide)).2 (Grid.create_empty 2 2) ⟨4, 0, 0, 0, 0, 0⟩ rfl⟩

/-- C5 counterexample to the original claim: inside a backtracking branch a
full propagation pass over the incomplete 2x2 checkerboard puzzle produces no
new information, yet the stuck counter stays 0 — both in that pass and in the
metrics of the whole search. -/
theorem c5_counterexample :
    branch_propagate p22 (Grid.create_empty 2 2) SolverMetrics.zero =
      .ok (some (Grid.create_empty 2 2, ⟨4, 0, 0, 0, 0, 0⟩)) ∧
    (Grid.create_empty 2 2).is_complete = false ∧
    backtracking_run p22 2 500 = .ok bs22 ∧
    bs22.metrics.stuck_count = 0 :=
  ⟨rfl, rfl, rfl, rfl⟩

/-- C6 (divergence): `backtrack_count` does count every guess, but
`metrics.backtrack_depth` is updated with `max(depth, 1)` rather than the
recursion depth, so it can never exceed 1 in any run; on the 3x3 permutation
puzzle the search makes 3 guesses, and the first guess's branch immediately
guesses again (a guessing tree of depth at least 2), yet the recorded depth
is 1. -/
theorem c6_backtrack_depth_pinned :
    (∀ (p : Puzzle) (maxSol maxBt : Nat) (bs : BState),
        p.height ≤ p.row_clues.length → p.width ≤ p.col_clues.length →
        backtracking_run p maxSol maxBt = .ok bs →
        bs.metrics.backtrack_depth ≤ 1) ∧
    backtracking_run p33 2 500 = .ok bs33 ∧
    bs33.metrics.backtrack_count = 3 ∧
    bs33.metrics.backtrack_depth = 1 ∧
    (Grid.create_empty 3 3).find_unknown = some (0, 0) ∧
    (Grid.create_empty 3 3).set 0 0 (some 0) = .ok (t33, true) ∧
    branch_propagate p33 t33 SolverMetrics.zero =
      .ok (some (t33, ⟨6, 0, 0, 0, 0, 0⟩)) ∧
    t33.is_complete = false ∧
    t33.find_unknown = some (0, 1) := by
  refine ⟨?_, rfl, rfl, rfl, rfl, rfl, rfl, rfl, rfl⟩
  intro p maxSol maxBt bs hr hc hrun
  obtain ⟨r, hres, hstep⟩ := solve_recursive_spec p maxSol maxBt hr hc
    (p.width * p.height + 1) ⟨SolverMetrics.zero, [], false⟩
    (Grid.create_empty p.width p.height) (create_empty_wf p.width p.height)
    (by rw [create_empty_unknown_count, Nat.mul_comm]; omega)
  unfold backtracking_run at hrun
  simp only [hres] at hrun
  have hbs : r.1 = bs := Except.ok.inj hrun
  have hd := hstep.2.2.1
  rw [hbs] at hd
  simpa [SolverMetrics.zero] using hd

theorem c6_backtrack_depth_pinned_witness :
    bs33.metrics.backtrack_depth ≤ 1 :=
  c6_backtrack_depth_pinned.1 p33 2 500 bs33 (by decide) (by decide) rfl

/-- C2: with the uniqueness cap of two, the search never records more than two
solutions, the recorded grids are pairwise distinct, and as soon as two
solutions are on record the recursion returns immediately without descending. -/
theorem c2_uniqueness_cap (p : Puzzle) (maxBt : Nat) (bs : BState)
    (hr : p.height ≤ p.row_clues.length) (hc : p.width ≤ p.col_clues.length)
    (hrun : backtracking_run p 2 maxBt = .ok bs) :
    bs.solutions.length ≤ 2 ∧
    bs.solutions.Pairwise (fun a b => a ≠ b) ∧
    (∀ (fuel : Nat) (b : BState) (g : Grid), 2 ≤ b.solutions.length →
      solve_recursive p 2 maxBt (fuel + 1) b g = .ok (b, true)) := by
  obtain ⟨r, hres, hstep⟩ := solve_recursive_spec p 2 maxBt hr hc
    (p.width * p.height + 1) ⟨SolverMetrics.zero, [], false⟩
    (Grid.create_empty p.width p.height) (create_empty_wf p.width p.height)
    (by rw [create_empty_unknown_count, Nat.mul_comm]; omega)
  unfold backtracking_run at hrun
  simp only [hres] at hrun
  have hbs : r.1 = bs := Except.ok.inj hrun
  obtain ⟨new, hnew, _, hpair⟩ := solve_recursive_sols p 2 maxBt hr hc
    (p.width * p.height + 1) ⟨SolverMetrics.zero, [], false⟩
    (Grid.create_empty p.width p.height) (create_empty_wf p.width p.height)
    (by rw [create_empty_unknown_count, Nat.mul_comm]; omega) r hres
  refine ⟨?_, ?_, ?_⟩
  · have hlen := hstep.2.2.2.2.2
    rw [hbs] at hlen
    simpa using hlen
  · rw [← hbs, hnew]
    simpa using hpair
  · intro fuel b g hb
    simp only [solve_recursive]
    rw [if_pos hb]

theorem c2_uniqueness_cap_witness :
    backtracking_run p22 2 500 = .ok bs22 ∧
    bs22.solutions.length ≤ 2 ∧
    bs22.solutions.Pairwise (fun a b => a ≠ b) ∧
    solve_recursive p22 2 500 1 bs22 (Grid.create_empty 2 2) = .ok (bs22, true) := by
  have h := c2_uniqueness_cap p22 500 bs22 (by decide) (by decide) rfl
  exact ⟨rfl, h.1, h.2.1, h.2.2 0 bs22 (Grid.create_empty 2 2) (by decide)⟩

/-! ## Round-trip: line-level soundness and completeness -/
theorem wf_generate_clues (l : List Nat) : WFClues (generate_clues l) :=
  matches_wf (matches_generate_clues l)

theorem empty_line_result_some :
    ∀ (line res : List (Option Nat)), empty_line_result line = some res →
      (∀ cell ∈ line, cell = none ∨ cell = some EMPTY) ∧
      res = line.map (fun _ => some EMPTY) := by
  intro line
  induction line with
  | nil =>
    intro res h
    have h2 : ([] : List (Option Nat)) = res := Option.some.inj h
    subst h2
    exact ⟨by simp, rfl⟩
  | cons cell rest ih =>
    intro res h
    have step : ∀ r0, empty_line_result rest = some r0 →
        (some EMPTY :: r0 = res) →
        (∀ c ∈ cell :: rest, c = none ∨ c = some EMPTY) →
        (∀ c ∈ cell :: rest, c = none ∨ c = some EMPTY) ∧
        res = (cell :: rest).map (fun _ => some EMPTY) := by
      intro r0 hr0 hres hall
      obtain ⟨_, hr0map⟩ := ih r0 hr0
      refine ⟨hall, ?_⟩
      rw [← hres, hr0map]
      rfl
    cases cell with
    | none =>
      simp only [empty_line_result] at h
      cases hr : empty_line_result rest with
      | none => rw [hr] at h; cases h
      | some r0 =>
        rw [hr] at h
        have hres : some EMPTY :: r0 = res := Option.some.inj h
        refine step r0 hr hres ?_
        intro c hc
        rcases List.mem_cons.mp hc with h1 | h1
        · exact Or.inl h1
        · exact (ih r0 hr).1 c h1
    | some v =>
      by_cases hv : v = EMPTY
      · subst hv
        simp only [empty_line_result, if_pos rfl] at h
        cases hr : empty_line_result rest with
        | none => rw [hr] at h; cases h
        | some r0 =>
          rw [hr] at h
          have hres : some EMPTY :: r0 = res := Option.some.inj h
          refine step r0 hr hres ?_
          intro c hc
          rcases List.mem_cons.mp hc with h1 | h1
          · exact Or.inr h1
          · exact (ih r0 hr).1 c h1
      · simp only [empty_line_result, if_neg hv] at h
        cases h

/-- Completeness of the line solver: if some valid arrangement exists,
`solve_line` does not signal a contradiction. -/
theorem solve_line_not_none (line : List (Option Nat)) (clues : List Clue)
    (hwf : WFClues clues) (arr : List Nat) (harr : ValidArr line clues arr) :
    ∃ res, solve_line line clues = some res := by
  cases clues with
  | nil =>
    obtain ⟨hlen, hcomp, hm⟩ := harr
    obtain ⟨n, hn⟩ := matches_nil_all_empty hm
    have hall : ∀ cell ∈ line, cell = none ∨ cell = some EMPTY := by
      intro cell hc
      obtain ⟨i, hi, hcell⟩ := List.mem_iff_getElem.mp hc
      cases cell with
      | none => exact Or.inl rfl
      | some w =>
        right
        have hlc := (is_compatible_eq_true_iff line arr hlen).mp hcomp
        have hw := hlc i w (by
          rw [List.getD_eq_getElem?_getD, List.getElem?_eq_getElem hi, hcell]
          rfl)
        have hin : i < n := by
          rw [hn] at hlen
          simp only [List.length_replicate] at hlen
          omega
        rw [hn, getD_replicate hin] at hw
        rw [← hw]
    exact ⟨_, by simp only [solve_line]; exact empty_line_result_all_empty line hall⟩
  | cons c cs =>
    have hmem := (mem_generate_arrangements hwf arr).mpr harr
    cases hg : generate_arrangements line (c :: cs) with
    | nil => rw [hg] at hmem; cases hmem
    | cons a rest =>
      exact ⟨intersect_cells a (a :: rest) 0 line, by simp only [solve_line, hg]⟩

/-- Soundness of the line solver: every cell the result determines holds that
cell's value in every valid arrangement. -/
theorem solve_line_sound (line : List (Option Nat)) (clues : List Clue)
    (res : List (Option Nat)) (hwf : WFClues clues)
    (h : solve_line line clues = some res) :
    res.length = line.length ∧
    ∀ i v, res.getD i none = some v → ∀ arr, ValidArr line clues arr →
      arr.getD i EMPTY = v := by
  cases clues with
  | nil =>
    simp only [solve_line] at h
    obtain ⟨hall, hres⟩ := empty_line_result_some line res h
    subst hres
    refine ⟨by simp, ?_⟩
    intro i v hv arr harr
    have hi : i < line.length := by
      by_contra hi
      rw [List.getD_eq_default _ _ (by simp; omega)] at hv
      cases hv
    have hvE : EMPTY = v := by
      rw [List.getD_eq_getElem?_getD, List.getElem?_map,
        List.getElem?_eq_getElem hi] at hv
      simpa using hv
    obtain ⟨n, hn⟩ := matches_nil_all_empty harr.2.2
    rw [← hvE, hn]
    rcases Nat.lt_or_ge i n with h1 | h1
    · rw [getD_replicate h1]
    · rw [List.getD_eq_default _ _ (by simp; omega)]
  | cons c cs =>
    have hne : (c :: cs) ≠ [] := by simp
    obtain ⟨hlen, a, arrs, hg, hresdef⟩ := solve_line_some_shape hne h
    refine ⟨hlen, ?_⟩
    intro i v hv arr harrvalid
    have harrmem : arr ∈ generate_arrangements line (c :: cs) :=
      (mem_generate_arrangements hwf arr).mpr harrvalid
    rw [hg] at harrmem
    have hlc : LineCompat line arr :=
      (is_compatible_eq_true_iff line arr harrvalid.1).mp harrvalid.2.1
    cases hline : line.getD i none with
    | some w =>
      have hknown := intersect_cells_getD_known a (a :: arrs) line 0 i w hline
      rw [hresdef, hknown] at hv
      have hwv : w = v := Option.some.inj hv
      rw [← hwv]
      exact hlc i w hline
    | none =>
      by_cases hi : i < line.length
      · rw [hresdef, intersect_cells_getD_unknown a (a :: arrs) line 0 i hline hi] at hv
        by_cases hallb : ((a :: arrs).all
            (fun b => b.getD (0 + i) EMPTY == a.getD (0 + i) EMPTY)) = true
        · rw [if_pos hallb] at hv
          have hv' : a.getD (0 + i) EMPTY = v := Option.some.inj hv
          have harr2 := List.all_eq_true.mp hallb arr harrmem
          simp only [beq_iff_eq] at harr2
          rw [Nat.zero_add] at harr2 hv'
          rw [harr2, hv']
        · rw [if_neg hallb] at hv
          cases hv
      · exfalso
        have hdef : res.getD i none = none := by
          apply List.getD_eq_default
          omega
        rw [hdef] at hv
        cases hv

theorem getD_map {α β : Type} (f : α → β) (l : List α) (i : Nat) (d : β) (d' : α)
    (h : i < l.length) : (l.map f).getD i d = f (l.getD i d') := by
  rw [List.getD_eq_getElem?_getD, List.getElem?_map, List.getElem?_eq_getElem h,
    List.getD_eq_getElem?_getD, List.getElem?_eq_getElem h]
  rfl

theorem line_vals_length (l : List (Option Nat)) :
    (line_vals l).length = l.length := by
  simp [line_vals]

theorem line_vals_getD (l : List (Option Nat)) (j : Nat) (hj : j < l.length) :
    (line_vals l).getD j EMPTY = (l.getD j none).getD EMPTY :=
  getD_map _ l j EMPTY none hj

/-- The row of a solution grid, read as an arrangement, is a valid arrangement
for the corresponding row of any grid the solution refines. -/
theorem sol_row_valid (p : Puzzle) (H : Grid) (hH : GridSol p H)
    (g : Grid) (hge : Extends g H) (hgw : g.width = p.width)
    (hgh : g.height = p.height) (hgwf : g.WF) (i : Nat) (hi : i < p.height) :
    ValidArr (g.get_row i) (p.row_clues.getD i []) (line_vals (H.get_row i)) := by
  obtain ⟨hcomp, hHwf, hHw, hHh, hrows, hcols⟩ := hH
  have hHrow : (H.get_row i).length = p.width := by
    rw [get_row_length H hHwf i (by omega)]
    exact hHw
  have hgrow : (g.get_row i).length = p.width := by
    rw [get_row_length g hgwf i (by omega)]
    exact hgw
  refine ⟨by rw [line_vals_length, hHrow, hgrow], ?_, ?_⟩
  · rw [is_compatible_eq_true_iff _ _ (by rw [line_vals_length, hHrow, hgrow])]
    intro j v hv
    have hj : j < p.width := by
      by_contra hj
      rw [List.getD_eq_default _ _ (by omega)] at hv
      cases hv
    rw [get_row_getD] at hv
    have hHv : H.get i j = some v := hge i j v hv
    rw [line_vals_getD _ _ (by omega), get_row_getD, hHv]
    rfl
  · exact matches_iff_generate_clues.mpr (hrows i hi)

/-- The column analogue of `sol_row_valid`. -/
theorem sol_col_valid (p : Puzzle) (H : Grid) (hH : GridSol p H)
    (g : Grid) (hge : Extends g H) (_hgw : g.width = p.width)
    (hgh : g.height = p.height) (_hgwf : g.WF) (j : Nat) (hj : j < p.width) :
    ValidArr (g.get_col j) (p.col_clues.getD j []) (line_vals (H.get_col j)) := by
  obtain ⟨hcomp, hHwf, hHw, hHh, hrows, hcols⟩ := hH
  have hHcol : (H.get_col j).length = p.height := by
    rw [get_col_length]; exact hHh
  have hgcol : (g.get_col j).length = p.height := by
    rw [get_col_length]; exact hgh
  refine ⟨by rw [line_vals_length, hHcol, hgcol], ?_, ?_⟩
  · rw [is_compatible_eq_true_iff _ _ (by rw [line_vals_length, hHcol, hgcol])]
    intro r v hv
    have hr : r < p.height := by
      by_contra hr
      rw [List.getD_eq_default _ _ (by omega)] at hv
      cases hv
    rw [get_col_getD g j r (by omega)] at hv
    have hHv : H.get r j = some v := hge r j v hv
    rw [line_vals_getD _ _ (by omega), get_col_getD H j r (by omega), hHv]
    rfl
  · exact matches_iff_generate_clues.mpr (hcols j hj)

theorem get?_getD_of_lt {α : Type} (l : List (List α)) (i : Nat)
    (h : i < l.length) : l.get? i = some (l.getD i []) := by
  rw [List.get?_eq_getElem?, List.getElem?_eq_getElem h,
    List.getD_eq_getElem?_getD, List.getElem?_eq_getElem h]
  rfl

/-- Propagating a row of a grid refined by a solution never signals a
contradiction, and the refined relationship survives the update. -/
theorem solve_row_pres (p : Puzzle) (H : Grid) (hH : GridSol p H)
    (g : Grid) (m : SolverMetrics) (i : Nat) (hi : i < p.height)
    (hp : i < p.row_clues.length)
    (hge : Extends g H) (hgw : g.width = p.width) (hgh : g.height = p.height)
    (hgwf : g.WF) :
    ∃ res m' ch, Solver.solve_row p g m i = .ok (.next (g.set_row i res).1 m' ch) ∧
      Extends (g.set_row i res).1 H := by
  have hwfc : WFClues (p.row_clues.getD i []) := by
    rw [← hH.2.2.2.2.1 i hi]
    exact wf_generate_clues _
  have hvalid := sol_row_valid p H hH g hge hgw hgh hgwf i hi
  obtain ⟨res, hres⟩ := solve_line_not_none (g.get_row i) _ hwfc _ hvalid
  have hclues : p.row_clues.get? i = some (p.row_clues.getD i []) :=
    get?_getD_of_lt _ _ hp
  refine ⟨res, { m with
      total_steps := m.total_steps + 1,
      overlap_uses := m.overlap_uses + (if 0 < (g.set_row i res).2 then 1 else 0) },
    decide (0 < (g.set_row i res).2),
    by simp only [Solver.solve_row, hclues, hres], ?_⟩
  intro a b v hv
  rcases grid_set_row_from g i res a b v hv with h1 | ⟨ha, hnone, hresv⟩
  · exact hge a b v h1
  · subst ha
    have hsound := (solve_line_sound _ _ res hwfc hres).2 b v hresv _ hvalid
    have hblt : b < res.length := by
      by_contra hb
      rw [List.getD_eq_default _ _ (by omega)] at hresv
      cases hresv
    have hbw : b < p.width := by
      have := (solve_line_sound _ _ res hwfc hres).1
      rw [this, get_row_length g hgwf a (by omega), hgw] at hblt
      exact hblt
    obtain ⟨hcompH, hHwf, hHw, hHh, _, _⟩ := hH
    have hHlen : (H.get_row a).length = p.width := by
      rw [get_row_length H hHwf a (by omega)]
      exact hHw
    rw [line_vals_getD _ _ (by omega), get_row_getD] at hsound
    have hsome := is_complete_get H hcompH hHwf a b (by omega) (by omega)
    cases hcell : H.get a b with
    | none => rw [hcell] at hsome; cases hsome
    | some w =>
      rw [hcell] at hsound
      simp only [Option.getD_some] at hsound
      rw [hsound]

/-- The column analogue of `solve_row_pres`. -/
theorem solve_col_pres (p : Puzzle) (H : Grid) (hH : GridSol p H)
    (g : Grid) (m : SolverMetrics) (j : Nat) (hj : j < p.width)
    (hp : j < p.col_clues.length)
    (hge : Extends g H) (hgw : g.width = p.width) (hgh : g.height = p.height)
    (hgwf : g.WF) :
    ∃ res m' ch, Solver.solve_col p g m j = .ok (.next (g.set_col j res).1 m' ch) ∧
      Extends (g.set_col j res).1 H := by
  have hwfc : WFClues (p.col_clues.getD j []) := by
    rw [← hH.2.2.2.2.2 j hj]
    exact wf_generate_clues _
  have hvalid := sol_col_valid p H hH g hge hgw hgh hgwf j hj
  obtain ⟨res, hres⟩ := solve_line_not_none (g.get_col j) _ hwfc _ hvalid
  have hclues : p.col_clues.get? j = some (p.col_clues.getD j []) :=
    get?_getD_of_lt _ _ hp
  refine ⟨res, { m with
      total_steps := m.total_steps + 1,
      overlap_uses := m.overlap_uses + (if 0 < (g.set_col j res).2 then 1 else 0) },
    decide (0 < (g.set_col j res).2),
    by simp only [Solver.solve_col, hclues, hres], ?_⟩
  intro a b v hv
  rcases grid_set_col_from g j res a b v hv with h1 | ⟨hb, hnone, hresv⟩
  · exact hge a b v h1
  · subst hb
    have hsound := (solve_line_sound _ _ res hwfc hres).2 a v hresv _ hvalid
    have halt : a < res.length := by
      by_contra hb2
      rw [List.getD_eq_default _ _ (by omega)] at hresv
      cases hresv
    have hah : a < p.height := by
      have := (solve_line_sound _ _ res hwfc hres).1
      rw [this, get_col_length, hgh] at halt
      exact halt
    obtain ⟨hcompH, hHwf, hHw, hHh, _, _⟩ := hH
    have hHlen : (H.get_col b).length = p.height := by
      rw [get_col_length]; exact hHh
    rw [line_vals_getD _ _ (by omega), get_col_getD H b a (by omega)] at hsound
    have hsome := is_complete_get H hcompH hHwf a b (by omega) (by omega)
    cases hcell : H.get a b with
    | none => rw [hcell] at hsome; cases hsome
    | some w =>
      rw [hcell] at hsound
      simp only [Option.getD_some] at hsound
      rw [hsound]

/-- The row loop preserves "refined by the solution" and never hits a
contradiction. -/
theorem pass_rows_pres (p : Puzzle) (H : Grid) (hH : GridSol p H)
    (hr : p.height ≤ p.row_clues.length) : ∀ (rs : List Nat) (g : Grid)
    (m : SolverMetrics) (ch : Bool), (∀ r ∈ rs, r < p.height) →
    Extends g H → g.width = p.width → g.height = p.height → g.WF →
    ∃ g' m' ch', Solver.pass_rows p g m ch rs = .ok (.next g' m' ch') ∧
      Extends g' H ∧ g'.width = p.width ∧ g'.height = p.height ∧ g'.WF := by
  intro rs
  induction rs with
  | nil =>
    intro g m ch _ hge hgw hgh hgwf
    exact ⟨g, m, ch, rfl, hge, hgw, hgh, hgwf⟩
  | cons r rest ih =>
    intro g m ch hall hge hgw hgh hgwf
    have hrh : r < p.height := hall r (List.mem_cons_self r rest)
    obtain ⟨res, m1, ch1, hstep, hext1⟩ :=
      solve_row_pres p H hH g m r hrh (by omega) hge hgw hgh hgwf
    obtain ⟨g', m', ch', hrest, hext', hw', hh', hwf'⟩ :=
      ih (g.set_row r res).1 m1 (ch || ch1)
        (fun x hx => hall x (List.mem_cons_of_mem _ hx))
        hext1 ((grid_set_row_dims g r res).1.trans hgw)
        ((grid_set_row_dims g r res).2.trans hgh)
        (grid_set_row_wf g r res hgwf)
    refine ⟨g', m', ch', ?_, hext', hw', hh', hwf'⟩
    simp only [Solver.pass_rows, hstep]
    exact hrest

/-- The column loop analogue of `pass_rows_pres`. -/
theorem pass_cols_pres (p : Puzzle) (H : Grid) (hH : GridSol p H)
    (hc : p.width ≤ p.col_clues.length) : ∀ (cs : List Nat) (g : Grid)
    (m : SolverMetrics) (ch : Bool), (∀ c ∈ cs, c < p.width) →
    Extends g H → g.width = p.width → g.height = p.height → g.WF →
    ∃ g' m' ch', Solver.pass_cols p g m ch cs = .ok (.next g' m' ch') ∧
      Extends g' H ∧ g'.width = p.width ∧ g'.height = p.height ∧ g'.WF := by
  intro cs
  induction cs with
  | nil =>
    intro g m ch _ hge hgw hgh hgwf
    exact ⟨g, m, ch, rfl, hge, hgw, hgh, hgwf⟩
  | cons c rest ih =>
    intro g m ch hall hge hgw hgh hgwf
    have hcw : c < p.width := hall c (List.mem_cons_self c rest)
    obtain ⟨res, m1, ch1, hstep, hext1⟩ :=
      solve_col_pres p H hH g m c hcw (by omega) hge hgw hgh hgwf
    obtain ⟨g', m', ch', hrest, hext', hw', hh', hwf'⟩ :=
      ih (g.set_col c res).1 m1 (ch || ch1)
        (fun x hx => hall x (List.mem_cons_of_mem _ hx))
        hext1 ((grid_set_col_dims g c res).1.trans hgw)
        ((grid_set_col_dims g c res).2.trans hgh)
        (grid_set_col_wf g c res hgwf)
    refine ⟨g', m', ch', ?_, hext', hw', hh', hwf'⟩
    simp only [Solver.pass_cols, hstep]
    exact hrest

/-- A full pass on a grid refined by a solution succeeds (no contradiction) and
preserves the refinement. -/
theorem pass_once_pres (p : Puzzle) (H : Grid) (hH : GridSol p H)
    (hr : p.height ≤ p.row_clues.length) (hc : p.width ≤ p.col_clues.length)
    (g : Grid) (m : SolverMetrics)
    (hge : Extends g H) (hgw : g.width = p.width) (hgh : g.height = p.height)
    (hgwf : g.WF) :
    ∃ g' m' ch', Solver.pass_once p g m = .ok (.next g' m' ch') ∧
      Extends g' H ∧ g'.width = p.width ∧ g'.height = p.height ∧ g'.WF := by
  obtain ⟨g1, m1, ch1, hrows, hext1, hw1, hh1, hwf1⟩ :=
    pass_rows_pres p H hH hr (List.range p.height) g m false
      (fun x hx => List.mem_range.mp hx) hge hgw hgh hgwf
  obtain ⟨g', m', ch', hcols, hext', hw', hh', hwf'⟩ :=
    pass_cols_pres p H hH hc (List.range p.width) g1 m1 ch1
      (fun x hx => List.mem_range.mp hx) hext1 hw1 hh1 hwf1
  refine ⟨g', m', ch', ?_, hext', hw', hh', hwf'⟩
  simp only [Solver.pass_once, hrows]
  exact hcols

/-- In-branch propagation from a grid refined by a solution reaches a fixpoint
(it cannot signal a contradiction) that the solution still refines. -/
theorem branch_propagate_go_pres (p : Puzzle) (H : Grid) (hH : GridSol p H)
    (hr : p.height ≤ p.row_clues.length) (hc : p.width ≤ p.col_clues.length) :
    ∀ (fuel : Nat) (g : Grid) (m : SolverMetrics), g.unknown_count < fuel →
    Extends g H → g.width = p.width → g.height = p.height → g.WF →
    ∃ g' m', branch_propagate_go p fuel g m = .ok (some (g', m')) ∧
      Extends g' H ∧ g'.width = p.width ∧ g'.height = p.height ∧ g'.WF := by
  intro fuel
  induction fuel with
  | zero => intro g m h; exact (Nat.not_lt_zero _ h).elim
  | succ fuel ih =>
    intro g m hfuel hge hgw hgh hgwf
    obtain ⟨g1, m1, ch1, hpass, hext1, hw1, hh1, hwf1⟩ :=
      pass_once_pres p H hH hr hc g m hge hgw hgh hgwf
    rcases pass_once_spec p g m hr hc with
      ⟨g2, m2, hres2, _⟩ |
      ⟨g2, m2, n, hres2, _, _, _, _, _, hunk2, hzero2⟩
    · rw [hpass] at hres2
      cases Except.ok.inj hres2
    · rw [hpass] at hres2
      have hinj := Except.ok.inj hres2
      injection hinj with hg12 hm12 hch12
      subst hg12
      subst hm12
      subst hch12
      by_cases hn : n = 0
      · subst hn
        have hg1g : g1 = g := hzero2 rfl
        refine ⟨g1, m1, ?_, hext1, hw1, hh1, hwf1⟩
        simp only [branch_propagate_go, hpass]
        simp
      · have hflag : (decide (0 < n) : Bool) = true := by simp; omega
        have hfuel1 : g1.unknown_count < fuel := by omega
        obtain ⟨g', m', hgo, hext', hw', hh', hwf'⟩ :=
          ih g1 m1 hfuel1 hext1 hw1 hh1 hwf1
        refine ⟨g', m', ?_, hext', hw', hh', hwf'⟩
        simp only [branch_propagate_go, hpass, hflag]
        simpa using hgo

theorem branch_propagate_pres (p : Puzzle) (H : Grid) (hH : GridSol p H)
    (hr : p.height ≤ p.row_clues.length) (hc : p.width ≤ p.col_clues.length)
    (g : Grid) (m : SolverMetrics)
    (hge : Extends g H) (hgw : g.width = p.width) (hgh : g.height = p.height)
    (hgwf : g.WF) :
    ∃ g' m', branch_propagate p g m = .ok (some (g', m')) ∧
      Extends g' H ∧ g'.width = p.width ∧ g'.height = p.height ∧ g'.WF :=
  branch_propagate_go_pres p H hH hr hc (g.unknown_count + 1) g m (by omega)
    hge hgw hgh hgwf

theorem getD_eq_getElem {α : Type} (l : List α) (i : Nat) (d : α)
    (h : i < l.length) : l.getD i d = l[i] := by
  rw [List.getD_eq_getElem?_getD, List.getElem?_eq_getElem h]
  rfl

/-- On a fully determined line, any compatible full-length arrangement is the
line's own values. -/
theorem line_vals_eq_of_compat : ∀ (line : List (Option Nat)) (a : List Nat),
    a.length = line.length → LineCompat line a →
    (∀ cell ∈ line, cell.isSome = true) → line_vals line = a := by
  intro line
  induction line with
  | nil =>
    intro a hlen _ _
    cases a with
    | nil => rfl
    | cons b t => simp at hlen
  | cons cell rest ih =>
    intro a hlen hlc hall
    cases a with
    | nil => simp at hlen
    | cons b t =>
      obtain ⟨v, hv⟩ := Option.isSome_iff_exists.mp
        (hall cell (List.mem_cons_self _ _))
      have hb : b = v := by
        have := hlc 0 v (by rw [List.getD_cons_zero, hv])
        rwa [List.getD_cons_zero] at this
      have ht : line_vals rest = t := by
        refine ih t (by simpa using hlen) ?_
          (fun c hc => hall c (List.mem_cons_of_mem _ hc))
        intro i w hw
        have := hlc (i + 1) w (by rw [List.getD_cons_succ]; exact hw)
        rwa [List.getD_cons_succ] at this
      show cell.getD EMPTY :: line_vals rest = b :: t
      rw [hv, ht, hb]
      rfl

/-- A complete line that the line solver accepts realizes exactly its clue
list. -/
theorem complete_line_matches (line : List (Option Nat)) (clues : List Clue)
    (hwf : WFClues clues) (hall : ∀ cell ∈ line, cell.isSome = true)
    (res : List (Option Nat)) (hsl : solve_line line clues = some res) :
    generate_clues (line_vals line) = clues := by
  cases clues with
  | nil =>
    simp only [solve_line] at hsl
    obtain ⟨hallE, _⟩ := empty_line_result_some line res hsl
    have hlv : ∀ (l : List (Option Nat)),
        (∀ cell ∈ l, cell = none ∨ cell = some EMPTY) →
        line_vals l = List.replicate l.length EMPTY := by
      intro l
      induction l with
      | nil => intro _; rfl
      | cons cell rest ihl =>
        intro h2
        have hhead : cell.getD EMPTY = EMPTY := by
          rcases h2 cell (List.mem_cons_self _ _) with hc | hc <;> rw [hc] <;> rfl
        show cell.getD EMPTY :: line_vals rest =
          EMPTY :: List.replicate rest.length EMPTY
        rw [hhead, ihl (fun c hc => h2 c (List.mem_cons_of_mem _ hc))]
    rw [hlv line hallE, generate_clues_replicate_empty]
  | cons c cs =>
    have hne : (c :: cs) ≠ [] := by simp
    obtain ⟨hlen, a, arrs, hg, hresdef⟩ := solve_line_some_shape hne hsl
    have hmem : a ∈ generate_arrangements line (c :: cs) := by
      rw [hg]; exact List.mem_cons_self _ _
    have hvalid := (mem_generate_arrangements hwf a).mp hmem
    have hlc : LineCompat line a :=
      (is_compatible_eq_true_iff line a hvalid.1).mp hvalid.2.1
    have hlva : line_vals line = a :=
      line_vals_eq_of_compat line a hvalid.1 hlc hall
    rw [hlva]
    exact matches_iff_generate_clues.mp hvalid.2.2

/-- A non-contradictory row step exhibits a successful `solve_line` call. -/
theorem solve_row_next_line (p : Puzzle) (g : Grid) (m : SolverMetrics)
    (i : Nat) (hp : i < p.row_clues.length) (g' : Grid) (m' : SolverMetrics)
    (ch : Bool) (h : Solver.solve_row p g m i = .ok (.next g' m' ch)) :
    ∃ res, solve_line (g.get_row i) (p.row_clues.getD i []) = some res := by
  have hclues := get?_getD_of_lt p.row_clues i hp
  simp only [Solver.solve_row, hclues] at h
  cases hsl : solve_line (g.get_row i) (p.row_clues.getD i []) with
  | none =>
    rw [hsl] at h
    cases Except.ok.inj h
  | some res => exact ⟨res, rfl⟩

theorem solve_col_next_line (p : Puzzle) (g : Grid) (m : SolverMetrics)
    (j : Nat) (hp : j < p.col_clues.length) (g' : Grid) (m' : SolverMetrics)
    (ch : Bool) (h : Solver.solve_col p g m j = .ok (.next g' m' ch)) :
    ∃ res, solve_line (g.get_col j) (p.col_clues.getD j []) = some res := by
  have hclues := get?_getD_of_lt p.col_clues j hp
  simp only [Solver.solve_col, hclues] at h
  cases hsl : solve_line (g.get_col j) (p.col_clues.getD j []) with
  | none =>
    rw [hsl] at h
    cases Except.ok.inj h
  | some res => exact ⟨res, rfl⟩

/-- A row loop that ends with a false changed flag left the grid alone, and
every row's line solver succeeded on that grid. -/
theorem pass_rows_all_lines (p : Puzzle) : ∀ (rs : List Nat) (g : Grid)
    (m : SolverMetrics) (ch : Bool) (g' : Grid) (m' : SolverMetrics),
    (∀ r ∈ rs, r < p.row_clues.length) →
    Solver.pass_rows p g m ch rs = .ok (.next g' m' false) →
    g' = g ∧ ch = false ∧
    ∀ r ∈ rs, ∃ res, solve_line (g.get_row r) (p.row_clues.getD r []) = some res := by
  intro rs
  induction rs with
  | nil =>
    intro g m ch g' m' _ h
    injection Except.ok.inj h with h1 h2 h3
    exact ⟨h1.symm, h3, by simp⟩
  | cons r rest ih =>
    intro g m ch g' m' hall h
    cases hsr : Solver.solve_row p g m r with
    | error e =>
      simp only [Solver.pass_rows, hsr] at h
      exact absurd h (by simp)
    | ok out =>
      cases out with
      | contra gc mc =>
        simp only [Solver.pass_rows, hsr] at h
        cases Except.ok.inj h
      | next g1 m1 ch1 =>
        simp only [Solver.pass_rows, hsr] at h
        obtain ⟨hg1, hch, hlines⟩ := ih g1 m1 (ch || ch1) g' m'
          (fun x hx => hall x (List.mem_cons_of_mem _ hx)) h
        have hch0 : ch = false ∧ ch1 = false := by
          simpa using hch
        rcases solve_row_spec p g m r (hall r (List.mem_cons_self r rest)) with
          hcon | ⟨g2, n2, heq, hunk, hzero, _, _, _, _⟩
        · rw [hsr] at hcon
          cases Except.ok.inj hcon
        · rw [hsr] at heq
          injection Except.ok.inj heq with h1 h2 h3
          have hn2 : n2 = 0 := by
            rcases hch0 with ⟨-, hc1⟩
            rw [hc1] at h3
            by_contra hn
            rw [show (decide (0 < n2) : Bool) = true by simp; omega] at h3
            cases h3
          have hg1eq : g1 = g := h1.trans (hzero hn2)
          rw [hg1eq] at hlines
          refine ⟨hg1.trans hg1eq, hch0.1, ?_⟩
          intro x hx
          rcases List.mem_cons.mp hx with h4 | h4
          · subst h4
            exact solve_row_next_line p g m x (hall x hx) g1 m1 ch1 hsr
          · exact hlines x h4

/-- The column analogue of `pass_rows_all_lines`. -/
theorem pass_cols_all_lines (p : Puzzle) : ∀ (cs : List Nat) (g : Grid)
    (m : SolverMetrics) (ch : Bool) (g' : Grid) (m' : SolverMetrics),
    (∀ c ∈ cs, c < p.col_clues.length) →
    Solver.pass_cols p g m ch cs = .ok (.next g' m' false) →
    g' = g ∧ ch = false ∧
    ∀ c ∈ cs, ∃ res, solve_line (g.get_col c) (p.col_clues.getD c []) = some res := by
  intro cs
  induction cs with
  | nil =>
    intro g m ch g' m' _ h
    injection Except.ok.inj h with h1 h2 h3
    exact ⟨h1.symm, h3, by simp⟩
  | cons c rest ih =>
    intro g m ch g' m' hall h
    cases hsr : Solver.solve_col p g m c with
    | error e =>
      simp only [Solver.pass_cols, hsr] at h
      exact absurd h (by simp)
    | ok out =>
      cases out with
      | contra gc mc =>
        simp only [Solver.pass_cols, hsr] at h
        cases Except.ok.inj h
      | next g1 m1 ch1 =>
        simp only [Solver.pass_cols, hsr] at h
        obtain ⟨hg1, hch, hlines⟩ := ih g1 m1 (ch || ch1) g' m'
          (fun x hx => hall x (List.mem_cons_of_mem _ hx)) h
        have hch0 : ch = false ∧ ch1 = false := by
          simpa using hch
        rcases solve_col_spec p g m c (hall c (List.mem_cons_self c rest)) with
          hcon | ⟨g2, n2, heq, hunk, hzero, _, _, _, _⟩
        · rw [hsr] at hcon
          cases Except.ok.inj hcon
        · rw [hsr] at heq
          injection Except.ok.inj heq with h1 h2 h3
          have hn2 : n2 = 0 := by
            rcases hch0 with ⟨-, hc1⟩
            rw [hc1] at h3
            by_contra hn
            rw [show (decide (0 < n2) : Bool) = true by simp; omega] at h3
            cases h3
          have hg1eq : g1 = g := h1.trans (hzero hn2)
          rw [hg1eq] at hlines
          refine ⟨hg1.trans hg1eq, hch0.1, ?_⟩
          intro x hx
          rcases List.mem_cons.mp hx with h4 | h4
          · subst h4
            exact solve_col_next_line p g m x (hall x hx) g1 m1 ch1 hsr
          · exact hlines x h4

/-- At a propagation fixpoint every row's and every column's line solver
succeeds on the fixpoint grid itself. -/
theorem pass_fix_lines (p : Puzzle) (g : Grid) (m0 m1 : SolverMetrics)
    (hr : p.height ≤ p.row_clues.length) (hc : p.width ≤ p.col_clues.length)
    (h : Solver.pass_once p g m0 = .ok (.next g m1 false)) :
    (∀ i, i < p.height →
      ∃ res, solve_line (g.get_row i) (p.row_clues.getD i []) = some res) ∧
    (∀ j, j < p.width →
      ∃ res, solve_line (g.get_col j) (p.col_clues.getD j []) = some res) := by
  cases hpr : Solver.pass_rows p g m0 false (List.range p.height) with
  | error e =>
    simp only [Solver.pass_once, hpr] at h
    exact absurd h (by simp)
  | ok out =>
    cases out with
    | contra gc mc =>
      simp only [Solver.pass_once, hpr] at h
      cases Except.ok.inj h
    | next g1 mr chr =>
      simp only [Solver.pass_once, hpr] at h
      obtain ⟨hg1, hchr, hcols⟩ := pass_cols_all_lines p (List.range p.width)
        g1 mr chr g m1
        (fun x hx => Nat.lt_of_lt_of_le (List.mem_range.mp hx) hc) h
      rw [hchr] at hpr
      obtain ⟨hg1g, -, hrows⟩ := pass_rows_all_lines p (List.range p.height)
        g m0 false g1 mr
        (fun x hx => Nat.lt_of_lt_of_le (List.mem_range.mp hx) hr) hpr
      constructor
      · intro i hi
        exact hrows i (List.mem_range.mpr hi)
      · intro j hj
        have hx := hcols j (List.mem_range.mpr hj)
        rw [hg1g] at hx
        exact hx

/-- A recorded search solution — complete, well-formed, of the puzzle's
dimensions, and a pass fixpoint — is a genuine solution grid. -/
theorem solrec_gridsol (p : Puzzle) (s : Grid)
    (hr : p.height ≤ p.row_clues.length) (hc : p.width ≤ p.col_clues.length)
    (hwfr : ∀ cl ∈ p.row_clues, WFClues cl)
    (hwfcl : ∀ cl ∈ p.col_clues, WFClues cl)
    (hcomp : s.is_complete = true) (hwf : s.WF)
    (hsw : s.width = p.width) (hsh : s.height = p.height)
    (hfix : ∃ m0 m1, Solver.pass_once p s m0 = .ok (.next s m1 false)) :
    GridSol p s := by
  obtain ⟨m0, m1, hfix⟩ := hfix
  obtain ⟨hrows, hcols⟩ := pass_fix_lines p s m0 m1 hr hc hfix
  refine ⟨hcomp, hwf, hsw, hsh, ?_, ?_⟩
  · intro i hi
    obtain ⟨res, hres⟩ := hrows i hi
    have hwfc : WFClues (p.row_clues.getD i []) :=
      hwfr _ (getD_mem_of_lt _ _ _ (by omega))
    refine complete_line_matches _ _ hwfc ?_ res hres
    intro cell hcell
    have hrowmem : s.get_row i ∈ s.cells := by
      unfold Grid.get_row
      exact getD_mem_of_lt _ _ _ (by rw [hwf.1]; omega)
    have hcall : s.is_complete = true := hcomp
    unfold Grid.is_complete at hcall
    simp only [List.all_eq_true] at hcall
    exact hcall _ hrowmem _ hcell
  · intro j hj
    obtain ⟨res, hres⟩ := hcols j hj
    have hwfc : WFClues (p.col_clues.getD j []) :=
      hwfcl _ (getD_mem_of_lt _ _ _ (by omega))
    refine complete_line_matches _ _ hwfc ?_ res hres
    intro cell hcell
    unfold Grid.get_col at hcell
    obtain ⟨rr, hrr, hcelleq⟩ := List.mem_map.mp hcell
    rw [← hcelleq]
    have hrh : rr < s.height := List.mem_range.mp hrr
    exact is_complete_get s hcomp hwf rr j (by omega) (by omega)

/-- If the target color's branch either times out or records a solution, so
does the whole guess loop (later branches cannot remove solutions or clear the
timeout flag). -/
theorem color_loop_finds (p : Puzzle) (maxSol : Nat) (working : Grid)
    (row col : Nat) (recur : BState → Grid → Except String (BState × Bool))
    (hget : working.get row col = none)
    (hrw : row < working.cells.length)
    (hcl : col < (working.cells.getD row []).length)
    (vH : Nat)
    (hrec_all : ∀ (b : BState) (g2 : Grid), g2.width = working.width →
        g2.height = working.height → (working.WF → g2.WF) →
        g2.unknown_count + 1 = working.unknown_count →
        ∃ r, recur b g2 = .ok r ∧ BStep maxSol b r.1)
    (hrec_target : ∀ (b : BState) (g2 : Grid),
        working.set row col (some vH) = .ok (g2, true) →
        b.solutions.length < maxSol →
        ∀ r2, recur b g2 = .ok r2 →
        r2.1.timed_out = true ∨ b.solutions.length < r2.1.solutions.length) :
    ∀ (colors : List Nat) (bs : BState), vH ∈ colors →
    bs.solutions.length < maxSol →
    ∀ r, color_loop p maxSol working row col recur bs colors = .ok r →
    r.1.timed_out = true ∨ bs.solutions.length < r.1.solutions.length := by
  intro colors
  induction colors with
  | nil =>
    intro bs hmem
    simp at hmem
  | cons c more ih =>
    intro bs hmem hblen r hres
    obtain ⟨g', hset, hw', hh', hclen', hwfp', hgetp', hkeep', hunk'⟩ :=
      grid_set_write working row col c hget hrw hcl
    simp only [color_loop, hset] at hres
    obtain ⟨r1, hr1, hstep1⟩ := hrec_all bs g' hw' hh' hwfp' hunk'
    simp only [hr1] at hres
    obtain ⟨-, -, -, ⟨new1, hnew1⟩, htmono1, -⟩ := hstep1
    have hlen1 : bs.solutions.length ≤ r1.1.solutions.length := by
      rw [hnew1]
      simp
    by_cases hstop : maxSol ≤ r1.1.solutions.length
    · rw [if_pos hstop] at hres
      have hrr : (⟨r1.1, true⟩ : BState × Bool) = r := Except.ok.inj hres
      right
      rw [← hrr]
      simp only
      omega
    · rw [if_neg hstop] at hres
      rcases List.mem_cons.mp hmem with hcv | hcv
      · subst hcv
        obtain ⟨r2, hr2, hstep2⟩ := color_loop_spec p maxSol working row col
          recur hget hrw hcl hrec_all more r1.1
        rw [hr2] at hres
        have hr2r : r2 = r := Except.ok.inj hres
        obtain ⟨-, -, -, ⟨new2, hnew2⟩, htmono2, -⟩ := hstep2
        rcases hrec_target bs g' hset hblen r1 hr1 with htimed | hinc
        · left
          rw [← hr2r]
          exact htmono2 htimed
        · right
          rw [← hr2r, hnew2]
          simp only [List.length_append]
          omega
      · have hres2 := ih r1.1 hcv (by omega) r hres
        rcases hres2 with h | h
        · exact Or.inl h
        · right
          omega

/-- Search completeness: below a branch grid that some solution still refines,
the recursive search either times out or records at least one new solution. -/
theorem solve_recursive_finds (p : Puzzle) (maxSol maxBt : Nat)
    (hr : p.height ≤ p.row_clues.length) (hc : p.width ≤ p.col_clues.length)
    (H : Grid) (hH : GridSol p H)
    (hHcov : ∀ a b v, H.get a b = some v → v ∈ EMPTY :: p.colors) :
    ∀ (fuel : Nat) (bs : BState) (grid : Grid), grid.WF →
    grid.unknown_count < fuel →
    grid.width = p.width → grid.height = p.height →
    Extends grid H →
    bs.solutions.length < maxSol →
    ∀ r, solve_recursive p maxSol maxBt fuel bs grid = .ok r →
    r.1.timed_out = true ∨ bs.solutions.length < r.1.solutions.length := by
  intro fuel
  induction fuel with
  | zero => intro bs grid _ h; exact (Nat.not_lt_zero _ h).elim
  | succ fuel ih =>
    intro bs grid hwf hfuel hgw hgh hge hblen r hres
    simp only [solve_recursive] at hres
    rw [if_neg (by omega)] at hres
    by_cases h2 : maxBt ≤ bs.metrics.backtrack_count
    · rw [if_pos h2] at hres
      have hr2 : (⟨{ bs with timed_out := true }, true⟩ : BState × Bool) = r :=
        Except.ok.inj hres
      left
      rw [← hr2]
    · rw [if_neg h2] at hres
      obtain ⟨gp, mp', hprop, hext', hw', hh', hwf'⟩ :=
        branch_propagate_pres p H hH hr hc grid SolverMetrics.zero hge hgw hgh hwf
      have hule : gp.unknown_count ≤ grid.unknown_count := by
        obtain ⟨-, -, -, -, -, h6, -⟩ :=
          (branch_propagate_spec p grid SolverMetrics.zero hr hc).2 gp mp' hprop
        exact h6
      simp only [hprop] at hres
      by_cases hcomp : gp.is_complete = true
      · rw [if_pos hcomp] at hres
        have hr2 := Except.ok.inj hres
        right
        rw [← hr2]
        simp
      · rw [if_neg hcomp] at hres
        cases hfind : gp.find_unknown with
        | none =>
          exact absurd (grid_find_unknown_none gp hwf' hfind) (by simp [hcomp])
        | some rc =>
          simp only [hfind] at hres
          obtain ⟨hrr, hrcw, hget0⟩ :=
            grid_find_unknown_some gp rc.1 rc.2 (by rw [hfind])
          have hrw2 : rc.1 < gp.cells.length := by
            rw [hwf'.1]
            omega
          have hcl2 : rc.2 < (gp.cells.getD rc.1 []).length := by
            rw [hwf'.2 _ (getD_mem_of_lt _ _ _ hrw2)]
            omega
          obtain ⟨hHc, hHwf, hHw, hHh, -, -⟩ := hH
          have hHsome := is_complete_get H hHc hHwf rc.1 rc.2
            (by rw [hHh, ← hh']; omega) (by rw [hHw, ← hw']; omega)
          obtain ⟨vH, hvH⟩ := Option.isSome_iff_exists.mp hHsome
          have hvmem : vH ∈ possible_colors p :=
            List.mem_dedup.mpr (hHcov rc.1 rc.2 vH hvH)
          have hrec_all : ∀ (b : BState) (g2 : Grid), g2.width = gp.width →
              g2.height = gp.height → (gp.WF → g2.WF) →
              g2.unknown_count + 1 = gp.unknown_count →
              ∃ r2, solve_recursive p maxSol maxBt fuel b g2 = .ok r2 ∧
                BStep maxSol b r2.1 := by
            intro b g2 _ _ hwf2 hunk2
            exact solve_recursive_spec p maxSol maxBt hr hc fuel b g2
              (hwf2 hwf') (by omega)
          have hrec_target : ∀ (b : BState) (g2 : Grid),
              gp.set rc.1 rc.2 (some vH) = .ok (g2, true) →
              b.solutions.length < maxSol →
              ∀ r2, solve_recursive p maxSol maxBt fuel b g2 = .ok r2 →
              r2.1.timed_out = true ∨ b.solutions.length < r2.1.solutions.length := by
            intro b g2 hsetb hb r2 hres2
            obtain ⟨g'w, hsetw, hww2, hwh2, hclen2, hwfp2, hgetp2, hkeep2, hunk2⟩ :=
              grid_set_write gp rc.1 rc.2 vH hget0 hrw2 hcl2
            rw [hsetw] at hsetb
            have hg2 : g'w = g2 := congrArg Prod.fst (Except.ok.inj hsetb)
            rw [← hg2] at hres2
            have hextw : Extends g'w H := by
              intro a b2 v hv
              by_cases hab : a = rc.1 ∧ b2 = rc.2
              · rw [hab.1, hab.2] at hv
                rw [hgetp2] at hv
                have hvv : vH = v := Option.some.inj hv
                rw [hab.1, hab.2, ← hvv]
                exact hvH
              · rw [hkeep2 a b2 (by tauto)] at hv
                exact hext' a b2 v hv
            exact ih b g'w (hwfp2 hwf') (by omega) (hww2.trans hw')
              (hwh2.trans hh') hextw hb r2 hres2
          exact color_loop_finds p maxSol gp rc.1 rc.2
            (fun b g2 => solve_recursive p maxSol maxBt fuel b g2)
            hget0 hrw2 hcl2 vH hrec_all hrec_target (possible_colors p)
            { bs with metrics := { bs.metrics with
                total_steps := bs.metrics.total_steps + mp'.total_steps,
                backtrack_count := bs.metrics.backtrack_count + 1,
                backtrack_depth := max bs.metrics.backtrack_depth 1 } }
            hvmem (by simpa using hblen) r hres

theorem grid_eq_of_fields {g1 g2 : Grid} (hw : g1.width = g2.width)
    (hh : g1.height = g2.height) (hcells : g1.cells = g2.cells) : g1 = g2 := by
  cases g1
  cases g2
  simp_all

theorem pfg_height (G : List (List Nat)) (colors : List Nat) :
    (puzzle_from_grid G colors).height = G.length := rfl

theorem pfg_width (G : List (List Nat)) (colors : List Nat) :
    (puzzle_from_grid G colors).width = (G.headD []).length := rfl

theorem pfg_row_clues_length (G : List (List Nat)) (colors : List Nat) :
    (puzzle_from_grid G colors).row_clues.length = G.length := by
  simp [puzzle_from_grid]

theorem pfg_col_clues_length (G : List (List Nat)) (colors : List Nat) :
    (puzzle_from_grid G colors).col_clues.length = (G.headD []).length := by
  simp [puzzle_from_grid]

theorem pfg_row_clues_getD (G : List (List Nat)) (colors : List Nat) (i : Nat)
    (hi : i < G.length) :
    (puzzle_from_grid G colors).row_clues.getD i [] =
      generate_clues (G.getD i []) :=
  getD_map generate_clues G i [] [] hi

theorem pfg_col_clues_getD (G : List (List Nat)) (colors : List Nat) (j : Nat)
    (hj : j < (G.headD []).length) :
    (puzzle_from_grid G colors).col_clues.getD j [] =
      generate_clues (grid_column G j) := by
  show ((List.range (G.headD []).length).map fun c =>
      generate_clues (grid_column G c)).getD j [] = _
  rw [getD_map _ _ j [] 0 (by simpa using hj)]
  congr 1
  rw [getD_eq_getElem _ _ _ (by simpa using hj)]
  simp

theorem pfg_row_clues_wf (G : List (List Nat)) (colors : List Nat) :
    ∀ cl ∈ (puzzle_from_grid G colors).row_clues, WFClues cl := by
  intro cl hcl
  obtain ⟨row, -, hrow⟩ := List.mem_map.mp hcl
  rw [← hrow]
  exact wf_generate_clues row

theorem pfg_col_clues_wf (G : List (List Nat)) (colors : List Nat) :
    ∀ cl ∈ (puzzle_from_grid G colors).col_clues, WFClues cl := by
  intro cl hcl
  obtain ⟨c, -, hcol⟩ := List.mem_map.mp hcl
  rw [← hcol]
  exact wf_generate_clues _

theorem line_vals_map_some (row : List Nat) :
    line_vals (row.map some) = row := by
  induction row with
  | nil => rfl
  | cons v rest ih =>
    show (some v).getD EMPTY :: line_vals (rest.map some) = v :: rest
    rw [ih]
    rfl

theorem map_line_vals_id (row : List (Option Nat))
    (hall : ∀ c ∈ row, c.isSome = true) :
    (line_vals row).map some = row := by
  induction row with
  | nil => rfl
  | cons c rest ih =>
    obtain ⟨v, hv⟩ := Option.isSome_iff_exists.mp (hall c (List.mem_cons_self _ _))
    show some (c.getD EMPTY) :: (line_vals rest).map some = c :: rest
    rw [hv, ih (fun x hx => hall x (List.mem_cons_of_mem _ hx))]
    rfl

theorem of_rows_wf (G : List (List Nat))
    (hrect : ∀ row ∈ G, row.length = (G.headD []).length) :
    (Grid.of_rows G).WF := by
  constructor
  · simp [Grid.of_rows]
  · intro row hrow
    obtain ⟨row0, hrow0, hmap⟩ := List.mem_map.mp hrow
    rw [← hmap]
    simp only [List.length_map]
    exact hrect row0 hrow0

theorem of_rows_complete (G : List (List Nat)) :
    (Grid.of_rows G).is_complete = true := by
  unfold Grid.is_complete Grid.of_rows
  simp only [List.all_eq_true]
  intro row hrow cell hcell
  obtain ⟨row0, -, hmap⟩ := List.mem_map.mp hrow
  rw [← hmap] at hcell
  obtain ⟨v, -, hv⟩ := List.mem_map.mp hcell
  rw [← hv]
  rfl

theorem of_rows_get_some (G : List (List Nat)) (a b v : Nat)
    (h : (Grid.of_rows G).get a b = some v) : ∃ row ∈ G, v ∈ row := by
  unfold Grid.get Grid.of_rows at h
  simp only at h
  by_cases ha : a < G.length
  · rw [getD_map _ _ a [] [] ha] at h
    by_cases hb : b < (G.getD a []).length
    · rw [getD_map _ _ b none EMPTY (by simpa using hb)] at h
      have hv := Option.some.inj h
      refine ⟨G.getD a [], getD_mem_of_lt _ _ _ ha, ?_⟩
      rw [← hv]
      exact getD_mem_of_lt _ _ _ hb
    · rw [List.getD_eq_default _ _ (by simp only [List.length_map]; omega)] at h
      cases h
  · have hout : (G.map (fun row => row.map some)).getD a [] = [] :=
      List.getD_eq_default _ _ (by simp only [List.length_map]; omega)
    rw [hout] at h
    simp at h

theorem of_rows_get_row (G : List (List Nat)) (i : Nat) (hi : i < G.length) :
    (Grid.of_rows G).get_row i = (G.getD i []).map some := by
  unfold Grid.get_row Grid.of_rows
  exact getD_map _ _ i [] [] hi

theorem of_rows_get_col (G : List (List Nat))
    (hrect : ∀ row ∈ G, row.length = (G.headD []).length)
    (j : Nat) (hj : j < (G.headD []).length) :
    line_vals ((Grid.of_rows G).get_col j) = grid_column G j := by
  apply List.ext_getElem
  · simp [line_vals, Grid.get_col, Grid.of_rows, grid_column]
  · intro r h1 h2
    have hr : r < G.length := by
      simpa [line_vals, Grid.get_col, Grid.of_rows] using h1
    simp only [line_vals, Grid.get_col, Grid.of_rows, grid_column,
      List.getElem_map, List.getElem_range]
    rw [getD_map _ _ r [] [] hr]
    have hjr : j < (G.getD r []).length := by
      rw [hrect _ (getD_mem_of_lt _ _ _ hr)]
      exact hj
    rw [getD_map _ _ j none EMPTY (by simpa using hjr)]
    rw [getD_eq_getElem _ _ _ hr]
    rfl

/-- The filled grid read back from a fully filled grid is a solution grid of
the puzzle generated from it. -/
theorem of_rows_gridsol (G : List (List Nat)) (colors : List Nat)
    (hrect : ∀ row ∈ G, row.length = (G.headD []).length) :
    GridSol (puzzle_from_grid G colors) (Grid.of_rows G) := by
  refine ⟨of_rows_complete G, of_rows_wf G hrect, rfl, rfl, ?_, ?_⟩
  · intro i hi
    have hiG : i < G.length := hi
    rw [of_rows_get_row G i hiG, line_vals_map_some,
      pfg_row_clues_getD G colors i hiG]
  · intro j hj
    have hjG : j < (G.headD []).length := hj
    rw [of_rows_get_col G hrect j hjG, pfg_col_clues_getD G colors j hjG]

theorem grid_column_rows_of (s : Grid) (hwf : s.WF)
    (j : Nat) (hj : j < s.width) :
    grid_column (rows_of s) j = line_vals (s.get_col j) := by
  apply List.ext_getElem
  · simp [grid_column, rows_of, line_vals, Grid.get_col, hwf.1]
  · intro r h1 h2
    have hr : r < s.cells.length := by
      simpa [grid_column, rows_of] using h1
    have hrow : s.cells[r] = s.cells.getD r [] := (getD_eq_getElem _ _ _ hr).symm
    have hjr : j < (s.cells.getD r []).length := by
      rw [hwf.2 _ (getD_mem_of_lt _ _ _ hr)]
      exact hj
    have hL : (grid_column (rows_of s) j)[r] =
        (line_vals (s.cells[r])).getD j EMPTY := by
      simp [grid_column, rows_of]
    have hR : (line_vals (s.get_col j))[r] =
        ((s.cells.getD r []).getD j none).getD EMPTY := by
      simp [line_vals, Grid.get_col]
    rw [hL, hR, hrow]
    exact line_vals_getD _ _ hjr

/-- A solution grid, read back as color rows, is a solution of the puzzle. -/
theorem gridsol_issolution (p : Puzzle) (s : Grid) (h : GridSol p s) :
    IsSolution p (rows_of s) := by
  obtain ⟨hcomp, hwf, hsw, hsh, hrows, hcols⟩ := h
  refine ⟨?_, ?_, ?_, ?_⟩
  · simp only [rows_of, List.length_map]
    rw [hwf.1, hsh]
  · intro row hrow
    obtain ⟨row0, hrow0, hmap⟩ := List.mem_map.mp hrow
    rw [← hmap]
    simp only [line_vals, List.length_map]
    rw [hwf.2 _ hrow0, hsw]
  · intro i hi
    have hi2 : i < s.cells.length := by
      rw [hwf.1, hsh]
      exact hi
    have : (rows_of s).getD i [] = line_vals (s.get_row i) := by
      unfold rows_of Grid.get_row
      exact getD_map _ _ i [] [] hi2
    rw [this]
    exact hrows i hi
  · intro j hj
    rw [grid_column_rows_of s hwf j (by omega)]
    exact hcols j hj

/-- A complete solution grid is exactly the filled grid of its color rows. -/
theorem gridsol_eq_of_rows (p : Puzzle) (s : Grid) (h : GridSol p s)
    (G : List (List Nat)) (hG : rows_of s = G)
    (hwidth : p.width = (G.headD []).length) (hheight : p.height = G.length) :
    s = Grid.of_rows G := by
  obtain ⟨hcomp, hwf, hsw, hsh, -, -⟩ := h
  refine grid_eq_of_fields ?_ ?_ ?_
  · rw [hsw, hwidth]
    rfl
  · rw [hsh, hheight]
    rfl
  · show s.cells = G.map (fun row => row.map some)
    rw [← hG]
    unfold rows_of
    rw [List.map_map]
    apply List.ext_getElem (by simp)
    intro i h1 h2
    simp only [List.getElem_map, Function.comp]
    have hmem : s.cells[i] ∈ s.cells := List.getElem_mem _
    unfold Grid.is_complete at hcomp
    simp only [List.all_eq_true] at hcomp
    exact (map_line_vals_id _ (fun c hc => hcomp _ hmem c hc)).symm

/-- C3 (amended): for a rectangular fully filled grid `G` whose colors the
palette covers, if `G` is the unique solution of the generated puzzle and the
uniqueness-checking solve does not exhaust its guess budget, then the result is
solved and its grid is exactly `G`. -/
theorem c3_round_trip (G : List (List Nat)) (colors : List Nat)
    (hrect : ∀ row ∈ G, row.length = (G.headD []).length)
    (hcover : ∀ row ∈ G, ∀ v ∈ row, v ≠ EMPTY → v ∈ colors)
    (huniq : ∀ H, IsSolution (puzzle_from_grid G colors) H → H = G)
    (res : SolveResult)
    (hres : solve (puzzle_from_grid G colors) true = .ok res)
    (hnt : res.timed_out = false) :
    res.solved = true ∧ res.grid = Grid.of_rows G := by
  have hr : (puzzle_from_grid G colors).height ≤
      (puzzle_from_grid G colors).row_clues.length := by
    rw [pfg_row_clues_length, pfg_height]
  have hc : (puzzle_from_grid G colors).width ≤
      (puzzle_from_grid G colors).col_clues.length := by
    rw [pfg_col_clues_length, pfg_width]
  have hfuelok : (Grid.create_empty (puzzle_from_grid G colors).width
      (puzzle_from_grid G colors).height).unknown_count <
      (puzzle_from_grid G colors).width * (puzzle_from_grid G colors).height + 1 := by
    rw [create_empty_unknown_count, Nat.mul_comm]
    omega
  obtain ⟨rr, hsr, hstep⟩ := solve_recursive_spec (puzzle_from_grid G colors)
    2 500 hr hc
    ((puzzle_from_grid G colors).width * (puzzle_from_grid G colors).height + 1)
    ⟨SolverMetrics.zero, [], false⟩
    (Grid.create_empty (puzzle_from_grid G colors).width
      (puzzle_from_grid G colors).height)
    (create_empty_wf _ _) hfuelok
  have hrun : backtracking_run (puzzle_from_grid G colors) 2 500 = .ok rr.1 := by
    unfold backtracking_run
    rw [hsr]
  have hsolve : BacktrackingSolver.solve (puzzle_from_grid G colors) 2 500 =
      .ok res := by
    simpa [solve] using hres
  unfold BacktrackingSolver.solve at hsolve
  simp only [hrun] at hsolve
  obtain ⟨new, hnew, hsols, hpair⟩ := solve_recursive_sols
    (puzzle_from_grid G colors) 2 500 hr hc _ _ _
    (create_empty_wf _ _) hfuelok rr hsr
  have hnew' : rr.1.solutions = new := by simpa using hnew
  have hcov : ∀ a b v, (Grid.of_rows G).get a b = some v →
      v ∈ EMPTY :: (puzzle_from_grid G colors).colors := by
    intro a b v hv
    obtain ⟨row, hrow, hvrow⟩ := of_rows_get_some G a b v hv
    by_cases hvE : v = EMPTY
    · rw [hvE]
      exact List.mem_cons_self _ _
    · exact List.mem_cons_of_mem _ (hcover row hrow v hvrow hvE)
  have hfinds := solve_recursive_finds (puzzle_from_grid G colors) 2 500 hr hc
    (Grid.of_rows G) (of_rows_gridsol G colors hrect) hcov
    _ ⟨SolverMetrics.zero, [], false⟩
    (Grid.create_empty (puzzle_from_grid G colors).width
      (puzzle_from_grid G colors).height)
    (create_empty_wf _ _) hfuelok rfl rfl
    (fun a b v hv => by rw [create_empty_get] at hv; cases hv)
    (by simp) rr hsr
  have hrec_eq : ∀ s ∈ new, s = Grid.of_rows G := by
    intro s hs
    obtain ⟨hcomp0, hext0, hw0, hh0, hwf0, hfix0⟩ := hsols s hs
    have hgs : GridSol (puzzle_from_grid G colors) s :=
      solrec_gridsol (puzzle_from_grid G colors) s hr hc
        (pfg_row_clues_wf G colors) (pfg_col_clues_wf G colors)
        hcomp0 hwf0 hw0 hh0 hfix0
    exact gridsol_eq_of_rows (puzzle_from_grid G colors) s hgs G
      (huniq _ (gridsol_issolution _ s hgs)) rfl rfl
  by_cases ht : rr.1.timed_out = true
  · rw [if_pos ht] at hsolve
    have hre := Except.ok.inj hsolve
    rw [← hre] at hnt
    exact absurd hnt (by simp)
  · rw [if_neg ht] at hsolve
    have hpos : 0 < rr.1.solutions.length := by
      rcases hfinds with h | h
      · exact absurd h ht
      · simpa using h
    have hlen2 : rr.1.solutions.length ≤ 2 := by
      have := hstep.2.2.2.2.2
      simpa using this
    by_cases h1 : rr.1.solutions.length = 1
    · rw [if_pos h1] at hsolve
      have hre := Except.ok.inj hsolve
      rw [← hre]
      refine ⟨rfl, ?_⟩
      show rr.1.solutions.getD 0 (Grid.create_empty _ _) = Grid.of_rows G
      have hmem0 : rr.1.solutions.getD 0 (Grid.create_empty
          (puzzle_from_grid G colors).width (puzzle_from_grid G colors).height)
          ∈ rr.1.solutions :=
        getD_mem_of_lt _ _ _ (by omega)
      exact hrec_eq _ (by rw [← hnew']; exact hmem0)
    · rw [if_neg h1] at hsolve
      exfalso
      have hl2 : rr.1.solutions.length = 2 := by omega
      obtain ⟨s0, s1, hlist⟩ : ∃ s0 s1, rr.1.solutions = [s0, s1] := by
        cases hx : rr.1.solutions with
        | nil => rw [hx] at hl2; simp at hl2
        | cons a t =>
          cases t with
          | nil => rw [hx] at hl2; simp at hl2
          | cons b t2 =>
            cases t2 with
            | nil => exact ⟨a, b, rfl⟩
            | cons c2 t3 => rw [hx] at hl2; simp at hl2
      have hs0 : s0 ∈ new := by
        rw [← hnew', hlist]
        simp
      have hs1 : s1 ∈ new := by
        rw [← hnew', hlist]
        simp
      have hne : s0 ≠ s1 := by
        have hp2 := hpair
        rw [← hnew', hlist] at hp2
        exact (List.pairwise_cons.mp hp2).1 s1 (by simp)
      exact hne ((hrec_eq s0 hs0).trans (hrec_eq s1 hs1).symm)

/-- The three-cell lines realizing the clue list `[1c1]`. -/
theorem row3_single (row : List Nat) (hlen : row.length = 3)
    (h : generate_clues row = [⟨1, 1⟩]) :
    row = [1, 0, 0] ∨ row = [0, 1, 0] ∨ row = [0, 0, 1] := by
  have hm := matches_iff_generate_clues.mpr h
  cases hm with
  | cons n c s cs hcount hcolor hs hhead =>
    obtain ⟨m, hsrep⟩ := matches_nil_all_empty hs
    subst hsrep
    have hlen2 : n + 1 + m = 3 := by
      simp at hlen
      omega
    have hcase : n = 0 ∧ m = 2 ∨ n = 1 ∧ m = 1 ∨ n = 2 ∧ m = 0 := by omega
    rcases hcase with ⟨h1, h2⟩ | ⟨h1, h2⟩ | ⟨h1, h2⟩ <;> subst h1 <;> subst h2
    · left; rfl
    · right; left; rfl
    · right; right; rfl

/-- Uniqueness of `g43` among all solutions of its generated puzzle. -/
theorem uniq43 : ∀ H, IsSolution (puzzle_from_grid g43 []) H → H = g43 := by
  intro H h
  obtain ⟨hlen, hrows, hrcl, hccl⟩ := h
  have hlen4 : H.length = 4 := hlen
  obtain ⟨r0, r1, r2, r3, hH⟩ : ∃ a b c d, H = [a, b, c, d] := by
    cases H with
    | nil => simp at hlen4
    | cons a t1 =>
      cases t1 with
      | nil => simp at hlen4
      | cons b t2 =>
        cases t2 with
        | nil => simp at hlen4
        | cons c t3 =>
          cases t3 with
          | nil => simp at hlen4
          | cons d t4 =>
            cases t4 with
            | nil => exact ⟨a, b, c, d, rfl⟩
            | cons e t5 => simp at hlen4
  subst hH
  have hw3 : (puzzle_from_grid g43 ([] : List Nat)).width = 3 := by decide
  have hl0 : r0.length = 3 := by rw [← hw3]; exact hrows r0 (by simp)
  have hl1 : r1.length = 3 := by rw [← hw3]; exact hrows r1 (by simp)
  have hl2 : r2.length = 3 := by rw [← hw3]; exact hrows r2 (by simp)
  have hl3 : r3.length = 3 := by rw [← hw3]; exact hrows r3 (by simp)
  have h0 : generate_clues r0 = [⟨1, 1⟩] := by
    have h := hrcl 0 (by decide)
    rw [show (puzzle_from_grid g43 ([] : List Nat)).row_clues.getD 0 [] = [⟨1, 1⟩]
      from by decide] at h
    simpa using h
  have h1 : generate_clues r1 = [⟨1, 1⟩] := by
    have h := hrcl 1 (by decide)
    rw [show (puzzle_from_grid g43 ([] : List Nat)).row_clues.getD 1 [] = [⟨1, 1⟩]
      from by decide] at h
    simpa using h
  have h2 : generate_clues r2 = [⟨1, 1⟩] := by
    have h := hrcl 2 (by decide)
    rw [show (puzzle_from_grid g43 ([] : List Nat)).row_clues.getD 2 [] = [⟨1, 1⟩]
      from by decide] at h
    simpa using h
  have h3 : generate_clues r3 = [⟨1, 1⟩] := by
    have h := hrcl 3 (by decide)
    rw [show (puzzle_from_grid g43 ([] : List Nat)).row_clues.getD 3 [] = [⟨1, 1⟩]
      from by decide] at h
    simpa using h
  have hc0 : generate_clues (grid_column [r0, r1, r2, r3] 0) = [] := by
    have h := hccl 0 (by decide)
    rw [show (puzzle_from_grid g43 ([] : List Nat)).col_clues.getD 0 [] = []
      from by decide] at h
    exact h
  have hc1 : generate_clues (grid_column [r0, r1, r2, r3] 1) = [⟨1, 1⟩, ⟨1, 1⟩] := by
    have h := hccl 1 (by decide)
    rw [show (puzzle_from_grid g43 ([] : List Nat)).col_clues.getD 1 [] =
      [⟨1, 1⟩, ⟨1, 1⟩] from by decide] at h
    exact h
  have hc2 : generate_clues (grid_column [r0, r1, r2, r3] 2) = [⟨2, 1⟩] := by
    have h := hccl 2 (by decide)
    rw [show (puzzle_from_grid g43 ([] : List Nat)).col_clues.getD 2 [] = [⟨2, 1⟩]
      from by decide] at h
    exact h
  rcases row3_single r0 hl0 h0 with hr0 | hr0 | hr0 <;>
    rcases row3_single r1 hl1 h1 with hr1 | hr1 | hr1 <;>
      rcases row3_single r2 hl2 h2 with hr2 | hr2 | hr2 <;>
        rcases row3_single r3 hl3 h3 with hr3 | hr3 | hr3 <;>
          subst hr0 <;> subst hr1 <;> subst hr2 <;> subst hr3 <;>
            first
              | rfl
              | (exfalso; revert hc0 hc1 hc2; decide)

/-- C3 counterexample to the original claim: `g43` is the unique solution of
the puzzle generated from it, yet with an empty color map the
uniqueness-checking solve returns unsolved (the guess loop, drawing candidate
values from the palette keys plus EMPTY, cannot place the missing color). -/
theorem c3_counterexample :
    (∀ H, IsSolution (puzzle_from_grid g43 []) H → H = g43) ∧
    solve (puzzle_from_grid g43 []) true = .ok
      { solved := false, grid := Grid.create_empty 3 4,
        metrics := ⟨14, 0, 0, 0, 1, 1⟩, solutions_found := 0,
        timed_out := false } :=
  ⟨uniq43, rfl⟩

/-- Uniqueness of the one-cell grid `[[1]]` for its generated puzzle. -/
theorem uniq11 : ∀ H, IsSolution (puzzle_from_grid [[1]] [1]) H → H = [[1]] := by
  intro H h
  obtain ⟨hlen, hrows, hrcl, -⟩ := h
  have hlen1 : H.length = 1 := hlen
  obtain ⟨row, hH⟩ : ∃ a, H = [a] := by
    cases H with
    | nil => simp at hlen1
    | cons a t =>
      cases t with
      | nil => exact ⟨a, rfl⟩
      | cons b t2 => simp at hlen1
  subst hH
  have hrl : row.length = 1 := by
    have h := hrows row (by simp)
    rwa [show (puzzle_from_grid [[1]] [1]).width = 1 from by decide] at h
  obtain ⟨x, hrow⟩ : ∃ x, row = [x] := by
    cases row with
    | nil => simp at hrl
    | cons x t =>
      cases t with
      | nil => exact ⟨x, rfl⟩
      | cons y t2 => simp at hrl
  subst hrow
  have h0 : generate_clues [x] = [⟨1, 1⟩] := by
    have h := hrcl 0 (by decide)
    rw [show (puzzle_from_grid [[1]] [1]).row_clues.getD 0 [] = [⟨1, 1⟩]
      from by decide] at h
    simpa using h
  by_cases hx : x = EMPTY
  · subst hx
    rw [show generate_clues [EMPTY] = [] from by decide] at h0
    cases h0
  · rw [show generate_clues [x] = [⟨1, x⟩] from by
      simp [generate_clues, rle_aux, hx]] at h0
    have hx1 : x = 1 := by simpa using h0
    rw [hx1]

theorem c3_round_trip_witness :
    (∀ H, IsSolution (puzzle_from_grid [[1]] [1]) H → H = [[1]]) ∧
    solve (puzzle_from_grid [[1]] [1]) true = .ok
      { solved := true, grid := Grid.of_rows [[1]],
        metrics := ⟨4, 0, 0, 0, 0, 0⟩, solutions_found := 1,
        timed_out := false } ∧
    ({ solved := true, grid := Grid.of_rows [[1]],
        metrics := ⟨4, 0, 0, 0, 0, 0⟩, solutions_found := 1,
        timed_out := false } : SolveResult).solved = true ∧
    ({ solved := true, grid := Grid.of_rows [[1]],
        metrics := ⟨4, 0, 0, 0, 0, 0⟩, solutions_found := 1,
        timed_out := false } : SolveResult).grid = Grid.of_rows [[1]] := by
  have happ := c3_round_trip [[1]] [1] (by decide) (by decide) uniq11
    { solved := true, grid := Grid.of_rows [[1]],
      metrics := ⟨4, 0, 0, 0, 0, 0⟩, solutions_found := 1,
      timed_out := false } rfl rfl
  exact ⟨uniq11, rfl, happ.1, happ.2⟩

end Nonogram
